import Mathlib

/-!
Verification development for the zModel mesh-operator kernel.

The TypeScript kernel is shallowly embedded over the rationals: every
JavaScript number is modelled as a `ℚ`, `Math.sqrt` as `Rat.sqrt` (exact on
perfect squares, which covers every square root actually evaluated by the
concrete inputs below), and `Math.cos`/`Math.sin` of the Euler angles of a
transform are carried as explicit rational fields of the transform record
(`Math.cos 0 = 1` and `Math.sin 0 = 0` exactly, so the identity transform is
represented faithfully).  JavaScript `Set`/`Map` iteration order is insertion
order; they are modelled as association lists with first-insertion order.
Typed-array writes of `undefined` (which `Uint16Array` coerces to `0`) are
modelled with `Option ℕ` where the source can actually produce them.
-/

namespace ZModel

/-- Embedding of `Math.sqrt` on rationals; exact whenever the radicand is a
square of a rational, which is the case on every evaluation path used by the
concrete witnesses in this file. -/
def ratSqrt (q : ℚ) : ℚ := Rat.sqrt q

/-- Immutable 3-vector of rational coordinates (source type `Vec3`). -/
structure Vec3Q where
  x : ℚ
  y : ℚ
  z : ℚ
deriving DecidableEq, Repr

instance : Inhabited Vec3Q := ⟨⟨0, 0, 0⟩⟩

def vec3Add (a b : Vec3Q) : Vec3Q := ⟨a.x + b.x, a.y + b.y, a.z + b.z⟩

def vec3Sub (a b : Vec3Q) : Vec3Q := ⟨a.x - b.x, a.y - b.y, a.z - b.z⟩

def vec3Scale (v : Vec3Q) (s : ℚ) : Vec3Q := ⟨v.x * s, v.y * s, v.z * s⟩

def vec3Dot (a b : Vec3Q) : ℚ := a.x * b.x + a.y * b.y + a.z * b.z

def vec3Cross (a b : Vec3Q) : Vec3Q :=
  ⟨a.y * b.z - a.z * b.y, a.z * b.x - a.x * b.z, a.x * b.y - a.y * b.x⟩

def vec3LengthSq (v : Vec3Q) : ℚ := v.x * v.x + v.y * v.y + v.z * v.z

def vec3Length (v : Vec3Q) : ℚ := ratSqrt (vec3LengthSq v)

def vec3Normalize (v : Vec3Q) : Vec3Q :=
  let len := ratSqrt (v.x * v.x + v.y * v.y + v.z * v.z)
  if len = 0 then ⟨0, 0, 0⟩ else ⟨v.x / len, v.y / len, v.z / len⟩

def vec3Lerp (a b : Vec3Q) (t : ℚ) : Vec3Q :=
  ⟨a.x + (b.x - a.x) * t, a.y + (b.y - a.y) * t, a.z + (b.z - a.z) * t⟩

def vec3Flip (v : Vec3Q) : Vec3Q := ⟨-v.x, -v.y, -v.z⟩

def vec3Distance (a b : Vec3Q) : ℚ :=
  ratSqrt ((b.x - a.x) * (b.x - a.x) + (b.y - a.y) * (b.y - a.y) +
    (b.z - a.z) * (b.z - a.z))

/-- Read of a packed float buffer; out-of-range reads default to `0` (they are
not exercised in range by any theorem below). -/
def getQ (l : List ℚ) (i : ℕ) : ℚ := l.getD i 0

/-- Read vertex `i` of a packed XYZ buffer. -/
def vtx (vs : List ℚ) (i : ℕ) : Vec3Q :=
  ⟨getQ vs (i * 3), getQ vs (i * 3 + 1), getQ vs (i * 3 + 2)⟩

/-- Triangle of vertex indices. -/
abbrev Tri := ℕ × ℕ × ℕ

/-- Group a flat index buffer into consecutive triples, the `for (i += 3)`
triangle walk of the source (a trailing fragment of fewer than three entries
is dropped; every theorem below assumes `3 ∣ length`). -/
def tris : List ℕ → List Tri
  | a :: b :: c :: r => (a, b, c) :: tris r
  | _ => []

/-- Flatten a triangle list back into the index buffer. -/
def untris (l : List Tri) : List ℕ :=
  l.flatMap fun t => [t.1, t.2.1, t.2.2]

/-- Canonical unordered pair `(min, max)`, the source edge key
`min(a,b)-max(a,b)`. -/
def canonPair (a b : ℕ) : ℕ × ℕ := (min a b, max a b)

/-- Append an element unless already present: the `Set`-guarded `push` used by
every edge rebuild in the source. -/
def pushUnique {α : Type} [DecidableEq α] (acc : List α) (x : α) : List α :=
  if x ∈ acc then acc else acc ++ [x]

/-- Canonical sides of one triangle, in the source emission order. -/
def triSides (t : Tri) : List (ℕ × ℕ) :=
  [canonPair t.1 t.2.1, canonPair t.2.1 t.2.2, canonPair t.2.2 t.1]

/-- Shared edge rebuild: walk the triangles of the index buffer and collect
each canonical side once, in first-occurrence order.  This is the exact loop
that ends `subdivide`, `loopCut`, `bevel`, `mirror`, `array`, `solidify`,
`knife`, `bridge`, `decimate` and `boolean` in the source. -/
def rebuildEdges (ix : List ℕ) : List (ℕ × ℕ) :=
  ((tris ix).flatMap triSides).foldl pushUnique []

/-- JavaScript `new Uint16Array(xs)` on an integer array: every entry is
stored modulo `2^16`.  The source builds every final index buffer this way,
while the edge and face lists are built from the unwrapped values. -/
def toUint16 (ix : List ℕ) : List ℕ := ix.map fun v => v % 65536

/-- Uncanonicalised sides of one triangle. -/
def sidePairs (t : Tri) : List (ℕ × ℕ) :=
  [(t.1, t.2.1), (t.2.1, t.2.2), (t.2.2, t.1)]

/-- Specification-side notion: the unordered pair `{a, b}` appears as a side
of some triangle of the index buffer. -/
def IsTriSide (ix : List ℕ) (a b : ℕ) : Prop :=
  ∃ t ∈ tris ix, ∃ p ∈ sidePairs t, (p.1 = a ∧ p.2 = b) ∨ (p.1 = b ∧ p.2 = a)

instance (ix : List ℕ) (a b : ℕ) : Decidable (IsTriSide ix a b) := by
  unfold IsTriSide; infer_instance

theorem mem_pushUnique {α : Type} [DecidableEq α] {acc : List α} {x y : α} :
    y ∈ pushUnique acc x ↔ y ∈ acc ∨ y = x := by
  unfold pushUnique
  by_cases h : x ∈ acc
  · simp only [if_pos h]
    constructor
    · exact Or.inl
    · rintro (hy | rfl)
      · exact hy
      · exact h
  · simp [if_neg h]

theorem nodup_pushUnique {α : Type} [DecidableEq α] {acc : List α} (x : α)
    (h : acc.Nodup) : (pushUnique acc x).Nodup := by
  unfold pushUnique
  by_cases hx : x ∈ acc
  · simp [if_pos hx, h]
  · simpa [if_neg hx, List.nodup_append, h]

theorem mem_foldl_pushUnique {α : Type} [DecidableEq α] :
    ∀ (l acc : List α) (y : α), y ∈ l.foldl pushUnique acc ↔ y ∈ acc ∨ y ∈ l := by
  intro l
  induction l with
  | nil => simp
  | cons a r ih =>
      intro acc y
      simp only [List.foldl_cons, ih, mem_pushUnique, List.mem_cons]
      tauto

theorem nodup_foldl_pushUnique {α : Type} [DecidableEq α] :
    ∀ (l acc : List α), acc.Nodup → (l.foldl pushUnique acc).Nodup := by
  intro l
  induction l with
  | nil => exact fun _ h => h
  | cons a r ih =>
      intro acc h
      exact ih _ (nodup_pushUnique a h)

theorem canonPair_eq_iff {x y a b : ℕ} :
    canonPair x y = (a, b) ↔ a ≤ b ∧ ((x = a ∧ y = b) ∨ (x = b ∧ y = a)) := by
  unfold canonPair
  rcases le_total x y with h | h
  · rw [min_eq_left h, max_eq_right h]
    constructor
    · rintro hp
      have hx : x = a := congrArg Prod.fst hp
      have hy : y = b := congrArg Prod.snd hp
      subst hx; subst hy
      exact ⟨h, Or.inl ⟨rfl, rfl⟩⟩
    · rintro ⟨hab, (⟨rfl, rfl⟩ | ⟨rfl, rfl⟩)⟩
      · rfl
      · have : x = y := le_antisymm h hab
        subst this; rfl
  · rw [min_eq_right h, max_eq_left h]
    constructor
    · rintro hp
      have hx : y = a := congrArg Prod.fst hp
      have hy : x = b := congrArg Prod.snd hp
      subst hx; subst hy
      exact ⟨h, Or.inr ⟨rfl, rfl⟩⟩
    · rintro ⟨hab, (⟨rfl, rfl⟩ | ⟨rfl, rfl⟩)⟩
      · have : x = y := le_antisymm hab h
        subst this; rfl
      · rfl

theorem mem_triSides_iff {t : Tri} {a b : ℕ} :
    (a, b) ∈ triSides t ↔
      a ≤ b ∧ ∃ p ∈ sidePairs t, (p.1 = a ∧ p.2 = b) ∨ (p.1 = b ∧ p.2 = a) := by
  unfold triSides sidePairs
  constructor
  · intro h
    simp only [List.mem_cons, List.not_mem_nil, or_false] at h
    rcases h with h | h | h
    · rcases canonPair_eq_iff.mp h.symm with ⟨hab, hc⟩
      exact ⟨hab, ⟨(t.1, t.2.1), by simp, by tauto⟩⟩
    · rcases canonPair_eq_iff.mp h.symm with ⟨hab, hc⟩
      exact ⟨hab, ⟨(t.2.1, t.2.2), by simp, by tauto⟩⟩
    · rcases canonPair_eq_iff.mp h.symm with ⟨hab, hc⟩
      exact ⟨hab, ⟨(t.2.2, t.1), by simp, by tauto⟩⟩
  · rintro ⟨hab, p, hp, hc⟩
    simp only [List.mem_cons, List.not_mem_nil, or_false] at hp
    rcases hp with rfl | rfl | rfl
    · have : canonPair t.1 t.2.1 = (a, b) := canonPair_eq_iff.mpr ⟨hab, by tauto⟩
      simp [this]
    · have : canonPair t.2.1 t.2.2 = (a, b) := canonPair_eq_iff.mpr ⟨hab, by tauto⟩
      simp [this]
    · have : canonPair t.2.2 t.1 = (a, b) := canonPair_eq_iff.mpr ⟨hab, by tauto⟩
      simp [this]

/-- The shared edge rebuild is canonical: no duplicates, and a pair belongs to
it exactly when it is ordered (`a ≤ b`) and appears as a triangle side of the
index buffer. -/
theorem rebuildEdges_canonical (ix : List ℕ) :
    (rebuildEdges ix).Nodup ∧
      ∀ a b : ℕ, (a, b) ∈ rebuildEdges ix ↔ a ≤ b ∧ IsTriSide ix a b := by
  refine ⟨nodup_foldl_pushUnique _ _ List.nodup_nil, ?_⟩
  intro a b
  unfold rebuildEdges IsTriSide
  rw [mem_foldl_pushUnique]
  simp only [List.not_mem_nil, false_or, List.mem_flatMap]
  constructor
  · rintro ⟨t, ht, hmem⟩
    rcases mem_triSides_iff.mp hmem with ⟨hab, p, hp, hc⟩
    exact ⟨hab, t, ht, p, hp, hc⟩
  · rintro ⟨hab, t, ht, p, hp, hc⟩
    exact ⟨t, ht, mem_triSides_iff.mpr ⟨hab, p, hp, hc⟩⟩

theorem tris_untris : ∀ l : List Tri, tris (untris l) = l := by
  intro l
  induction l with
  | nil => rfl
  | cons t r ih =>
      cases t with
      | mk a bc =>
          cases bc with
          | mk b c => simpa [untris, tris] using ih

/-! ## Association lists modelling JavaScript `Map` (insertion order) -/

/-- Lookup in a JavaScript `Map` modelled as an association list. -/
def getAssoc {α β : Type} [DecidableEq α] (m : List (α × β)) (k : α) : Option β :=
  (m.find? fun p => p.1 = k).map Prod.snd

/-- `Map.set`: update in place when the key exists (keeping its position),
otherwise append. -/
def setAssoc {α β : Type} [DecidableEq α] (m : List (α × β)) (k : α) (v : β) :
    List (α × β) :=
  if m.any fun p => p.1 = k then
    m.map fun p => if p.1 = k then (k, v) else p
  else m ++ [(k, v)]

/-- The `if (!map.has(k)) map.set(k, []); map.get(k)!.push(v)` idiom. -/
def pushAssoc {α β : Type} [DecidableEq α] (m : List (α × List β)) (k : α)
    (v : β) : List (α × List β) :=
  if m.any fun p => p.1 = k then
    m.map fun p => if p.1 = k then (p.1, p.2 ++ [v]) else p
  else m ++ [(k, [v])]

/-! ## Data model (source file `types.ts`) -/

/-- Derived per-triangle face record (source type `Face`). -/
structure FaceQ where
  vertices : List ℕ
  normal : Vec3Q
deriving DecidableEq, Repr

/-- Source type `EditableGeometry`, with `Float32Array` buffers as `List ℚ`
and the `Uint16Array` index buffer as `List ℕ`. -/
structure GeometryQ where
  id : String
  vertices : List ℚ
  normals : List ℚ
  uvs : List ℚ
  indices : List ℕ
  vertexCount : ℕ
  edges : List (ℕ × ℕ)
  faces : List FaceQ
deriving DecidableEq, Repr

/-- Source type `Transform3D`.  The Euler rotation is carried as the cosine
and sine of each angle (the exact values `Math.cos`/`Math.sin` feed into the
rotation formulas), so that the embedding stays inside `ℚ`; the identity
rotation is `cos = 1, sin = 0`, exactly as in the source. -/
structure TransformQ where
  position : Vec3Q
  scale : Vec3Q
  cosX : ℚ
  sinX : ℚ
  cosY : ℚ
  sinY : ℚ
  cosZ : ℚ
  sinZ : ℚ
deriving DecidableEq, Repr

/-- Identity transform (`position 0, rotation 0, scale 1`). -/
def identityTransform : TransformQ := ⟨⟨0, 0, 0⟩, ⟨1, 1, 1⟩, 1, 0, 1, 0, 1, 0⟩

/-- Source type `EditableMesh`, restricted to the fields the kernel reads. -/
structure MeshQ where
  id : String
  geometry : GeometryQ
  transform : TransformQ
  visible : Bool
deriving DecidableEq, Repr

/-! ## Extrude (source `modifiers/extrude.ts`) -/

structure ExtrudeOptionsQ where
  distance : ℚ
  useNormals : Bool
deriving DecidableEq, Repr

/-- State threaded through the clone-vertices loop of `extrude`. -/
structure ExtrudeCloneState where
  verts : List ℚ
  norms : List ℚ
  uvs : List ℚ
  mapping : List (ℕ × ℕ)
  nextIdx : ℕ

/-- Consecutive cyclic pairs of a face's vertex ring, the
`(verts[i], verts[(i+1) % n])` walk of the source. -/
def cyclePairs (l : List ℕ) : List (ℕ × ℕ) := l.zip (l.rotate 1)

/-- Embedding of `extrude(mesh, selectedFaces, options)`.  An out-of-range
face index is skipped (the source records no `faceMap` entry for it and would
crash on the later non-null assertion; no claim exercises that path). -/
def extrude (mesh : MeshQ) (selectedFaces : List ℕ) (options : ExtrudeOptionsQ) :
    MeshQ :=
  if selectedFaces.length = 0 then mesh else
  let geometry := mesh.geometry
  let collected := selectedFaces.foldl
    (fun (acc : List ℕ × List (ℕ × FaceQ)) faceIdx =>
      match geometry.faces.get? faceIdx with
      | none => acc
      | some face =>
          (face.vertices.foldl pushUnique acc.1, setAssoc acc.2 faceIdx face))
    ([], [])
  let selectedVertices := collected.1
  let faceMap := collected.2
  let avgNormal := vec3Normalize
    (faceMap.foldl (fun acc p => vec3Add acc p.2.normal) ⟨0, 0, 0⟩)
  let oldVertexCount := geometry.vertexCount
  let cloneInit : ExtrudeCloneState :=
    ⟨geometry.vertices, geometry.normals, geometry.uvs, [], oldVertexCount⟩
  let cloned := selectedVertices.foldl
    (fun (s : ExtrudeCloneState) oldIdx =>
      let x := getQ geometry.vertices (oldIdx * 3)
      let y := getQ geometry.vertices (oldIdx * 3 + 1)
      let z := getQ geometry.vertices (oldIdx * 3 + 2)
      let normal := if options.useNormals then
          vec3Normalize ⟨getQ geometry.normals (oldIdx * 3),
            getQ geometry.normals (oldIdx * 3 + 1),
            getQ geometry.normals (oldIdx * 3 + 2)⟩
        else avgNormal
      let offset := vec3Scale normal options.distance
      { verts := s.verts ++ [x + offset.x, y + offset.y, z + offset.z]
        norms := s.norms ++ [normal.x, normal.y, normal.z]
        uvs := s.uvs ++ [getQ geometry.uvs (oldIdx * 2),
          getQ geometry.uvs (oldIdx * 2 + 1)]
        mapping := s.mapping ++ [(oldIdx, s.nextIdx)]
        nextIdx := s.nextIdx + 1 })
    cloneInit
  let vertexMapping := cloned.mapping
  let remap : ℕ → ℕ := fun v => (getAssoc vertexMapping v).getD v
  let remapped := selectedFaces.foldl
    (fun (acc : List Tri × List FaceQ) faceIdx =>
      match getAssoc faceMap faceIdx with
      | none => acc
      | some face =>
          let newFaces := acc.2.set faceIdx
            { face with vertices := face.vertices.map remap }
          let newIx := acc.1.map fun t =>
            if (face.vertices.contains t.1 && face.vertices.contains t.2.1 &&
                face.vertices.contains t.2.2) then
              (remap t.1, remap t.2.1, remap t.2.2)
            else t
          (newIx, newFaces))
    (tris geometry.indices, geometry.faces)
  let isShared : ℕ → ℕ → ℕ → Bool := fun a b faceIdx =>
    selectedFaces.any fun otherFaceIdx =>
      otherFaceIdx ≠ faceIdx &&
        match getAssoc faceMap otherFaceIdx with
        | none => false
        | some otherFace =>
            (cyclePairs otherFace.vertices).any fun q =>
              (a = q.1 && b = q.2) || (a = q.2 && b = q.1)
  let boundaryEdges := selectedFaces.flatMap fun faceIdx =>
    match getAssoc faceMap faceIdx with
    | none => []
    | some face =>
        (cyclePairs face.vertices).filter fun q => ¬ isShared q.1 q.2 faceIdx
  let sideResult := boundaryEdges.foldl
    (fun (acc : List Tri × List (ℕ × ℕ) × List FaceQ) q =>
      let a := q.1
      let b := q.2
      let newA := (getAssoc vertexMapping a).getD 0
      let newB := (getAssoc vertexMapping b).getD 0
      let newIx := acc.1 ++ [(a, b, newB), (a, newB, newA)]
      let newEdges := acc.2.1 ++ [(a, newA), (b, newB)]
      let edgeVec : Vec3Q :=
        ⟨getQ cloned.verts (b * 3) - getQ cloned.verts (a * 3),
         getQ cloned.verts (b * 3 + 1) - getQ cloned.verts (a * 3 + 1),
         getQ cloned.verts (b * 3 + 2) - getQ cloned.verts (a * 3 + 2)⟩
      let upVec : Vec3Q :=
        ⟨getQ cloned.verts (newA * 3) - getQ cloned.verts (a * 3),
         getQ cloned.verts (newA * 3 + 1) - getQ cloned.verts (a * 3 + 1),
         getQ cloned.verts (newA * 3 + 2) - getQ cloned.verts (a * 3 + 2)⟩
      let faceNormal := vec3Normalize (vec3Cross edgeVec upVec)
      let newFaces := acc.2.2 ++ [⟨[a, b, newB, newA], faceNormal⟩]
      (newIx, newEdges, newFaces))
    (remapped.1, geometry.edges, remapped.2)
  { mesh with geometry :=
    { id := geometry.id
      vertices := cloned.verts
      normals := cloned.norms
      uvs := cloned.uvs
      indices := toUint16 (untris sideResult.1)
      vertexCount := cloned.verts.length / 3
      edges := sideResult.2.1
      faces := sideResult.2.2 } }

/-! ## Subdivide (source `modifiers/subdivide.ts`) -/

structure SubdivideOptionsQ where
  iterations : ℕ
  smooth : Bool
deriving DecidableEq, Repr

/-- Vertex/normal/uv buffers plus the midpoint memo threaded through
`subdivideOnce`. -/
structure SubdivState where
  verts : List ℚ
  norms : List ℚ
  uvs : List ℚ
  mid : List ((ℕ × ℕ) × ℕ)

/-- The memoised `getMidpoint(a, b)` helper of `subdivideOnce`. -/
def getMidpoint (s : SubdivState) (a b : ℕ) : ℕ × SubdivState :=
  let key := canonPair a b
  match getAssoc s.mid key with
  | some m => (m, s)
  | none =>
      let midIdx := s.verts.length / 3
      let va := vtx s.verts a
      let vb := vtx s.verts b
      let na := vtx s.norms a
      let nb := vtx s.norms b
      let midPos := vec3Lerp va vb (1 / 2)
      let midNormal := vec3Normalize (vec3Lerp na nb (1 / 2))
      let mu := (getQ s.uvs (a * 2) + getQ s.uvs (b * 2)) / 2
      let mv := (getQ s.uvs (a * 2 + 1) + getQ s.uvs (b * 2 + 1)) / 2
      (midIdx,
        { verts := s.verts ++ [midPos.x, midPos.y, midPos.z]
          norms := s.norms ++ [midNormal.x, midNormal.y, midNormal.z]
          uvs := s.uvs ++ [mu, mv]
          mid := s.mid ++ [(key, midIdx)] })

/-- One-ring neighbours of vertex `v` in a triangle list, in the insertion
order of the source `Set`. -/
def neighborsOf (ts : List Tri) (v : ℕ) : List ℕ :=
  ts.foldl
    (fun acc t =>
      let l := [t.1, t.2.1, t.2.2]
      (List.range 3).foldl
        (fun acc2 j =>
          if l.getD j 0 = v then
            pushUnique (pushUnique acc2 (l.getD ((j + 1) % 3) 0))
              (l.getD ((j + 2) % 3) 0)
          else acc2)
        acc)
    []

/-- One triangle of the 1-to-4 split loop of `subdivideOnce`. -/
def subdivStep (acc : SubdivState × List Tri) (t : Tri) : SubdivState × List Tri :=
  let r01 := getMidpoint acc.1 t.1 t.2.1
  let r12 := getMidpoint r01.2 t.2.1 t.2.2
  let r20 := getMidpoint r12.2 t.2.2 t.1
  (r20.2, acc.2 ++
    [(t.1, r01.1, r20.1), (r01.1, t.2.1, r12.1),
     (r20.1, r12.1, t.2.2), (r01.1, r12.1, r20.1)])

/-- Embedding of `subdivideOnce(mesh, smooth)`: every triangle is replaced by
four, midpoints are memoised per canonical edge key, and with `smooth` the
original vertices are blended a quarter of the way toward their neighbour
centroid. -/
def subdivideOnce (mesh : MeshQ) (smooth : Bool) : MeshQ :=
  let geometry := mesh.geometry
  let init : SubdivState × List Tri :=
    (⟨geometry.vertices, geometry.normals, geometry.uvs, []⟩, [])
  let split := (tris geometry.indices).foldl subdivStep init
  let newIx := split.2
  let verts0 := split.1.verts
  let newVerts :=
    if smooth then
      let oldVertexCount := geometry.vertexCount
      let smoothed : List Vec3Q := (List.range oldVertexCount).map fun i =>
        let neighbors := neighborsOf newIx i
        if neighbors.length = 0 then vtx verts0 i
        else
          let sum := neighbors.foldl (fun acc n => vec3Add acc (vtx verts0 n))
            ⟨0, 0, 0⟩
          let avg := vec3Scale sum (1 / (neighbors.length : ℚ))
          vec3Lerp (vtx verts0 i) avg (1 / 4)
      (List.range oldVertexCount).foldl
        (fun cur i =>
          let p := smoothed.getD i ⟨0, 0, 0⟩
          ((cur.set (i * 3) p.x).set (i * 3 + 1) p.y).set (i * 3 + 2) p.z)
        verts0
    else verts0
  { mesh with geometry :=
    { id := geometry.id
      vertices := newVerts
      normals := split.1.norms
      uvs := split.1.uvs
      indices := toUint16 (untris newIx)
      vertexCount := newVerts.length / 3
      edges := rebuildEdges (untris newIx)
      faces := newIx.map fun t => ⟨[t.1, t.2.1, t.2.2], vtx split.1.norms t.1⟩ } }

/-- Embedding of `subdivide(mesh, options)`: iterate `subdivideOnce`. -/
def subdivide (mesh : MeshQ) (options : SubdivideOptionsQ) : MeshQ :=
  (List.range options.iterations).foldl
    (fun m _ => subdivideOnce m options.smooth) mesh

/-! ## Loop cut (source `modifiers/loopCut.ts`)

The degenerate `numberOfCuts = 0` path of the source indexes into an empty
cut-vertex array, producing JavaScript `undefined` values that the final
`Uint16Array` coerces to `0`.  Index entries are therefore modelled as
`Option ℕ` (`none` = `undefined`/`NaN`), coerced with `Option.getD 0` exactly
where the source constructs the typed array. -/

structure LoopCutOptionsQ where
  numberOfCuts : ℕ
deriving DecidableEq, Repr

/-- Triangle whose corners may be JavaScript `undefined`. -/
abbrev TriO := Option ℕ × Option ℕ × Option ℕ

/-- Canonical side of a possibly-undefined pair: `Math.min`/`Math.max` with an
`undefined` argument give `NaN`, which pollutes both components. -/
def canonPairO : Option ℕ → Option ℕ → Option ℕ × Option ℕ
  | some a, some b => (some (min a b), some (max a b))
  | _, _ => (none, none)

def triSidesO (t : TriO) : List (Option ℕ × Option ℕ) :=
  [canonPairO t.1 t.2.1, canonPairO t.2.1 t.2.2, canonPairO t.2.2 t.1]

/-- Edge rebuild over possibly-undefined indices (all `NaN` edge keys collide
on the string key NaN-NaN, hence dedup to a single entry, exactly as the
source `Set<string>` behaves). -/
def rebuildEdgesO (l : List TriO) : List (Option ℕ × Option ℕ) :=
  (l.flatMap triSidesO).foldl pushUnique []

/-- One entry of the per-triangle `cutEdges` array. -/
structure CutE where
  edge : ℕ × ℕ
  newVerts : List ℕ
deriving DecidableEq, Repr

/-- One pass of the cut-vertex creation loop (`for i = 1..numberOfCuts`). -/
def loopCutBuildStep (numberOfCuts : ℕ) (va vb na nb : Vec3Q)
    (uau uav ubu ubv : ℚ) (bacc : SubdivState × List ℕ) (i0 : ℕ) :
    SubdivState × List ℕ :=
  let i : ℕ := i0 + 1
  let t : ℚ := (i : ℚ) / ((numberOfCuts : ℚ) + 1)
  let newIdx := bacc.1.verts.length / 3
  let pos := vec3Lerp va vb t
  let normal := vec3Normalize (vec3Lerp na nb t)
  let uu := uau + (ubu - uau) * t
  let uv := uav + (ubv - uav) * t
  ({ bacc.1 with
      verts := bacc.1.verts ++ [pos.x, pos.y, pos.z]
      norms := bacc.1.norms ++ [normal.x, normal.y, normal.z]
      uvs := bacc.1.uvs ++ [uu, uv] },
    bacc.2 ++ [newIdx])

/-- Processing of one selected edge: create its cut vertices and record them
in the edge-vertex map. -/
def loopCutPhase1Step (numberOfCuts : ℕ)
    (acc : SubdivState × List ((ℕ × ℕ) × List ℕ)) (q : ℕ × ℕ) :
    SubdivState × List ((ℕ × ℕ) × List ℕ) :=
  let a := q.1
  let b := q.2
  let edgeKey := canonPair a b
  let va := vtx acc.1.verts a
  let vb := vtx acc.1.verts b
  let na := vtx acc.1.norms a
  let nb := vtx acc.1.norms b
  let uau := getQ acc.1.uvs (a * 2)
  let uav := getQ acc.1.uvs (a * 2 + 1)
  let ubu := getQ acc.1.uvs (b * 2)
  let ubv := getQ acc.1.uvs (b * 2 + 1)
  let built := (List.range numberOfCuts).foldl
    (loopCutBuildStep numberOfCuts va vb na nb uau uav ubu ubv) (acc.1, [])
  (built.1, setAssoc acc.2 edgeKey built.2)

/-- Retriangulation of one input triangle against the edge-vertex map. -/
def loopCutTri (edgeVertexMap : List ((ℕ × ℕ) × List ℕ)) (numberOfCuts : ℕ)
    (t : Tri) : List TriO :=
  let triVerts := [t.1, t.2.1, t.2.2]
  let cutEdges : List CutE := (List.range 3).foldl
    (fun acc j =>
      let a := triVerts.getD j 0
      let b := triVerts.getD ((j + 1) % 3) 0
      match getAssoc edgeVertexMap (canonPair a b) with
      | none => acc
      | some nv =>
          acc ++ [⟨(a, b), if a < b then nv else nv.reverse⟩])
    []
  match cutEdges with
  | [] => [(some t.1, some t.2.1, some t.2.2)]
  | [cut] =>
      let a := cut.edge.1
      let b := cut.edge.2
      let c := triVerts.find? fun v => v ≠ a ∧ v ≠ b
      [(c, some a, cut.newVerts.get? 0)] ++
        ((List.range (cut.newVerts.length - 1)).map fun k =>
          (c, cut.newVerts.get? k, cut.newVerts.get? (k + 1))) ++
        [(c, cut.newVerts.get? (cut.newVerts.length - 1), some b)]
  | [cut1, cut2] =>
      let shared := triVerts.find? fun v =>
        (v = cut1.edge.1 ∨ v = cut1.edge.2) ∧ (v = cut2.edge.1 ∨ v = cut2.edge.2)
      match shared with
      | none => [(some t.1, some t.2.1, some t.2.2)]
      | some s =>
          let other1 := if cut1.edge.1 = s then cut1.edge.2 else cut1.edge.1
          let other2 := if cut2.edge.1 = s then cut2.edge.2 else cut2.edge.1
          let nv1 := if cut1.edge.1 = s then cut1.newVerts else cut1.newVerts.reverse
          let nv2 := if cut2.edge.1 = s then cut2.newVerts else cut2.newVerts.reverse
          [(some s, nv1.get? 0, nv2.get? 0)] ++
            ((List.range (numberOfCuts - 1)).flatMap fun k =>
              [(nv1.get? k, nv1.get? (k + 1), nv2.get? k),
               (nv2.get? k, nv1.get? (k + 1), nv2.get? (k + 1))]) ++
            [(nv1.get? (nv1.length - 1), some other1, some other2),
             (nv1.get? (nv1.length - 1), some other2, nv2.get? (nv2.length - 1))]
  | _ => [(some t.1, some t.2.1, some t.2.2)]

/-- Embedding of `loopCut(mesh, selectedEdges, options)`. -/
def loopCut (mesh : MeshQ) (selectedEdges : List (ℕ × ℕ))
    (options : LoopCutOptionsQ) : MeshQ :=
  if selectedEdges.length = 0 then mesh else
  let numberOfCuts := options.numberOfCuts
  let geometry := mesh.geometry
  let phase1 := selectedEdges.foldl (loopCutPhase1Step numberOfCuts)
    (⟨geometry.vertices, geometry.normals, geometry.uvs, []⟩, [])
  let edgeVertexMap := phase1.2
  let newIxO : List TriO :=
    (tris geometry.indices).flatMap (loopCutTri edgeVertexMap numberOfCuts)
  let coerced : List ℕ := (newIxO.flatMap fun t => [t.1, t.2.1, t.2.2]).map
    fun o => o.getD 0
  let edgesO := rebuildEdgesO newIxO
  { mesh with geometry :=
    { id := geometry.id
      vertices := phase1.1.verts
      normals := phase1.1.norms
      uvs := phase1.1.uvs
      indices := toUint16 coerced
      vertexCount := phase1.1.verts.length / 3
      edges := edgesO.map fun p => (p.1.getD 0, p.2.getD 0)
      faces := newIxO.map fun t =>
        ⟨[t.1.getD 0, t.2.1.getD 0, t.2.2.getD 0], vtx phase1.1.norms (t.1.getD 0)⟩ } }

/-! ## Bevel (source `modifiers/bevel.ts`) -/

structure BevelOptionsQ where
  amount : ℚ
deriving DecidableEq, Repr

/-- Embedding of `bevel(mesh, selectedEdges, options)` (single segment). -/
def bevel (mesh : MeshQ) (selectedEdges : List (ℕ × ℕ)) (options : BevelOptionsQ) :
    MeshQ :=
  if selectedEdges.length = 0 then mesh else
  let amount := options.amount
  let geometry := mesh.geometry
  let vertexOffsets : List (ℕ × List Vec3Q) := selectedEdges.foldl
    (fun m q =>
      let a := q.1
      let b := q.2
      let va := vtx geometry.vertices a
      let vb := vtx geometry.vertices b
      let edgeDir := vec3Normalize (vec3Sub vb va)
      let adjacentFaces := geometry.faces.filter fun f =>
        f.vertices.contains a && f.vertices.contains b
      adjacentFaces.foldl
        (fun m2 face =>
          let perpDir := vec3Normalize (vec3Cross edgeDir face.normal)
          pushAssoc (pushAssoc m2 a (vec3Scale perpDir amount)) b
            (vec3Scale perpDir amount))
        m)
    []
  let cloned := vertexOffsets.foldl
    (fun (s : SubdivState × List (ℕ × List ℕ)) p =>
      let origIdx := p.1
      let basePos := vtx geometry.vertices origIdx
      let baseNormal := vtx geometry.normals origIdx
      let bu := getQ geometry.uvs (origIdx * 2)
      let bv := getQ geometry.uvs (origIdx * 2 + 1)
      let built := p.2.foldl
        (fun (bacc : SubdivState × List ℕ) offset =>
          let newIdx := bacc.1.verts.length / 3
          let newPos := vec3Add basePos offset
          ({ bacc.1 with
              verts := bacc.1.verts ++ [newPos.x, newPos.y, newPos.z]
              norms := bacc.1.norms ++ [baseNormal.x, baseNormal.y, baseNormal.z]
              uvs := bacc.1.uvs ++ [bu, bv] },
            bacc.2 ++ [newIdx]))
        (s.1, [])
      (built.1, s.2 ++ [(origIdx, built.2)]))
    (⟨geometry.vertices, geometry.normals, geometry.uvs, []⟩, [])
  let newVertexMap := cloned.2
  let remap : ℕ → ℕ := fun v =>
    match getAssoc newVertexMap v with
    | some (h :: _) => h
    | _ => v
  let remappedIx := (tris geometry.indices).map fun t =>
    (remap t.1, remap t.2.1, remap t.2.2)
  let bevelIx := selectedEdges.foldl
    (fun acc q =>
      match getAssoc newVertexMap q.1, getAssoc newVertexMap q.2 with
      | some (ha :: _), some (hb :: _) =>
          acc ++ [(q.1, ha, hb), (q.1, hb, q.2)]
      | _, _ => acc)
    remappedIx
  let newVerts := cloned.1.verts
  { mesh with geometry :=
    { id := geometry.id
      vertices := newVerts
      normals := cloned.1.norms
      uvs := cloned.1.uvs
      indices := toUint16 (untris bevelIx)
      vertexCount := newVerts.length / 3
      edges := rebuildEdges (untris bevelIx)
      faces := bevelIx.map fun t =>
        let v0 := vtx newVerts t.1
        let v1 := vtx newVerts t.2.1
        let v2 := vtx newVerts t.2.2
        ⟨[t.1, t.2.1, t.2.2],
          vec3Normalize (vec3Cross (vec3Sub v1 v0) (vec3Sub v2 v0))⟩ } }

/-! ## Mirror (source `modifiers/mirror.ts`) -/

inductive AxisQ
  | x
  | y
  | z
deriving DecidableEq, Repr

structure MirrorOptionsQ where
  axis : AxisQ
  merge : Bool
  mergeThreshold : ℚ
  flipNormals : Bool
deriving DecidableEq, Repr

def axisIdx : AxisQ → ℕ
  | .x => 0
  | .y => 1
  | .z => 2

/-- Embedding of `mirror(mesh, options)`. -/
def mirror (mesh : MeshQ) (options : MirrorOptionsQ) : MeshQ :=
  let geometry := mesh.geometry
  let k := axisIdx options.axis
  let origVertexCount := geometry.vertexCount
  let onPlane : ℕ → Bool := fun i =>
    options.merge && |getQ geometry.vertices (i * 3 + k)| < options.mergeThreshold
  let built := (List.range origVertexCount).foldl
    (fun (s : SubdivState × List (ℕ × ℕ) × ℕ) i =>
      if onPlane i then (s.1, s.2.1 ++ [(i, i)], s.2.2)
      else
        let x := getQ geometry.vertices (i * 3)
        let y := getQ geometry.vertices (i * 3 + 1)
        let z := getQ geometry.vertices (i * 3 + 2)
        let nx := getQ geometry.normals (i * 3)
        let ny := getQ geometry.normals (i * 3 + 1)
        let nz := getQ geometry.normals (i * 3 + 2)
        let u := getQ geometry.uvs (i * 2)
        let v := getQ geometry.uvs (i * 2 + 1)
        let mp : Vec3Q := match options.axis with
          | .x => ⟨-x, y, z⟩
          | .y => ⟨x, -y, z⟩
          | .z => ⟨x, y, -z⟩
        let mn : Vec3Q :=
          if options.flipNormals then
            match options.axis with
            | .x => ⟨-nx, ny, nz⟩
            | .y => ⟨nx, -ny, nz⟩
            | .z => ⟨nx, ny, -nz⟩
          else ⟨nx, ny, nz⟩
        ({ s.1 with
            verts := s.1.verts ++ [mp.x, mp.y, mp.z]
            norms := s.1.norms ++ [mn.x, mn.y, mn.z]
            uvs := s.1.uvs ++ [if options.axis = .x then 1 - u else u, v] },
          s.2.1 ++ [(i, s.2.2)], s.2.2 + 1))
    (⟨geometry.vertices, geometry.normals, geometry.uvs, []⟩,
      [], origVertexCount)
  let mapping := built.2.1
  let mirroredIx := (tris geometry.indices).map fun t =>
    ((getAssoc mapping t.1).getD t.1, (getAssoc mapping t.2.2).getD t.2.2,
      (getAssoc mapping t.2.1).getD t.2.1)
  let newIx := tris geometry.indices ++ mirroredIx
  { mesh with geometry :=
    { id := geometry.id
      vertices := built.1.verts
      normals := built.1.norms
      uvs := built.1.uvs
      indices := toUint16 (untris newIx)
      vertexCount := built.1.verts.length / 3
      edges := rebuildEdges (untris newIx)
      faces := newIx.map fun t => ⟨[t.1, t.2.1, t.2.2], vtx built.1.norms t.1⟩ } }

/-! ## Array (source `modifiers/array.ts`) -/

inductive OffsetTypeQ
  | constant
  | relative
  | object
deriving DecidableEq, Repr

structure ArrayOptionsQ where
  count : ℕ
  offset : Vec3Q
  offsetType : OffsetTypeQ
  mergeVertices : Bool
  mergeThreshold : ℚ
deriving DecidableEq, Repr

/-- Fold minimum of a coordinate list (`Infinity` initialisation of the
source collapses to the first element; the empty case, `vertexCount = 0`
with relative offsets, is not exercised by any theorem). -/
def foldMinQ : List ℚ → ℚ
  | [] => 0
  | h :: t => t.foldl min h

def foldMaxQ : List ℚ → ℚ
  | [] => 0
  | h :: t => t.foldl max h

/-- Embedding of `mergeCloseVertices` (brute-force threshold merge). -/
def mergeCloseVertices (vertices normals uvs : List ℚ) (indices : List ℕ)
    (threshold : ℚ) : List ℚ × List ℚ × List ℚ × List ℕ :=
  let thresholdSq := threshold * threshold
  let vertexCount := vertices.length / 3
  let built := (List.range vertexCount).foldl
    (fun (s : List (ℕ × ℕ) × SubdivState × ℕ) i =>
      let x := getQ vertices (i * 3)
      let y := getQ vertices (i * 3 + 1)
      let z := getQ vertices (i * 3 + 2)
      let hit := (List.range (s.2.1.verts.length / 3)).find? fun j =>
        let dx := getQ s.2.1.verts (j * 3) - x
        let dy := getQ s.2.1.verts (j * 3 + 1) - y
        let dz := getQ s.2.1.verts (j * 3 + 2) - z
        dx * dx + dy * dy + dz * dz < thresholdSq
      match hit with
      | some j => (s.1 ++ [(i, j)], s.2)
      | none =>
          (s.1 ++ [(i, s.2.2)],
            { verts := s.2.1.verts ++ [x, y, z]
              norms := s.2.1.norms ++ [getQ normals (i * 3),
                getQ normals (i * 3 + 1), getQ normals (i * 3 + 2)]
              uvs := s.2.1.uvs ++ [getQ uvs (i * 2), getQ uvs (i * 2 + 1)]
              mid := [] },
            s.2.2 + 1))
    ([], ⟨[], [], [], []⟩, 0)
  let indexMap := built.1
  (built.2.1.verts, built.2.1.norms, built.2.1.uvs,
    indices.map fun v => (getAssoc indexMap v).getD v)

/-- Embedding of `array(mesh, options)`. -/
def array (mesh : MeshQ) (options : ArrayOptionsQ) : MeshQ :=
  if options.count ≤ 1 then mesh else
  let geometry := mesh.geometry
  let origVertexCount := geometry.vertexCount
  let actualOffset : Vec3Q :=
    match options.offsetType with
    | .relative =>
        let xs := (List.range origVertexCount).map fun i => getQ geometry.vertices (i * 3)
        let ys := (List.range origVertexCount).map fun i => getQ geometry.vertices (i * 3 + 1)
        let zs := (List.range origVertexCount).map fun i => getQ geometry.vertices (i * 3 + 2)
        ⟨(foldMaxQ xs - foldMinQ xs) * options.offset.x,
         (foldMaxQ ys - foldMinQ ys) * options.offset.y,
         (foldMaxQ zs - foldMinQ zs) * options.offset.z⟩
    | _ => options.offset
  let copied := (List.range options.count).foldl
    (fun (s : SubdivState × List ℕ) copy =>
      let copyOffset := vec3Scale actualOffset (copy : ℚ)
      let baseVertex := s.1.verts.length / 3
      let withVerts := (List.range origVertexCount).foldl
        (fun (b : SubdivState) i =>
          { b with
            verts := b.verts ++
              [getQ geometry.vertices (i * 3) + copyOffset.x,
               getQ geometry.vertices (i * 3 + 1) + copyOffset.y,
               getQ geometry.vertices (i * 3 + 2) + copyOffset.z]
            norms := b.norms ++ [getQ geometry.normals (i * 3),
              getQ geometry.normals (i * 3 + 1), getQ geometry.normals (i * 3 + 2)]
            uvs := b.uvs ++ [getQ geometry.uvs (i * 2), getQ geometry.uvs (i * 2 + 1)] })
        s.1
      (withVerts, s.2 ++ geometry.indices.map fun v => v + baseVertex))
    (⟨[], [], [], []⟩, [])
  let merged :=
    if options.mergeVertices then
      mergeCloseVertices copied.1.verts copied.1.norms copied.1.uvs copied.2
        options.mergeThreshold
    else (copied.1.verts, copied.1.norms, copied.1.uvs, copied.2)
  let finalIndices := merged.2.2.2
  { mesh with geometry :=
    { id := geometry.id
      vertices := merged.1
      normals := merged.2.1
      uvs := merged.2.2.1
      indices := toUint16 finalIndices
      vertexCount := merged.1.length / 3
      edges := rebuildEdges finalIndices
      faces := (tris finalIndices).map fun t =>
        ⟨[t.1, t.2.1, t.2.2], vtx merged.2.1 t.1⟩ } }

/-! ## Solidify (source file `solidify.ts`) -/

structure SolidifyOptionsQ where
  thickness : ℚ
  offset : ℚ
  evenThickness : Bool
  fillRim : Bool
deriving DecidableEq, Repr

/-- Embedding of `findBoundaryEdges`: oriented edges (first occurrence) whose
canonical key is seen exactly once. -/
def findBoundaryEdges (indices : List ℕ) : List (ℕ × ℕ) :=
  let counts := (tris indices).foldl
    (fun (m : List ((ℕ × ℕ) × ((ℕ × ℕ) × ℕ))) t =>
      (sidePairs t).foldl
        (fun m2 q =>
          let key := canonPair q.1 q.2
          match getAssoc m2 key with
          | some ec => setAssoc m2 key (ec.1, ec.2 + 1)
          | none => m2 ++ [(key, (q, 1))])
        m)
    []
  counts.filterMap fun p => if p.2.2 = 1 then some p.2.1 else none

/-- Embedding of `solidify(mesh, options)`. -/
def solidify (mesh : MeshQ) (options : SolidifyOptionsQ) : MeshQ :=
  let geometry := mesh.geometry
  let origVertexCount := geometry.vertexCount
  let innerOffset := options.thickness * (options.offset - 1) / 2
  let outerOffset := options.thickness * (options.offset + 1) / 2
  let vertexNormals : List Vec3Q :=
    if options.evenThickness then
      let acc0 := List.replicate origVertexCount (⟨0, 0, 0⟩ : Vec3Q)
      let summed := (tris geometry.indices).foldl
        (fun acc t =>
          let normal := vtx geometry.normals t.1
          let upd := fun (l : List Vec3Q) (i : ℕ) =>
            l.set i (vec3Add (l.getD i ⟨0, 0, 0⟩) normal)
          upd (upd (upd acc t.1) t.2.1) t.2.2)
        acc0
      summed.map vec3Normalize
    else []
  let normalAt : ℕ → Vec3Q := fun i =>
    if options.evenThickness then vertexNormals.getD i ⟨0, 0, 0⟩
    else vtx geometry.normals i
  let outer := (List.range origVertexCount).foldl
    (fun (s : SubdivState) i =>
      let p := vtx geometry.vertices i
      let n0 := vtx geometry.normals i
      let displaced := vec3Add p (vec3Scale (normalAt i) outerOffset)
      { s with
        verts := s.verts ++ [displaced.x, displaced.y, displaced.z]
        norms := s.norms ++ [n0.x, n0.y, n0.z]
        uvs := s.uvs ++ [getQ geometry.uvs (i * 2), getQ geometry.uvs (i * 2 + 1)] })
    ⟨[], [], [], []⟩
  let innerStartIdx := outer.verts.length / 3
  let both := (List.range origVertexCount).foldl
    (fun (s : SubdivState) i =>
      let p := vtx geometry.vertices i
      let n0 := vtx geometry.normals i
      let displaced := vec3Add p (vec3Scale (normalAt i) innerOffset)
      { s with
        verts := s.verts ++ [displaced.x, displaced.y, displaced.z]
        norms := s.norms ++ [-n0.x, -n0.y, -n0.z]
        uvs := s.uvs ++ [getQ geometry.uvs (i * 2), getQ geometry.uvs (i * 2 + 1)] })
    outer
  let shellIx : List ℕ := geometry.indices ++
    (tris geometry.indices).flatMap fun t =>
      [t.1 + innerStartIdx, t.2.2 + innerStartIdx, t.2.1 + innerStartIdx]
  let rimmed :=
    if options.fillRim then
      (findBoundaryEdges geometry.indices).foldl
        (fun (s : SubdivState × List ℕ) q =>
          let outerA := q.1
          let outerB := q.2
          let innerA := q.1 + innerStartIdx
          let innerB := q.2 + innerStartIdx
          let edgeDir : Vec3Q :=
            ⟨getQ s.1.verts (outerB * 3) - getQ s.1.verts (outerA * 3),
             getQ s.1.verts (outerB * 3 + 1) - getQ s.1.verts (outerA * 3 + 1),
             getQ s.1.verts (outerB * 3 + 2) - getQ s.1.verts (outerA * 3 + 2)⟩
          let faceNormal : Vec3Q := vtx s.1.norms outerA
          let rimNormal := vec3Normalize (vec3Cross edgeDir faceNormal)
          let rimStart := s.1.verts.length / 3
          let pushCorner := fun (b : SubdivState) (src : ℕ) (uu vv : ℚ) =>
            { b with
              verts := b.verts ++ [getQ b.verts (src * 3),
                getQ b.verts (src * 3 + 1), getQ b.verts (src * 3 + 2)]
              norms := b.norms ++ [rimNormal.x, rimNormal.y, rimNormal.z]
              uvs := b.uvs ++ [uu, vv] }
          let b1 := pushCorner s.1 outerA 0 0
          let b2 := pushCorner b1 outerB 1 0
          let b3 := pushCorner b2 innerB 1 1
          let b4 := pushCorner b3 innerA 0 1
          (b4, s.2 ++ [rimStart, rimStart + 1, rimStart + 2,
            rimStart, rimStart + 2, rimStart + 3]))
        (both, shellIx)
    else (both, shellIx)
  { mesh with geometry :=
    { id := geometry.id
      vertices := rimmed.1.verts
      normals := rimmed.1.norms
      uvs := rimmed.1.uvs
      indices := toUint16 rimmed.2
      vertexCount := rimmed.1.verts.length / 3
      edges := rebuildEdges rimmed.2
      faces := (tris rimmed.2).map fun t =>
        ⟨[t.1, t.2.1, t.2.2], vtx rimmed.1.norms t.1⟩ } }

/-! ## Knife (source `modifiers/knife.ts`) -/

structure KnifeCutQ where
  points : List Vec3Q
  throughCut : Bool
  constrainAngle : Bool
  angleIncrement : ℚ
deriving DecidableEq, Repr

/-- Embedding of `segmentTriangleIntersect`; returns `(point, t, bary)`. -/
def segmentTriangleIntersect (p0 p1 v0 v1 v2 : Vec3Q) :
    Option (Vec3Q × ℚ × Vec3Q) :=
  let eps : ℚ := 1 / 1000000
  let e1 := vec3Sub v1 v0
  let e2 := vec3Sub v2 v0
  let dir := vec3Sub p1 p0
  let h := vec3Cross dir e2
  let a := vec3Dot e1 h
  if |a| < eps then none else
  let f := 1 / a
  let s := vec3Sub p0 v0
  let u := f * vec3Dot s h
  if u < 0 ∨ u > 1 then none else
  let q := vec3Cross s e1
  let v := f * vec3Dot dir q
  if v < 0 ∨ u + v > 1 then none else
  let t := f * vec3Dot e2 q
  if t < 0 ∨ t > 1 then none else
  some (vec3Add p0 (vec3Scale dir t), t, ⟨1 - u - v, u, v⟩)

/-- Embedding of `splitEdge`: append the linearly interpolated vertex, return
its index and the grown buffers. -/
def splitEdge (s : SubdivState) (v0 v1 : ℕ) (t : ℚ) : ℕ × SubdivState :=
  let newIdx := s.verts.length / 3
  (newIdx,
    { s with
      verts := s.verts ++
        [getQ s.verts (v0 * 3) + t * (getQ s.verts (v1 * 3) - getQ s.verts (v0 * 3)),
         getQ s.verts (v0 * 3 + 1) +
           t * (getQ s.verts (v1 * 3 + 1) - getQ s.verts (v0 * 3 + 1)),
         getQ s.verts (v0 * 3 + 2) +
           t * (getQ s.verts (v1 * 3 + 2) - getQ s.verts (v0 * 3 + 2))]
      norms := s.norms ++
        [getQ s.norms (v0 * 3) + t * (getQ s.norms (v1 * 3) - getQ s.norms (v0 * 3)),
         getQ s.norms (v0 * 3 + 1) +
           t * (getQ s.norms (v1 * 3 + 1) - getQ s.norms (v0 * 3 + 1)),
         getQ s.norms (v0 * 3 + 2) +
           t * (getQ s.norms (v1 * 3 + 2) - getQ s.norms (v0 * 3 + 2))]
      uvs := s.uvs ++
        [getQ s.uvs (v0 * 2) + t * (getQ s.uvs (v1 * 2) - getQ s.uvs (v0 * 2)),
         getQ s.uvs (v0 * 2 + 1) +
           t * (getQ s.uvs (v1 * 2 + 1) - getQ s.uvs (v0 * 2 + 1))] })

/-- Per-triangle knife intersection record (`edge` index, hit point, edge
parameter). -/
structure KCut where
  edge : ℕ
  point : Vec3Q
  t : ℚ
deriving DecidableEq, Repr

/-- Embedding of `knifeCut(mesh, cut)`. -/
def knifeCut (mesh : MeshQ) (cut : KnifeCutQ) : MeshQ :=
  if cut.points.length < 2 then mesh else
  let geometry := mesh.geometry
  let cutsMap : List (ℕ × List KCut) :=
    (cut.points.zip cut.points.tail).foldl
      (fun m seg =>
        let segStart := seg.1
        let segEnd := seg.2
        let dir := vec3Normalize (vec3Sub segEnd segStart)
        let p0 := if cut.throughCut then vec3Sub segStart (vec3Scale dir 1000)
          else segStart
        let p1 := if cut.throughCut then vec3Add segEnd (vec3Scale dir 1000)
          else segEnd
        (tris geometry.indices).enum.foldl
          (fun m2 it =>
            let triIdx := it.1
            let t := it.2
            let v0 := vtx geometry.vertices t.1
            let v1 := vtx geometry.vertices t.2.1
            let v2 := vtx geometry.vertices t.2.2
            match segmentTriangleIntersect p0 p1 v0 v1 v2 with
            | none => m2
            | some res =>
                let bary := res.2.2
                let baryVals := [bary.x, bary.y, bary.z]
                let nearVertex := baryVals.any fun b => b > 1 - 1 / 20
                if nearVertex then m2
                else
                  let hit := ([ (0, 1, 2), (1, 2, 0), (2, 0, 1) ] :
                      List (ℕ × ℕ × ℕ)).enum.find? fun ej =>
                    baryVals.getD ej.2.2.2 0 < 9 / 10
                  match hit with
                  | none => m2
                  | some ej =>
                      let b0 := baryVals.getD ej.2.1 0
                      let b1 := baryVals.getD ej.2.2.1 0
                      pushAssoc m2 triIdx ⟨ej.1, res.1, b1 / (b0 + b1)⟩)
          m)
      []
  let rebuilt := (tris geometry.indices).enum.foldl
    (fun (acc : SubdivState × List Tri) it =>
      let triIdx := it.1
      let i0 := it.2.1
      let i1 := it.2.2.1
      let i2 := it.2.2.2
      let cuts := (getAssoc cutsMap triIdx).getD []
      match cuts with
      | [] => (acc.1, acc.2 ++ [(i0, i1, i2)])
      | [c] =>
          let ev := ([(i0, i1), (i1, i2), (i2, i0)] : List (ℕ × ℕ)).getD c.edge (0, 0)
          let r := splitEdge acc.1 ev.1 ev.2 c.t
          let opposite := ([i2, i0, i1] : List ℕ).getD c.edge 0
          (r.2, acc.2 ++ [(ev.1, r.1, opposite), (r.1, ev.2, opposite)])
      | [ca, cb] =>
          let s0 := if ca.edge ≤ cb.edge then ca else cb
          let s1 := if ca.edge ≤ cb.edge then cb else ca
          let ev0 := ([(i0, i1), (i1, i2), (i2, i0)] : List (ℕ × ℕ)).getD s0.edge (0, 0)
          let ev1 := ([(i0, i1), (i1, i2), (i2, i0)] : List (ℕ × ℕ)).getD s1.edge (0, 0)
          let r0 := splitEdge acc.1 ev0.1 ev0.2 s0.t
          let r1 := splitEdge r0.2 ev1.1 ev1.2 s1.t
          if s1.edge - s0.edge = 1 ∨ (s0.edge = 0 ∧ s1.edge = 2) then
            let sharedVert := ([i1, i2, i0] : List ℕ).getD s0.edge 0
            (r1.2, acc.2 ++ [(ev0.1, r0.1, r1.1), (ev0.1, r1.1, ev1.2),
              (r0.1, sharedVert, r1.1)])
          else (r1.2, acc.2 ++ [(i0, i1, i2)])
      | _ => (acc.1, acc.2 ++ [(i0, i1, i2)]))
    (⟨geometry.vertices, geometry.normals, geometry.uvs, []⟩, [])
  { mesh with geometry :=
    { id := geometry.id
      vertices := rebuilt.1.verts
      normals := rebuilt.1.norms
      uvs := rebuilt.1.uvs
      indices := toUint16 (untris rebuilt.2)
      vertexCount := rebuilt.1.verts.length / 3
      edges := rebuildEdges (untris rebuilt.2)
      faces := rebuilt.2.map fun t =>
        ⟨[t.1, t.2.1, t.2.2], vtx rebuilt.1.norms t.1⟩ } }

/-! ## Bridge edge loops (source `modifiers/bridge.ts`)

The bulge term uses `Math.sin(Math.PI * t)`; the transcendental `sin(π·t)` is
taken as an explicit function parameter `sinPi` of the embedding (the claims
below hold for every choice of it).  A negative `twist` makes the source index
`loop2` at a negative position, yielding `undefined` entries, hence indices of
the bridged geometry are `Option ℕ` coerced exactly as the typed array does. -/

inductive BlendQ
  | linear
  | smooth
  | sphere
deriving DecidableEq, Repr

structure BridgeOptionsQ where
  loop1 : List ℕ
  loop2 : List ℕ
  twist : ℤ
  segments : ℕ
  smoothness : ℚ
  blend : BlendQ
deriving DecidableEq, Repr

/-- Embedding of `smoothStep`. -/
def smoothStep (t : ℚ) : ℚ := t * t * (3 - 2 * t)

/-- Embedding of `sphereBlend` (`Math.sqrt` as `ratSqrt`). -/
def sphereBlend (t : ℚ) : ℚ := ratSqrt (1 - (2 * t - 1) * (2 * t - 1)) * (1 / 2) + 1 / 2

/-- Embedding of `findOptimalAlignment`: rotational offset minimising the sum
of endpoint distances (first strict minimum wins). -/
def findOptimalAlignment (loop1 loop2 : List Vec3Q) : ℕ :=
  if loop1.length ≠ loop2.length then 0 else
  let best := (List.range loop2.length).foldl
    (fun (acc : Option (ℕ × ℚ)) offset =>
      let totalDist := (List.range loop1.length).foldl
        (fun d i => d + vec3Distance (loop1.getD i ⟨0, 0, 0⟩)
          (loop2.getD ((i + offset) % loop2.length) ⟨0, 0, 0⟩))
        0
      match acc with
      | none => some (offset, totalDist)
      | some m => if totalDist < m.2 then some (offset, totalDist) else acc)
    none
  match best with
  | some m => m.1
  | none => 0

/-- JavaScript array read at a possibly negative `%`-reduced position. -/
def getLoop (l : List ℕ) (i : ℤ) : Option ℕ :=
  if 0 ≤ i then l.get? i.toNat else none

/-- The quad stitching loop of `bridgeEdgeLoops`: two triangles per ring
position between consecutive loops. -/
def bridgeQuads (allLoops : List (List (Option ℕ))) : List TriO :=
  (List.range (allLoops.length - 1)).flatMap fun l =>
    let currentLoop := allLoops.getD l []
    let nextLoop := allLoops.getD (l + 1) []
    let count := max currentLoop.length nextLoop.length
    (List.range count).flatMap fun i =>
      let v0 := currentLoop.getD (i % currentLoop.length) none
      let v1 := currentLoop.getD ((i + 1) % currentLoop.length) none
      let v2 := nextLoop.getD (i % nextLoop.length) none
      let v3 := nextLoop.getD ((i + 1) % nextLoop.length) none
      [(v0, v1, v3), (v0, v3, v2)]

/-- One ring vertex of an intermediate bridge loop (inner loop of the
segment pass). -/
def bridgeLoopStep (sinPi : ℚ → ℚ) (geometry : GeometryQ) (loop1 loop2 : List ℕ)
    (loop1Pos loop2Pos : List Vec3Q) (alignmentOffset : ℤ) (len2 : ℤ)
    (smoothness t : ℚ) (lacc : SubdivState × List (Option ℕ)) (i : ℕ) :
    SubdivState × List (Option ℕ) :=
  let i1 := i % loop1.length
  let i2 : ℤ := Int.tmod ((i : ℤ) + alignmentOffset) len2
  let l2at := getLoop loop2 i2
  let p1 := loop1Pos.getD i1 ⟨0, 0, 0⟩
  let p2 := match (if 0 ≤ i2 then loop2Pos.get? i2.toNat else none) with
    | some p => p
    | none => ⟨0, 0, 0⟩
  let n1 := vtx geometry.normals (loop1.getD i1 0)
  let n2 := vtx geometry.normals (l2at.getD 0)
  let uv1u := getQ geometry.uvs ((loop1.getD i1 0) * 2)
  let uv1v := getQ geometry.uvs ((loop1.getD i1 0) * 2 + 1)
  let uv2u := getQ geometry.uvs ((l2at.getD 0) * 2)
  let uv2v := getQ geometry.uvs ((l2at.getD 0) * 2 + 1)
  let pos0 := vec3Lerp p1 p2 t
  let pos := if smoothness > 0 then
      let bulge := vec3Normalize (vec3Add n1 n2)
      let bulgeAmount := sinPi t * smoothness * vec3Distance p1 p2 * (1 / 4)
      vec3Add pos0 (vec3Scale bulge bulgeAmount)
    else pos0
  let newIdx := lacc.1.verts.length / 3
  let normal := vec3Normalize (vec3Lerp n1 n2 t)
  ({ lacc.1 with
      verts := lacc.1.verts ++ [pos.x, pos.y, pos.z]
      norms := lacc.1.norms ++ [normal.x, normal.y, normal.z]
      uvs := lacc.1.uvs ++
        [uv1u + t * (uv2u - uv1u), uv1v + t * (uv2v - uv1v)] },
    lacc.2 ++ [some newIdx])

/-- One intermediate loop of the bridge (one pass of the segment loop). -/
def bridgeSegmentStep (sinPi : ℚ → ℚ) (geometry : GeometryQ)
    (loop1 loop2 : List ℕ) (loop1Pos loop2Pos : List Vec3Q)
    (alignmentOffset : ℤ) (len2 : ℤ) (options : BridgeOptionsQ)
    (acc : SubdivState × List (List (Option ℕ))) (s : ℕ) :
    SubdivState × List (List (Option ℕ)) :=
  let t0 : ℚ := (s : ℚ) / (options.segments : ℚ)
  let t := match options.blend with
    | .smooth => smoothStep t0
    | .sphere => sphereBlend t0
    | .linear => t0
  let count := max loop1.length loop2.length
  let loopBuilt := (List.range count).foldl
    (bridgeLoopStep sinPi geometry loop1 loop2 loop1Pos loop2Pos
      alignmentOffset len2 options.smoothness t)
    (acc.1, [])
  (loopBuilt.1, acc.2 ++ [loopBuilt.2])

/-- Embedding of `bridgeEdgeLoops(mesh, options)`. -/
def bridgeEdgeLoops (sinPi : ℚ → ℚ) (mesh : MeshQ) (options : BridgeOptionsQ) :
    MeshQ :=
  if options.loop1.length < 3 ∨ options.loop2.length < 3 then mesh else
  let geometry := mesh.geometry
  let loop1 := options.loop1
  let loop2 := options.loop2
  let loop1Pos := loop1.map fun i => vtx geometry.vertices i
  let loop2Pos := loop2.map fun i => vtx geometry.vertices i
  let alignmentOffset : ℤ :=
    if loop1.length = loop2.length ∧ options.twist = 0 then
      (findOptimalAlignment loop1Pos loop2Pos : ℤ)
    else options.twist
  let len2 : ℤ := (loop2.length : ℤ)
  let built := (if options.segments > 1 then
      (List.range (options.segments - 1)).map (fun s0 => s0 + 1) else []).foldl
    (bridgeSegmentStep sinPi geometry loop1 loop2 loop1Pos loop2Pos
      alignmentOffset len2 options)
    (⟨geometry.vertices, geometry.normals, geometry.uvs, []⟩,
      [loop1.map some])
  let lastLoop : List (Option ℕ) := loop2.enum.map fun p =>
    getLoop loop2 (Int.tmod ((p.1 : ℤ) + alignmentOffset) len2)
  let allLoops := built.2 ++ [lastLoop]
  let quadIx : List TriO := bridgeQuads allLoops
  let newIxO : List TriO :=
    (tris geometry.indices).map (fun t => (some t.1, some t.2.1, some t.2.2)) ++
      quadIx
  let coerced : List ℕ := (newIxO.flatMap fun t => [t.1, t.2.1, t.2.2]).map
    fun o => o.getD 0
  let edgesO := rebuildEdgesO newIxO
  { mesh with geometry :=
    { id := geometry.id
      vertices := built.1.verts
      normals := built.1.norms
      uvs := built.1.uvs
      indices := toUint16 coerced
      vertexCount := built.1.verts.length / 3
      edges := edgesO.map fun p => (p.1.getD 0, p.2.getD 0)
      faces := newIxO.map fun t =>
        ⟨[t.1.getD 0, t.2.1.getD 0, t.2.2.getD 0], vtx built.1.norms (t.1.getD 0)⟩ } }

/-! ## Decimate (source file `decimate.ts`) -/

/-- Symmetric 4x4 quadric stored as ten scalars. -/
structure Quadric where
  a : ℚ
  b : ℚ
  c : ℚ
  d : ℚ
  e : ℚ
  f : ℚ
  g : ℚ
  h : ℚ
  i : ℚ
  j : ℚ
deriving DecidableEq, Repr

def createQuadric : Quadric := ⟨0, 0, 0, 0, 0, 0, 0, 0, 0, 0⟩

def quadricFromPlane (n : Vec3Q) (d : ℚ) : Quadric :=
  ⟨n.x * n.x, n.x * n.y, n.x * n.z, n.x * d,
   n.y * n.y, n.y * n.z, n.y * d,
   n.z * n.z, n.z * d,
   d * d⟩

def addQuadric (q1 q2 : Quadric) : Quadric :=
  ⟨q1.a + q2.a, q1.b + q2.b, q1.c + q2.c, q1.d + q2.d,
   q1.e + q2.e, q1.f + q2.f, q1.g + q2.g,
   q1.h + q2.h, q1.i + q2.i,
   q1.j + q2.j⟩

def evaluateQuadric (q : Quadric) (v : Vec3Q) : ℚ :=
  q.a * v.x * v.x + 2 * q.b * v.x * v.y + 2 * q.c * v.x * v.z + 2 * q.d * v.x +
    q.e * v.y * v.y + 2 * q.f * v.y * v.z + 2 * q.g * v.y +
    q.h * v.z * v.z + 2 * q.i * v.z +
    q.j

inductive DecimateModeQ
  | collapse
  | unsubdivide
  | planar
deriving DecidableEq, Repr

structure DecimateOptionsQ where
  ratio : ℚ
  mode : DecimateModeQ
  symmetry : Bool
  symmetryAxis : AxisQ
deriving DecidableEq, Repr

/-- Mutable state of the edge-collapse loop of `decimateCollapse`. -/
structure CollapseState where
  vertices : List Vec3Q
  quadrics : List Quadric
  faces : List Tri
  edges : List (ℕ × ℕ)
  removed : List ℕ
deriving DecidableEq, Repr

/-- One candidate inspection of the best-edge scan. -/
def findBestStep (s : CollapseState) (acc : Option ((ℕ × ℕ) × ℚ × Vec3Q))
    (e : ℕ × ℕ) : Option ((ℕ × ℕ) × ℚ × Vec3Q) :=
  if e.1 ∈ s.removed ∨ e.2 ∈ s.removed then acc
  else
    let q := addQuadric (s.quadrics.getD e.1 createQuadric)
      (s.quadrics.getD e.2 createQuadric)
    let mid := vec3Scale (vec3Add (s.vertices.getD e.1 ⟨0, 0, 0⟩)
      (s.vertices.getD e.2 ⟨0, 0, 0⟩)) (1 / 2)
    let error := evaluateQuadric q mid
    match acc with
    | none => some (e, error, mid)
    | some b => if error < b.2.1 then some (e, error, mid) else acc

/-- One scan for the best collapse candidate: edges with a removed endpoint
are skipped, the quadric error of the midpoint is evaluated, and the first
strict minimum wins (the `Infinity` initialisation of the source means the
first eligible edge always replaces the empty accumulator). -/
def findBest (s : CollapseState) : Option ((ℕ × ℕ) × ℚ × Vec3Q) :=
  s.edges.foldl (findBestStep s) none

/-- One collapse: move `v1` to the chosen position, fold the quadrics, mark
`v2` removed, rewrite `v2 → v1` in faces (dropping degenerates) and in edges
(dropping self-loops).  Backward iteration with `splice` in the source keeps
the relative order of survivors, hence `filterMap`. -/
def collapseStep (s : CollapseState) (e : ℕ × ℕ) (pos : Vec3Q) : CollapseState :=
  let v1 := e.1
  let v2 := e.2
  let rn : ℕ → ℕ := fun v => if v = v2 then v1 else v
  { vertices := s.vertices.set v1 pos
    quadrics := s.quadrics.set v1 (addQuadric (s.quadrics.getD v1 createQuadric)
      (s.quadrics.getD v2 createQuadric))
    faces := s.faces.filterMap fun t =>
      let t2 : Tri := (rn t.1, rn t.2.1, rn t.2.2)
      if t2.1 = t2.2.1 ∨ t2.2.1 = t2.2.2 ∨ t2.2.2 = t2.1 then none else some t2
    edges := s.edges.filterMap fun ed =>
      let a := rn ed.1
      let b := rn ed.2
      if a = b then none else some (a, b)
    removed := s.removed ++ [v2] }

/-- The `while (faces.length > targetFaceCount)` loop, driven by explicit
fuel.  Every reachable execution exits through one of the two source exits
before the fuel runs out (each iteration permanently removes one more vertex,
so the iteration count is bounded by the number of distinct vertices). -/
def collapseLoop (target : ℕ) : ℕ → CollapseState → CollapseState
  | 0, s => s
  | fuel + 1, s =>
      if s.faces.length ≤ target then s
      else
        match findBest s with
        | none => s
        | some r => collapseLoop target fuel (collapseStep s r.1 r.2.2)

/-- Target triangle count of a decimation pass:
`Math.max(4, Math.floor(T * ratio))`. -/
def collapseTarget (mesh : MeshQ) (ratio : ℚ) : ℕ :=
  max 4 (Int.toNat ⌊((mesh.geometry.indices.length / 3 : ℕ) : ℚ) * ratio⌋)

/-- Initial state of the collapse loop: positions, accumulated quadrics, the
triangle list and the deduplicated canonical edge list. -/
def collapseInit (mesh : MeshQ) : CollapseState :=
  let geometry := mesh.geometry
  let vertexCount := geometry.vertexCount
  let vertices := (List.range vertexCount).map fun i => vtx geometry.vertices i
  let faces := tris geometry.indices
  let quadrics := faces.foldl
    (fun (qs : List Quadric) t =>
      let v0 := vertices.getD t.1 ⟨0, 0, 0⟩
      let v1 := vertices.getD t.2.1 ⟨0, 0, 0⟩
      let v2 := vertices.getD t.2.2 ⟨0, 0, 0⟩
      let n := vec3Normalize (vec3Cross (vec3Sub v1 v0) (vec3Sub v2 v0))
      let d := -(vec3Dot n v0)
      let planeQ := quadricFromPlane n d
      let upd := fun (l : List Quadric) (i : ℕ) =>
        l.set i (addQuadric (l.getD i createQuadric) planeQ)
      upd (upd (upd qs t.1) t.2.1) t.2.2)
    (List.replicate vertexCount createQuadric)
  let edges := faces.foldl
    (fun es t => (sidePairs t).foldl
      (fun es2 q => pushUnique es2 (canonPair q.1 q.2)) es)
    []
  ⟨vertices, quadrics, faces, edges, []⟩

/-- Embedding of `decimateCollapse(mesh, ratio)`. -/
def decimateCollapse (mesh : MeshQ) (ratio : ℚ) : MeshQ :=
  let geometry := mesh.geometry
  let final := collapseLoop (collapseTarget mesh ratio)
    (geometry.vertexCount + geometry.indices.length + 1)
    (collapseInit mesh)
  let compact := final.faces.foldl
    (fun (acc : List (ℕ × ℕ) × SubdivState × ℕ) t =>
      ([t.1, t.2.1, t.2.2] : List ℕ).foldl
        (fun acc2 vIdx =>
          if (getAssoc acc2.1 vIdx).isSome then acc2
          else
            let v := final.vertices.getD vIdx ⟨0, 0, 0⟩
            (acc2.1 ++ [(vIdx, acc2.2.2)],
              { verts := acc2.2.1.verts ++ [v.x, v.y, v.z]
                norms := acc2.2.1.norms ++ [0, 0, 0]
                uvs := acc2.2.1.uvs ++ [getQ geometry.uvs (vIdx * 2),
                  getQ geometry.uvs (vIdx * 2 + 1)]
                mid := [] },
              acc2.2.2 + 1))
        acc)
    ([], ⟨[], [], [], []⟩, 0)
  let newVertexMap := compact.1
  let newVerts := compact.2.1.verts
  let newIx : List Tri := final.faces.map fun t =>
    ((getAssoc newVertexMap t.1).getD 0, (getAssoc newVertexMap t.2.1).getD 0,
      (getAssoc newVertexMap t.2.2).getD 0)
  let accNorms := newIx.foldl
    (fun (ns : List ℚ) t =>
      let v0 := vtx newVerts t.1
      let v1 := vtx newVerts t.2.1
      let v2 := vtx newVerts t.2.2
      let n := vec3Cross (vec3Sub v1 v0) (vec3Sub v2 v0)
      let addAt := fun (l : List ℚ) (i : ℕ) =>
        ((l.set (i * 3) (getQ l (i * 3) + n.x)).set (i * 3 + 1)
          (getQ l (i * 3 + 1) + n.y)).set (i * 3 + 2) (getQ l (i * 3 + 2) + n.z)
      addAt (addAt (addAt ns t.1) t.2.1) t.2.2)
    compact.2.1.norms
  let newNorms := (List.range (newVerts.length / 3)).foldl
    (fun (ns : List ℚ) i =>
      let nx := getQ ns (i * 3)
      let ny := getQ ns (i * 3 + 1)
      let nz := getQ ns (i * 3 + 2)
      let len := ratSqrt (nx * nx + ny * ny + nz * nz)
      if len > 0 then
        ((ns.set (i * 3) (nx / len)).set (i * 3 + 1) (ny / len)).set
          (i * 3 + 2) (nz / len)
      else ns)
    accNorms
  { mesh with geometry :=
    { id := geometry.id
      vertices := newVerts
      normals := newNorms
      uvs := compact.2.1.uvs
      indices := toUint16 (untris newIx)
      vertexCount := newVerts.length / 3
      edges := rebuildEdges (untris newIx)
      faces := newIx.map fun t => ⟨[t.1, t.2.1, t.2.2], vtx newNorms t.1⟩ } }

/-- Embedding of `decimate(mesh, options)`: `planar` and `unsubdivide`
delegate to `collapse`. -/
def decimate (mesh : MeshQ) (options : DecimateOptionsQ) : MeshQ :=
  if options.ratio ≥ 1 then mesh
  else
    match options.mode with
    | .collapse => decimateCollapse mesh options.ratio
    | .planar => decimateCollapse mesh options.ratio
    | .unsubdivide => decimateCollapse mesh options.ratio

/-! ## Boolean CSG (source file `boolean.ts`) -/

structure PlaneQ where
  normal : Vec3Q
  w : ℚ
deriving DecidableEq, Repr

structure PolyQ where
  vertices : List Vec3Q
  plane : PlaneQ
deriving DecidableEq, Repr

/-- Splitting tolerance of the BSP kernel. -/
def csgEpsilon : ℚ := 1 / 100000

def planeFromPoints (a b c : Vec3Q) : PlaneQ :=
  let n := vec3Normalize (vec3Cross (vec3Sub b a) (vec3Sub c a))
  ⟨n, vec3Dot n a⟩

def planeFlip (p : PlaneQ) : PlaneQ := ⟨vec3Flip p.normal, -p.w⟩

def polyFlip (p : PolyQ) : PolyQ := ⟨p.vertices.reverse, planeFlip p.plane⟩

/-- Classification codes: `COPLANAR = 0`, `FRONT = 1`, `BACK = 2`. -/
def classifyPoint (plane : PlaneQ) (point : Vec3Q) : ℕ :=
  let t := vec3Dot plane.normal point - plane.w
  if t < -csgEpsilon then 2 else if t > csgEpsilon then 1 else 0

/-- Result buckets of one `splitPolygon` call: coplanar-front, coplanar-back,
front, back. -/
structure SplitRes where
  cf : List PolyQ
  cb : List PolyQ
  f : List PolyQ
  b : List PolyQ
deriving DecidableEq, Repr

/-- Embedding of `splitPolygon(plane, polygon, ...)` for a single polygon. -/
def splitPolygon (plane : PlaneQ) (polygon : PolyQ) : SplitRes :=
  let types := polygon.vertices.map (classifyPoint plane)
  let polygonType := types.foldl Nat.lor 0
  match polygonType with
  | 0 =>
      if vec3Dot plane.normal polygon.plane.normal > 0 then ⟨[polygon], [], [], []⟩
      else ⟨[], [polygon], [], []⟩
  | 1 => ⟨[], [], [polygon], []⟩
  | 2 => ⟨[], [], [], [polygon]⟩
  | 3 =>
      let n := polygon.vertices.length
      let fb := (List.range n).foldl
        (fun (acc : List Vec3Q × List Vec3Q) i0 =>
          let j := (i0 + 1) % n
          let ti := types.getD i0 0
          let tj := types.getD j 0
          let vi := polygon.vertices.getD i0 ⟨0, 0, 0⟩
          let vj := polygon.vertices.getD j ⟨0, 0, 0⟩
          let acc1 := (if ti ≠ 2 then acc.1 ++ [vi] else acc.1,
            if ti ≠ 1 then acc.2 ++ [vi] else acc.2)
          if Nat.lor ti tj = 3 then
            let t := (plane.w - vec3Dot plane.normal vi) /
              vec3Dot plane.normal (vec3Sub vj vi)
            let v := vec3Lerp vi vj t
            (acc1.1 ++ [v], acc1.2 ++ [v])
          else acc1)
        ([], [])
      ⟨[], [],
        if fb.1.length ≥ 3 then [⟨fb.1, polygon.plane⟩] else [],
        if fb.2.length ≥ 3 then [⟨fb.2, polygon.plane⟩] else []⟩
  | _ => ⟨[], [], [], []⟩

/-- BSP tree; `nil` is the JavaScript `null` child pointer, a `node` with
`plane = none` is a built-but-empty node. -/
inductive BSPT
  | nil : BSPT
  | node (plane : Option PlaneQ) (polys : List PolyQ) (front back : BSPT) : BSPT
deriving DecidableEq, Repr

/-- Embedding of `buildBSP`, with explicit recursion fuel (the top-level call
sites below always pass enough fuel for the executions the theorems touch). -/
def buildBSP : ℕ → List PolyQ → BSPT
  | _, [] => .node none [] .nil .nil
  | 0, _ :: _ => .node none [] .nil .nil
  | fuel + 1, p :: ps =>
      let plane := p.plane
      let acc := (p :: ps).foldl
        (fun (a : List PolyQ × List PolyQ × List PolyQ) poly =>
          let r := splitPolygon plane poly
          (a.1 ++ r.cf ++ r.cb, a.2.1 ++ r.f, a.2.2 ++ r.b))
        ([], [], [])
      let frontT := if acc.2.1.length > 0 then buildBSP fuel acc.2.1 else .nil
      let backT := if acc.2.2.length > 0 then buildBSP fuel acc.2.2 else .nil
      .node (some plane) acc.1 frontT backT

/-- Embedding of `invertBSP` (flip polygons and planes, swap children). -/
def invertBSP : BSPT → BSPT
  | .nil => .nil
  | .node pl polys f b =>
      .node (pl.map planeFlip) (polys.map polyFlip) (invertBSP b) (invertBSP f)

/-- Embedding of `clipPolygons`: split against the node plane, recurse into
`front`, and discard what falls into a missing `back` subtree. -/
def clipPolygons : BSPT → List PolyQ → List PolyQ
  | .nil, polys => polys
  | .node none _ _ _, polys => polys
  | .node (some pl) _ f b, polys =>
      let acc := polys.foldl
        (fun (a : List PolyQ × List PolyQ) poly =>
          let r := splitPolygon pl poly
          (a.1 ++ r.cf ++ r.f, a.2 ++ r.cb ++ r.b))
        ([], [])
      let front := match f with
        | .nil => acc.1
        | _ => clipPolygons f acc.1
      let back := match b with
        | .nil => ([] : List PolyQ)
        | _ => clipPolygons b acc.2
      front ++ back

/-- Embedding of `clipTo(a, b)` (returns the updated `a`). -/
def clipTo : BSPT → BSPT → BSPT
  | .nil, _ => .nil
  | .node pl polys f bk, b => .node pl (clipPolygons b polys) (clipTo f b) (clipTo bk b)

def allPolygons : BSPT → List PolyQ
  | .nil => []
  | .node _ polys f b => polys ++ allPolygons f ++ allPolygons b

/-- Embedding of `mergeBSP(a, polygons)` (fuelled: children may be freshly
created empty nodes). -/
def mergeBSP : ℕ → BSPT → List PolyQ → BSPT
  | _, .nil, _ => .nil
  | 0, t, _ => t
  | fuel + 1, .node pl polys f b, inPolys =>
      let pl2 := if pl = none ∧ inPolys.length > 0 then
          some ((inPolys.headD ⟨[], ⟨⟨0, 0, 0⟩, 0⟩⟩).plane)
        else pl
      match pl2 with
      | none => .node pl polys f b
      | some plv =>
          let acc := inPolys.foldl
            (fun (a : List PolyQ × List PolyQ × List PolyQ) poly =>
              let r := splitPolygon plv poly
              (a.1 ++ r.cf ++ r.cb, a.2.1 ++ r.f, a.2.2 ++ r.b))
            (polys, [], [])
          let f2 := if acc.2.1.length > 0 then
              mergeBSP fuel (match f with | .nil => .node none [] .nil .nil | t => t)
                acc.2.1
            else f
          let b2 := if acc.2.2.length > 0 then
              mergeBSP fuel (match b with | .nil => .node none [] .nil .nil | t => t)
                acc.2.2
            else b
          .node (some plv) acc.1 f2 b2

/-- World-space baking of a point through the mesh transform, mirroring the
`applyTransform` helper of `boolean.ts` (rotation given by cosine/sine). -/
def applyTransformCSG (t : TransformQ) (v : Vec3Q) : Vec3Q :=
  let x := v.x * t.scale.x
  let y := v.y * t.scale.y
  let z := v.z * t.scale.z
  let y1 := y * t.cosX - z * t.sinX
  let z1 := y * t.sinX + z * t.cosX
  let x1 := x * t.cosY + z1 * t.sinY
  let z2 := -x * t.sinY + z1 * t.cosY
  let x3 := x1 * t.cosZ - y1 * t.sinZ
  let y3 := x1 * t.sinZ + y1 * t.cosZ
  ⟨x3 + t.position.x, y3 + t.position.y, z2 + t.position.z⟩

/-- Embedding of `meshToPolygons`. -/
def meshToPolygons (mesh : MeshQ) : List PolyQ :=
  (tris mesh.geometry.indices).map fun t =>
    let v0 := applyTransformCSG mesh.transform (vtx mesh.geometry.vertices t.1)
    let v1 := applyTransformCSG mesh.transform (vtx mesh.geometry.vertices t.2.1)
    let v2 := applyTransformCSG mesh.transform (vtx mesh.geometry.vertices t.2.2)
    ⟨[v0, v1, v2], planeFromPoints v0 v1 v2⟩

/-- Embedding of `polygonsToGeometry` (fan triangulation; the time-based
geometry id of the source is fixed to a constant). -/
def polygonsToGeometry (polygons : List PolyQ) : GeometryQ :=
  let built := polygons.foldl
    (fun (acc : SubdivState × List ℕ × ℕ) p =>
      (List.range (p.vertices.length - 2)).foldl
        (fun acc2 i0 =>
          let i := i0 + 1
          let corners := [p.vertices.getD 0 ⟨0, 0, 0⟩, p.vertices.getD i ⟨0, 0, 0⟩,
            p.vertices.getD (i + 1) ⟨0, 0, 0⟩]
          corners.foldl
            (fun (acc3 : SubdivState × List ℕ × ℕ) v =>
              ({ acc3.1 with
                  verts := acc3.1.verts ++ [v.x, v.y, v.z]
                  norms := acc3.1.norms ++ [p.plane.normal.x, p.plane.normal.y,
                    p.plane.normal.z]
                  uvs := acc3.1.uvs ++ [0, 0] },
                acc3.2.1 ++ [acc3.2.2], acc3.2.2 + 1))
            acc2)
        acc)
    (⟨[], [], [], []⟩, [], 0)
  let indices := built.2.1
  { id := "geo"
    vertices := built.1.verts
    normals := built.1.norms
    uvs := built.1.uvs
    indices := toUint16 indices
    vertexCount := built.1.verts.length / 3
    edges := rebuildEdges indices
    faces := (tris indices).map fun t => ⟨[t.1, t.2.1, t.2.2], vtx built.1.norms t.1⟩ }

inductive BooleanOperationQ
  | union
  | difference
  | intersect
deriving DecidableEq, Repr

structure BooleanOptionsQ where
  operation : BooleanOperationQ
  target : MeshQ
deriving DecidableEq, Repr

/-- Embedding of `boolean(mesh, options)`. -/
def boolean (mesh : MeshQ) (options : BooleanOptionsQ) : MeshQ :=
  let aPolys := meshToPolygons mesh
  let bPolys := meshToPolygons options.target
  let fuel := aPolys.length + bPolys.length + 1
  let a0 := buildBSP fuel aPolys
  let b0 := buildBSP fuel bPolys
  let resultPolygons :=
    match options.operation with
    | .union =>
        let a1 := clipTo a0 b0
        let b1 := clipTo b0 a1
        let b2 := invertBSP b1
        let b3 := clipTo b2 a1
        let b4 := invertBSP b3
        let a2 := mergeBSP fuel a1 (allPolygons b4)
        allPolygons a2
    | .difference =>
        let a1 := invertBSP a0
        let a2 := clipTo a1 b0
        let b1 := clipTo b0 a2
        let b2 := invertBSP b1
        let b3 := clipTo b2 a2
        let b4 := invertBSP b3
        let a3 := mergeBSP fuel a2 (allPolygons b4)
        let a4 := invertBSP a3
        allPolygons a4
    | .intersect =>
        let a1 := invertBSP a0
        let b1 := clipTo b0 a1
        let b2 := invertBSP b1
        let a2 := clipTo a1 b2
        let b3 := clipTo b2 a2
        let a3 := mergeBSP fuel a2 (allPolygons b3)
        let a4 := invertBSP a3
        allPolygons a4
  { mesh with
    geometry := polygonsToGeometry resultPolygons
    transform := identityTransform }

/-! ## Picking (source file `raycast.ts`) -/

structure RayQ where
  origin : Vec3Q
  direction : Vec3Q
deriving DecidableEq, Repr

structure RaycastHitQ where
  meshId : String
  distance : ℚ
  point : Vec3Q
  faceIndex : ℕ
deriving DecidableEq, Repr

/-- Embedding of the `transformPoint` helper of `raycast.ts` (scale, then
Euler XYZ rotation given by cosine/sine, then translation). -/
def transformPoint (p : Vec3Q) (t : TransformQ) : Vec3Q :=
  let r0 : Vec3Q := ⟨p.x * t.scale.x, p.y * t.scale.y, p.z * t.scale.z⟩
  let r1 : Vec3Q := ⟨r0.x, r0.y * t.cosX - r0.z * t.sinX,
    r0.y * t.sinX + r0.z * t.cosX⟩
  let r2 : Vec3Q := ⟨r1.x * t.cosY + r1.z * t.sinY, r1.y,
    -r1.x * t.sinY + r1.z * t.cosY⟩
  let r3 : Vec3Q := ⟨r2.x * t.cosZ - r2.y * t.sinZ,
    r2.x * t.sinZ + r2.y * t.cosZ, r2.z⟩
  vec3Add r3 t.position

/-- Embedding of the Moller-Trumbore `rayTriangleIntersect`; `none` is the
`hit: false` result, `some (t, point)` a hit at distance `t > 1e-6`. -/
def rayTriangleIntersect (ray : RayQ) (v0 v1 v2 : Vec3Q) : Option (ℚ × Vec3Q) :=
  let eps : ℚ := 1 / 1000000
  let edge1 := vec3Sub v1 v0
  let edge2 := vec3Sub v2 v0
  let h := vec3Cross ray.direction edge2
  let a := vec3Dot edge1 h
  if -eps < a ∧ a < eps then none else
  let f := 1 / a
  let s := vec3Sub ray.origin v0
  let u := f * vec3Dot s h
  if u < 0 ∨ u > 1 then none else
  let q := vec3Cross s edge1
  let v := f * vec3Dot ray.direction q
  if v < 0 ∨ u + v > 1 then none else
  let t := f * vec3Dot edge2 q
  if t > eps then some (t, vec3Add ray.origin (vec3Scale ray.direction t))
  else none

/-- One triangle inspection of the `raycastMesh` scan. -/
def raycastMeshStep (ray : RayQ) (mesh : MeshQ) (acc : Option RaycastHitQ)
    (it : ℕ × Tri) : Option RaycastHitQ :=
  let tv0 := transformPoint (vtx mesh.geometry.vertices it.2.1) mesh.transform
  let tv1 := transformPoint (vtx mesh.geometry.vertices it.2.2.1) mesh.transform
  let tv2 := transformPoint (vtx mesh.geometry.vertices it.2.2.2) mesh.transform
  match rayTriangleIntersect ray tv0 tv1 tv2 with
  | none => acc
  | some r =>
      match acc with
      | none => some ⟨mesh.id, r.1, r.2, it.1⟩
      | some h => if r.1 < h.distance then some ⟨mesh.id, r.1, r.2, it.1⟩ else acc

/-- Embedding of `raycastMesh(ray, mesh)`: invisible meshes yield `null`, the
full index buffer is scanned and the smallest positive `t` wins (first hit on
ties, matching the strict `<` of the source). -/
def raycastMesh (ray : RayQ) (mesh : MeshQ) : Option RaycastHitQ :=
  if ¬mesh.visible then none else
  (tris mesh.geometry.indices).enum.foldl (raycastMeshStep ray mesh) none

/-- One mesh inspection of the scene scan. -/
def raycastStep (ray : RayQ) (acc : Option RaycastHitQ) (m : MeshQ) :
    Option RaycastHitQ :=
  match raycastMesh ray m with
  | none => acc
  | some hit =>
      match acc with
      | none => some hit
      | some h => if hit.distance < h.distance then some hit else acc

/-- Embedding of `raycast(ray, meshes)`: the mesh hit with the smallest `t`
wins; `none` when nothing is hit. -/
def raycast (ray : RayQ) (meshes : List MeshQ) : Option RaycastHitQ :=
  meshes.foldl (raycastStep ray) none

/-- Accepted Moller-Trumbore distance of one (transformed) triangle. -/
def triHitDist (ray : RayQ) (mesh : MeshQ) (t : Tri) : Option ℚ :=
  (rayTriangleIntersect ray
    (transformPoint (vtx mesh.geometry.vertices t.1) mesh.transform)
    (transformPoint (vtx mesh.geometry.vertices t.2.1) mesh.transform)
    (transformPoint (vtx mesh.geometry.vertices t.2.2) mesh.transform)).map
    Prod.fst

/-- All accepted hit distances of one mesh (empty for invisible meshes, which
the scan skips entirely). -/
def meshHitDistances (ray : RayQ) (mesh : MeshQ) : List ℚ :=
  if ¬mesh.visible then [] else
  (tris mesh.geometry.indices).filterMap (triHitDist ray mesh)

/-- All accepted hit distances over a scene. -/
def sceneHitDistances (ray : RayQ) (meshes : List MeshQ) : List ℚ :=
  meshes.flatMap (meshHitDistances ray)

/-- Embedding of `findClosestVertex(mesh, point)`: brute-force scan starting
from `closestIdx = 0`, which is also returned unchanged when the mesh has no
vertices. -/
def findClosestVertex (mesh : MeshQ) (point : Vec3Q) : ℕ :=
  ((List.range mesh.geometry.vertexCount).foldl
    (fun (acc : ℕ × Option ℚ) i =>
      let tv := transformPoint (vtx mesh.geometry.vertices i) mesh.transform
      let dist := vec3Length (vec3Sub tv point)
      match acc.2 with
      | none => (i, some dist)
      | some d => if dist < d then (i, some dist) else acc)
    (0, none)).1

/-! ## Sculpt engine (source `sculpting/brushes.ts` and the engine class) -/

inductive BrushTypeQ
  | grab
  | smooth
  | clay
  | crease
  | inflate
  | flatten
  | pinch
deriving DecidableEq, Repr

inductive FalloffTypeQ
  | smooth
  | sharp
  | linear
  | constant
deriving DecidableEq, Repr

structure BrushSettingsQ where
  type : BrushTypeQ
  radius : ℚ
  strength : ℚ
  falloff : FalloffTypeQ
  invert : Bool
  autoSmooth : ℚ
deriving DecidableEq, Repr

/-- Embedding of `calculateFalloff`. -/
def calculateFalloff (distance radius : ℚ) (falloff : FalloffTypeQ) : ℚ :=
  let t := max 0 (min 1 (distance / radius))
  match falloff with
  | .smooth => 1 - (3 * t * t - 2 * t * t * t)
  | .sharp => (1 - t) * (1 - t) * (1 - t)
  | .linear => 1 - t
  | .constant => if t < 1 then 1 else 0

/-- Embedding of `getAffectedVertices`: indices and distances of vertices
within the brush radius. -/
def getAffectedVertices (hitPoint : Vec3Q) (vertices : List ℚ) (radius : ℚ) :
    List (ℕ × ℚ) :=
  let radiusSq := radius * radius
  (List.range (vertices.length / 3)).filterMap fun i =>
    let dx := getQ vertices (i * 3) - hitPoint.x
    let dy := getQ vertices (i * 3 + 1) - hitPoint.y
    let dz := getQ vertices (i * 3 + 2) - hitPoint.z
    let distSq := dx * dx + dy * dy + dz * dz
    if distSq ≤ radiusSq then some (i, ratSqrt distSq) else none

/-- Embedding of `calculateSmoothOffset` (neighbours through the edge list,
read from the current vertex buffer). -/
def calculateSmoothOffset (verts : List ℚ) (edges : List (ℕ × ℕ))
    (vertexIndex : ℕ) (weight : ℚ) : Vec3Q :=
  let neighbors := edges.foldl
    (fun acc e =>
      (acc ++ (if e.1 = vertexIndex then [e.2] else [])) ++
        (if e.2 = vertexIndex then [e.1] else []))
    []
  if neighbors.length = 0 then ⟨0, 0, 0⟩
  else
    let sum := neighbors.foldl (fun acc n => vec3Add acc (vtx verts n)) ⟨0, 0, 0⟩
    let avg := vec3Scale sum (1 / (neighbors.length : ℚ))
    let v := vtx verts vertexIndex
    ⟨(avg.x - v.x) * weight, (avg.y - v.y) * weight, (avg.z - v.z) * weight⟩

/-- Embedding of `calculateFlattenOffset`. -/
def calculateFlattenOffset (verts norms : List ℚ) (vertexIndex : ℕ)
    (hitPoint : Vec3Q) (affected : List (ℕ × ℚ)) (weight : ℚ) : Vec3Q :=
  let avgNormal := vec3Normalize (affected.foldl
    (fun acc p => vec3Add acc (vtx norms p.1)) ⟨0, 0, 0⟩)
  let v := vtx verts vertexIndex
  let dist := vec3Dot (vec3Sub v hitPoint) avgNormal
  vec3Scale avgNormal (-dist * weight)

/-- Embedding of the private `applyBrush` of the engine, acting on the packed
vertex buffer (normals and the edge list are read-only during the loop while
vertex positions mutate progressively, exactly as in the source). -/
def applyBrushVerts (settings : BrushSettingsQ) (edges : List (ℕ × ℕ))
    (norms : List ℚ) (verts0 : List ℚ) (hitPoint delta : Vec3Q) (invert : ℚ) :
    List ℚ :=
  let affected := getAffectedVertices hitPoint verts0 settings.radius
  affected.foldl
    (fun verts p =>
      let index := p.1
      let distance := p.2
      let falloff := calculateFalloff distance settings.radius settings.falloff
      let weight := falloff * settings.strength * invert
      let v := vtx verts index
      let n := vtx norms index
      let offset : Vec3Q :=
        match settings.type with
        | .grab => vec3Scale delta weight
        | .smooth => calculateSmoothOffset verts edges index weight
        | .clay => vec3Scale n (weight * (settings.radius * (3 / 10)))
        | .crease =>
            let toCenter := vec3Sub hitPoint v
            let creaseAmount := weight * (3 / 10)
            vec3Add (vec3Scale toCenter (creaseAmount * (1 / 2)))
              (vec3Scale n (-creaseAmount * (1 / 2)))
        | .inflate => vec3Scale n (weight * settings.radius * (1 / 5))
        | .flatten => calculateFlattenOffset verts norms index hitPoint affected weight
        | .pinch => vec3Scale (vec3Sub hitPoint v) (weight * (1 / 5))
      ((verts.set (index * 3) (v.x + offset.x)).set (index * 3 + 1)
        (v.y + offset.y)).set (index * 3 + 2) (v.z + offset.z))
    verts0

/-- Embedding of `recalculateNormals`: zero, accumulate raw face crosses,
renormalise nonzero sums. -/
def recalculateNormals (verts : List ℚ) (indices : List ℕ) (norms0 : List ℚ) :
    List ℚ :=
  let zeros := norms0.map fun _ => (0 : ℚ)
  let acc := (tris indices).foldl
    (fun (ns : List ℚ) t =>
      let v0 := vtx verts t.1
      let v1 := vtx verts t.2.1
      let v2 := vtx verts t.2.2
      let n := vec3Cross (vec3Sub v1 v0) (vec3Sub v2 v0)
      let addAt := fun (l : List ℚ) (i : ℕ) =>
        ((l.set (i * 3) (getQ l (i * 3) + n.x)).set (i * 3 + 1)
          (getQ l (i * 3 + 1) + n.y)).set (i * 3 + 2) (getQ l (i * 3 + 2) + n.z)
      addAt (addAt (addAt ns t.1) t.2.1) t.2.2)
    zeros
  (List.range (verts.length / 3)).foldl
    (fun (ns : List ℚ) i =>
      let nx := getQ ns (i * 3)
      let ny := getQ ns (i * 3 + 1)
      let nz := getQ ns (i * 3 + 2)
      let len := ratSqrt (nx * nx + ny * ny + nz * nz)
      if len > 0 then
        ((ns.set (i * 3) (nx / len)).set (i * 3 + 1) (ny / len)).set
          (i * 3 + 2) (nz / len)
      else ns)
    acc

structure SculptBrushQ where
  settings : BrushSettingsQ
  isActive : Bool
  lastPosition : Option Vec3Q
  accumulatedDelta : Vec3Q
deriving DecidableEq, Repr

/-- State of one `SculptEngine` instance. -/
structure SculptEngineQ where
  mesh : Option MeshQ
  originalVertices : Option (List ℚ)
  brush : SculptBrushQ
  symX : Bool
  symY : Bool
  symZ : Bool
deriving DecidableEq, Repr

/-- Replace the vertex buffer of the bound mesh. -/
def engineSetVerts (e : SculptEngineQ) (verts : List ℚ) : SculptEngineQ :=
  match e.mesh with
  | none => e
  | some m =>
      { e with mesh := some { m with geometry := { m.geometry with vertices := verts } } }

/-- Embedding of `setMesh`. -/
def setMesh (e : SculptEngineQ) (mesh : MeshQ) : SculptEngineQ :=
  { e with mesh := some mesh, originalVertices := some mesh.geometry.vertices }

/-- Embedding of `beginStroke(hitPoint)`: activate the brush and snapshot the
bound mesh's vertex buffer. -/
def beginStroke (e : SculptEngineQ) (hitPoint : Vec3Q) : SculptEngineQ :=
  let b1 : SculptBrushQ :=
    { settings := e.brush.settings
      isActive := true
      lastPosition := some hitPoint
      accumulatedDelta := ⟨0, 0, 0⟩ }
  let e1 := { e with brush := b1 }
  match e.mesh with
  | some m => { e1 with originalVertices := some m.geometry.vertices }
  | none => e1

/-- One `applyBrush` invocation on the engine state. -/
def engineApplyBrush (e : SculptEngineQ) (hitPoint delta : Vec3Q) (invert : ℚ) :
    SculptEngineQ :=
  match e.mesh with
  | none => e
  | some m =>
      engineSetVerts e (applyBrushVerts e.brush.settings m.geometry.edges
        m.geometry.normals m.geometry.vertices hitPoint delta invert)

/-- Embedding of `updateStroke(hitPoint, delta)`: a no-op before
`beginStroke`, otherwise apply the brush, then its mirror image for every
enabled symmetry plane, then record the pointer position. -/
def updateStroke (e : SculptEngineQ) (hitPoint delta : Vec3Q) : SculptEngineQ :=
  if e.brush.isActive = false then e else
  match e.mesh with
  | none => e
  | some _ =>
      let invert : ℚ := if e.brush.settings.invert then -1 else 1
      let e1 := engineApplyBrush e hitPoint delta invert
      let e2 := if e.symX then
          engineApplyBrush e1 ⟨-hitPoint.x, hitPoint.y, hitPoint.z⟩
            ⟨-delta.x, delta.y, delta.z⟩ invert
        else e1
      let e3 := if e.symY then
          engineApplyBrush e2 ⟨hitPoint.x, -hitPoint.y, hitPoint.z⟩
            ⟨delta.x, -delta.y, delta.z⟩ invert
        else e2
      let e4 := if e.symZ then
          engineApplyBrush e3 ⟨hitPoint.x, hitPoint.y, -hitPoint.z⟩
            ⟨delta.x, delta.y, -delta.z⟩ invert
        else e3
      let b1 : SculptBrushQ :=
        { settings := e4.brush.settings
          isActive := e4.brush.isActive
          lastPosition := some hitPoint
          accumulatedDelta := vec3Add e4.brush.accumulatedDelta delta }
      { e4 with brush := b1 }

/-- Embedding of the private `applySmooth`. -/
def engineApplySmooth (e : SculptEngineQ) (center : Vec3Q) (strength : ℚ) :
    SculptEngineQ :=
  match e.mesh with
  | none => e
  | some m =>
      let verts0 := m.geometry.vertices
      let affected := getAffectedVertices center verts0 e.brush.settings.radius
      engineSetVerts e (affected.foldl
        (fun verts p =>
          let falloff := calculateFalloff p.2 e.brush.settings.radius .smooth
          let offset := calculateSmoothOffset verts m.geometry.edges p.1
            (falloff * strength)
          let v := vtx verts p.1
          ((verts.set (p.1 * 3) (v.x + offset.x)).set (p.1 * 3 + 1)
            (v.y + offset.y)).set (p.1 * 3 + 2) (v.z + offset.z))
        verts0)

/-- Recompute the bound mesh's normals from its current positions. -/
def engineRecalcNormals (e : SculptEngineQ) : SculptEngineQ :=
  match e.mesh with
  | none => e
  | some m =>
      let norms2 := recalculateNormals m.geometry.vertices m.geometry.indices
        m.geometry.normals
      { e with mesh := some { m with geometry := { m.geometry with normals := norms2 } } }

/-- Embedding of `endStroke`. -/
def endStroke (e : SculptEngineQ) : SculptEngineQ :=
  if e.brush.isActive = false then e else
  match e.mesh with
  | none => e
  | some _ =>
      let e1 := if e.brush.settings.autoSmooth > 0 then
          engineApplySmooth e (e.brush.lastPosition.getD ⟨0, 0, 0⟩)
            e.brush.settings.autoSmooth
        else e
      let e2 := engineRecalcNormals e1
      { e2 with brush :=
        { e2.brush with isActive := false, lastPosition := none } }

/-- Embedding of `undoStroke`: restore the snapshot, recompute normals. -/
def undoStroke (e : SculptEngineQ) : SculptEngineQ :=
  match e.mesh, e.originalVertices with
  | some m, some orig =>
      engineRecalcNormals
        { e with mesh := some { m with geometry :=
          { m.geometry with vertices := orig } } }
  | _, _ => e

/-! ## Concrete fixtures used by counterexamples and witnesses -/

/-- Single right triangle in the plane `z = 0`, canonical derived data. -/
def mesh1Tri : MeshQ :=
  ⟨"m1",
    { id := "g1"
      vertices := [0, 0, 0, 1, 0, 0, 0, 1, 0]
      normals := [0, 0, 1, 0, 0, 1, 0, 0, 1]
      uvs := [0, 0, 1, 0, 0, 1]
      indices := [0, 1, 2]
      vertexCount := 3
      edges := [(0, 1), (1, 2), (0, 2)]
      faces := [⟨[0, 1, 2], ⟨0, 0, 1⟩⟩] },
    identityTransform, true⟩

/-- Five coplanar triangles in `z = 0`: two sharing the edge `(0,1)` plus a
fan of three on vertices `4..7`. -/
def mesh5Tri : MeshQ :=
  ⟨"m5",
    { id := "g5"
      vertices := [0, 0, 0, 2, 0, 0, 1, 1, 0, 1, -1, 0,
        5, 0, 0, 6, 0, 0, 5, 1, 0, 6, 1, 0]
      normals := [0, 0, 1, 0, 0, 1, 0, 0, 1, 0, 0, 1,
        0, 0, 1, 0, 0, 1, 0, 0, 1, 0, 0, 1]
      uvs := [0, 0, 0, 0, 0, 0, 0, 0, 0, 0, 0, 0, 0, 0, 0, 0]
      indices := [0, 1, 2, 1, 0, 3, 4, 5, 6, 5, 7, 6, 4, 6, 7]
      vertexCount := 8
      edges := [(0, 1), (1, 2), (0, 2), (0, 3), (1, 3), (4, 5), (5, 6),
        (4, 6), (5, 7), (6, 7), (4, 7)]
      faces := [] },
    identityTransform, true⟩

/-- Two parallel triangles, the second strictly behind the first's plane. -/
def meshPar2 : MeshQ :=
  ⟨"mp",
    { id := "gp"
      vertices := [0, 0, 0, 1, 0, 0, 0, 1, 0, 0, 0, -1, 1, 0, -1, 0, 1, -1]
      normals := [0, 0, 1, 0, 0, 1, 0, 0, 1, 0, 0, 1, 0, 0, 1, 0, 0, 1]
      uvs := [0, 0, 0, 0, 0, 0, 0, 0, 0, 0, 0, 0]
      indices := [0, 1, 2, 3, 4, 5]
      vertexCount := 6
      edges := [(0, 1), (1, 2), (0, 2), (3, 4), (4, 5), (3, 5)]
      faces := [] },
    identityTransform, true⟩

/-- Mesh with no vertices at all. -/
def meshEmpty : MeshQ :=
  ⟨"m0", ⟨"g0", [], [], [], [], 0, [], []⟩, identityTransform, true⟩

/-! ## Counting lemmas for the subdivision pass -/

theorem tris_length : ∀ ix : List ℕ, (tris ix).length = ix.length / 3
  | [] => rfl
  | [_] => by simp [tris]
  | [_, _] => by simp [tris]
  | _ :: _ :: _ :: r => by
      have ih := tris_length r
      simp only [tris, List.length_cons, ih]
      omega

theorem untris_length (l : List Tri) : (untris l).length = 3 * l.length := by
  induction l with
  | nil => rfl
  | cons t r ih =>
      simp only [untris, List.flatMap_cons, List.length_append,
        List.length_cons, List.length_nil] at *
      omega

theorem subdivStep_snd_len (acc : SubdivState × List Tri) (t : Tri) :
    ((subdivStep acc t).2).length = acc.2.length + 4 := by
  simp [subdivStep]

theorem foldl_subdivStep_len :
    ∀ (l : List Tri) (acc : SubdivState × List Tri),
      ((l.foldl subdivStep acc).2).length = acc.2.length + 4 * l.length := by
  intro l
  induction l with
  | nil => simp
  | cons t r ih =>
      intro acc
      rw [List.foldl_cons, ih, subdivStep_snd_len]
      simp only [List.length_cons]
      ring

theorem toUint16_length (ix : List ℕ) : (toUint16 ix).length = ix.length :=
  List.length_map ix _

theorem subdivideOnce_indices_length (m : MeshQ) (s : Bool) :
    (subdivideOnce m s).geometry.indices.length =
      12 * (m.geometry.indices.length / 3) := by
  have h : (subdivideOnce m s).geometry.indices =
      toUint16 (untris ((tris m.geometry.indices).foldl subdivStep
        (⟨m.geometry.vertices, m.geometry.normals, m.geometry.uvs, []⟩, [])).2) := rfl
  rw [h, toUint16_length, untris_length, foldl_subdivStep_len, tris_length]
  simp
  ring

/-! ## Claim theorems -/

/-- C9: on a mesh with `vertexCount = 0`, `findClosestVertex` returns index
`0`, which does not refer to any existing vertex (there is none), and the
caller gets no failure signal. -/
theorem c9_findClosestVertex_no_vertices (mesh : MeshQ) (p : Vec3Q)
    (h : mesh.geometry.vertexCount = 0) :
    findClosestVertex mesh p = 0 ∧ ¬ 0 < mesh.geometry.vertexCount := by
  constructor
  · unfold findClosestVertex
    rw [h]
    rfl
  · omega

theorem c9_witness :
    findClosestVertex meshEmpty ⟨5, -2, 7⟩ = 0 ∧
      ¬ 0 < meshEmpty.geometry.vertexCount :=
  c9_findClosestVertex_no_vertices meshEmpty ⟨5, -2, 7⟩ rfl

/-- C5: every work-removing precondition is a silent no-op returning the
input mesh itself: extrude with an empty selection, array with `count ≤ 1`,
decimate with `ratio ≥ 1`, bridge with either loop shorter than 3, and knife
with fewer than two path points. -/
theorem c5_noop_guards :
    (∀ (m : MeshQ) (o : ExtrudeOptionsQ), extrude m [] o = m) ∧
    (∀ (m : MeshQ) (o : ArrayOptionsQ), o.count ≤ 1 → array m o = m) ∧
    (∀ (m : MeshQ) (o : DecimateOptionsQ), 1 ≤ o.ratio → decimate m o = m) ∧
    (∀ (sinPi : ℚ → ℚ) (m : MeshQ) (o : BridgeOptionsQ),
      o.loop1.length < 3 ∨ o.loop2.length < 3 → bridgeEdgeLoops sinPi m o = m) ∧
    (∀ (m : MeshQ) (c : KnifeCutQ), c.points.length < 2 → knifeCut m c = m) := by
  refine ⟨fun m o => rfl, fun m o h => ?_, fun m o h => ?_, fun sp m o h => ?_,
    fun m c h => ?_⟩
  · unfold array
    rw [if_pos h]
  · unfold decimate
    rw [if_pos h]
  · unfold bridgeEdgeLoops
    rw [if_pos h]
  · unfold knifeCut
    rw [if_pos h]

theorem c5_witness :
    (extrude mesh1Tri [] ⟨1, true⟩ = mesh1Tri) ∧
    (array mesh1Tri ⟨1, ⟨1, 0, 0⟩, .constant, false, 0⟩ = mesh1Tri) ∧
    (decimate mesh1Tri ⟨1, .collapse, false, .x⟩ = mesh1Tri) ∧
    (bridgeEdgeLoops (fun _ => 0) mesh1Tri ⟨[0, 1], [0, 1, 2], 0, 1, 0, .linear⟩ =
      mesh1Tri) ∧
    (knifeCut mesh1Tri ⟨[⟨0, 0, 0⟩], true, false, 0⟩ = mesh1Tri) :=
  ⟨c5_noop_guards.1 mesh1Tri ⟨1, true⟩,
    c5_noop_guards.2.1 mesh1Tri _ (by decide),
    c5_noop_guards.2.2.1 mesh1Tri _ (by norm_num),
    c5_noop_guards.2.2.2.1 (fun _ => 0) mesh1Tri _ (by decide),
    c5_noop_guards.2.2.2.2 mesh1Tri _ (by decide)⟩

/-- C4: the code, not the claim, is at fault on the `numberOfCuts = 0` path:
loop cut with zero cuts on a triangle whose edge is selected replaces the
triangle by two triangles whose `undefined` corners the typed array coerces
to `0`, instead of being the documented no-op. -/
theorem c4_loopCut_zero_cuts_not_noop :
    (loopCut mesh1Tri [(0, 1)] ⟨0⟩).geometry.indices = [2, 0, 0, 2, 0, 1] ∧
    mesh1Tri.geometry.indices = [0, 1, 2] ∧
    loopCut mesh1Tri [(0, 1)] ⟨0⟩ ≠ mesh1Tri := by
  refine ⟨rfl, rfl, fun h => ?_⟩
  have h2 := congrArg (fun m => m.geometry.indices) h
  simp only at h2
  exact absurd h2 (by decide)

/-- C7: subdivision with zero iterations is the identity, and two iterations
multiply the triangle count by exactly 16 (each pass is 1-to-4). -/
theorem c7_subdivide_iterations :
    (∀ (m : MeshQ) (s : Bool), subdivide m ⟨0, s⟩ = m) ∧
    (∀ (m : MeshQ) (s : Bool), 3 ∣ m.geometry.indices.length →
      (subdivide m ⟨2, s⟩).geometry.indices.length / 3 =
        16 * (m.geometry.indices.length / 3)) := by
  constructor
  · intro m s
    rfl
  · intro m s h
    have h2 : subdivide m ⟨2, s⟩ = subdivideOnce (subdivideOnce m s) s := rfl
    rw [h2, subdivideOnce_indices_length, subdivideOnce_indices_length]
    obtain ⟨k, hk⟩ := h
    rw [hk]
    omega

theorem c7_witness :
    subdivide mesh1Tri ⟨0, false⟩ = mesh1Tri ∧
      (subdivide mesh1Tri ⟨2, false⟩).geometry.indices.length / 3 =
        16 * (mesh1Tri.geometry.indices.length / 3) :=
  ⟨c7_subdivide_iterations.1 mesh1Tri false,
    c7_subdivide_iterations.2 mesh1Tri false (by decide)⟩

/-! ## Invariants of the collapse loop (claims C2 and C10) -/

/-- Edge endpoints bounded by the vertex count. -/
def EdgesB (vc : ℕ) (s : CollapseState) : Prop :=
  ∀ e ∈ s.edges, e.1 < vc ∧ e.2 < vc

/-- Removed-vertex bookkeeping: no duplicates, all in range. -/
def RemovedWF (vc : ℕ) (s : CollapseState) : Prop :=
  s.removed.Nodup ∧ ∀ v ∈ s.removed, v < vc

/-- Every edge is a live candidate: distinct endpoints, in range, never
referencing a removed vertex. -/
def EdgesWF (vc : ℕ) (s : CollapseState) : Prop :=
  ∀ e ∈ s.edges, e.1 ≠ e.2 ∧ e.1 < vc ∧ e.2 < vc ∧
    e.1 ∉ s.removed ∧ e.2 ∉ s.removed

/-- Faces are non-degenerate and each unordered side is present (up to
orientation) in the edge list. -/
def FacesWF (s : CollapseState) : Prop :=
  ∀ t ∈ s.faces, (t.1 ≠ t.2.1 ∧ t.2.1 ≠ t.2.2 ∧ t.2.2 ≠ t.1) ∧
    ∀ p ∈ sidePairs t, ∃ e ∈ s.edges,
      (e.1 = p.1 ∧ e.2 = p.2) ∨ (e.1 = p.2 ∧ e.2 = p.1)

theorem findBestStep_isSome (s : CollapseState)
    (acc : Option ((ℕ × ℕ) × ℚ × Vec3Q)) (e : ℕ × ℕ) (h : acc.isSome) :
    (findBestStep s acc e).isSome := by
  cases acc with
  | none => simp at h
  | some b =>
      unfold findBestStep
      split
      · simp
      · dsimp only
        split <;> simp

theorem findBestStep_none_eligible (s : CollapseState) (e : ℕ × ℕ)
    (h1 : e.1 ∉ s.removed) (h2 : e.2 ∉ s.removed) :
    (findBestStep s none e).isSome := by
  unfold findBestStep
  rw [if_neg (by tauto)]
  rfl

theorem foldl_findBestStep_isSome (s : CollapseState) :
    ∀ (l : List (ℕ × ℕ)) (acc : Option ((ℕ × ℕ) × ℚ × Vec3Q)), acc.isSome →
      (l.foldl (findBestStep s) acc).isSome := by
  intro l
  induction l with
  | nil => exact fun _ h => h
  | cons e r ih => exact fun acc h => ih _ (findBestStep_isSome s acc e h)

theorem findBest_isSome (s : CollapseState)
    (helig : ∀ e ∈ s.edges, e.1 ∉ s.removed ∧ e.2 ∉ s.removed)
    (hne : s.edges ≠ []) : (findBest s).isSome := by
  unfold findBest
  cases hE : s.edges with
  | nil => exact absurd hE hne
  | cons e rest =>
      rw [List.foldl_cons]
      have hmem : e ∈ s.edges := by
        rw [hE]
        exact List.mem_cons_self e rest
      have he := helig e hmem
      exact foldl_findBestStep_isSome s rest _
        (findBestStep_none_eligible s e he.1 he.2)

theorem findBestStep_cases (s : CollapseState)
    (acc : Option ((ℕ × ℕ) × ℚ × Vec3Q)) (e : ℕ × ℕ)
    (r : (ℕ × ℕ) × ℚ × Vec3Q) (h : findBestStep s acc e = some r) :
    acc = some r ∨ (r.1 = e ∧ e.1 ∉ s.removed ∧ e.2 ∉ s.removed) := by
  unfold findBestStep at h
  split at h
  · exact Or.inl h
  · rename_i hcond
    push_neg at hcond
    cases acc with
    | none =>
        dsimp only at h
        right
        refine ⟨?_, hcond.1, hcond.2⟩
        cases h
        rfl
    | some b =>
        dsimp only at h
        split at h
        · right
          refine ⟨?_, hcond.1, hcond.2⟩
          cases h
          rfl
        · exact Or.inl h

theorem findBest_spec (s : CollapseState) :
    ∀ r, findBest s = some r →
      r.1 ∈ s.edges ∧ r.1.1 ∉ s.removed ∧ r.1.2 ∉ s.removed := by
  suffices haux : ∀ (l : List (ℕ × ℕ)) (acc : Option ((ℕ × ℕ) × ℚ × Vec3Q)),
      (∀ r0, acc = some r0 →
        r0.1 ∈ s.edges ∧ r0.1.1 ∉ s.removed ∧ r0.1.2 ∉ s.removed) →
      (∀ e ∈ l, e ∈ s.edges) →
      ∀ r, l.foldl (findBestStep s) acc = some r →
        r.1 ∈ s.edges ∧ r.1.1 ∉ s.removed ∧ r.1.2 ∉ s.removed by
    intro r h
    exact haux s.edges none (by simp) (fun e he => he) r h
  intro l
  induction l with
  | nil => exact fun acc hacc _ r h => hacc r h
  | cons e rest ih =>
      intro acc hacc hmem r h
      rw [List.foldl_cons] at h
      refine ih _ ?_ (fun x hx => hmem x (List.mem_cons_of_mem e hx)) r h
      intro r0 h0
      rcases findBestStep_cases s acc e r0 h0 with h1 | h1
      · exact hacc r0 h1
      · exact ⟨h1.1 ▸ hmem e (List.mem_cons_self e rest), h1.1 ▸ h1.2.1,
          h1.1 ▸ h1.2.2⟩

theorem collapseStep_removed_length (s : CollapseState) (e : ℕ × ℕ)
    (pos : Vec3Q) :
    (collapseStep s e pos).removed.length = s.removed.length + 1 := by
  simp [collapseStep]

theorem RemovedWF_step (vc : ℕ) (s : CollapseState) (e : ℕ × ℕ) (pos : Vec3Q)
    (hR : RemovedWF vc s) (hlt : e.2 < vc) (hnm : e.2 ∉ s.removed) :
    RemovedWF vc (collapseStep s e pos) := by
  constructor
  · show (s.removed ++ [e.2]).Nodup
    rw [List.nodup_append]
    refine ⟨hR.1, List.nodup_singleton _, ?_⟩
    intro a ha hb
    rw [List.mem_singleton] at hb
    subst hb
    exact hnm ha
  · intro v hv
    simp only [collapseStep, List.mem_append, List.mem_singleton] at hv
    rcases hv with hv | rfl
    · exact hR.2 v hv
    · exact hlt

theorem EdgesB_step (vc : ℕ) (s : CollapseState) (e : ℕ × ℕ) (pos : Vec3Q)
    (hB : EdgesB vc s) (he : e ∈ s.edges) :
    EdgesB vc (collapseStep s e pos) := by
  intro e2 h2
  simp only [collapseStep, List.mem_filterMap] at h2
  obtain ⟨ed, hed, hf⟩ := h2
  have hbe := (hB e he).1
  have hbd := hB ed hed
  by_cases hc : (if ed.1 = e.2 then e.1 else ed.1) = (if ed.2 = e.2 then e.1 else ed.2)
  · rw [if_pos hc] at hf
    exact absurd hf (by simp)
  · rw [if_neg hc] at hf
    injection hf with hf
    subst hf
    constructor
    · show (if ed.1 = e.2 then e.1 else ed.1) < vc
      by_cases h : ed.1 = e.2 <;> simp [h] <;> omega
    · show (if ed.2 = e.2 then e.1 else ed.2) < vc
      by_cases h : ed.2 = e.2 <;> simp [h] <;> omega

theorem EdgesWF_step (vc : ℕ) (s : CollapseState) (e : ℕ × ℕ) (pos : Vec3Q)
    (hW : EdgesWF vc s) (he : e ∈ s.edges) :
    EdgesWF vc (collapseStep s e pos) := by
  have hprops := hW e he
  intro e2 h2
  simp only [collapseStep, List.mem_filterMap] at h2
  obtain ⟨ed, hed, hf⟩ := h2
  have hd := hW ed hed
  by_cases hc : (if ed.1 = e.2 then e.1 else ed.1) = (if ed.2 = e.2 then e.1 else ed.2)
  · rw [if_pos hc] at hf
    exact absurd hf (by simp)
  · rw [if_neg hc] at hf
    injection hf with hf
    subst hf
    refine ⟨hc, ?_, ?_, ?_, ?_⟩
    · show (if ed.1 = e.2 then e.1 else ed.1) < vc
      by_cases h : ed.1 = e.2
      · rw [if_pos h]
        exact hprops.2.1
      · rw [if_neg h]
        exact hd.2.1
    · show (if ed.2 = e.2 then e.1 else ed.2) < vc
      by_cases h : ed.2 = e.2
      · rw [if_pos h]
        exact hprops.2.1
      · rw [if_neg h]
        exact hd.2.2.1
    · show (if ed.1 = e.2 then e.1 else ed.1) ∉ (collapseStep s e pos).removed
      have hrem : (collapseStep s e pos).removed = s.removed ++ [e.2] := rfl
      rw [hrem]
      intro hmem
      rw [List.mem_append, List.mem_singleton] at hmem
      by_cases h : ed.1 = e.2
      · rw [if_pos h] at hmem
        rcases hmem with hmem | hmem
        · exact hprops.2.2.2.1 hmem
        · exact hprops.1 hmem
      · rw [if_neg h] at hmem
        rcases hmem with hmem | hmem
        · exact hd.2.2.2.1 hmem
        · exact h hmem
    · show (if ed.2 = e.2 then e.1 else ed.2) ∉ (collapseStep s e pos).removed
      have hrem : (collapseStep s e pos).removed = s.removed ++ [e.2] := rfl
      rw [hrem]
      intro hmem
      rw [List.mem_append, List.mem_singleton] at hmem
      by_cases h : ed.2 = e.2
      · rw [if_pos h] at hmem
        rcases hmem with hmem | hmem
        · exact hprops.2.2.2.1 hmem
        · exact hprops.1 hmem
      · rw [if_neg h] at hmem
        rcases hmem with hmem | hmem
        · exact hd.2.2.2.2 hmem
        · exact h hmem

theorem FacesWF_step (vc : ℕ) (s : CollapseState) (e : ℕ × ℕ) (pos : Vec3Q)
    (hF : FacesWF s) (_hW : EdgesWF vc s) :
    FacesWF (collapseStep s e pos) := by
  classical
  set g : ℕ → ℕ := fun v => if v = e.2 then e.1 else v with hg
  intro t2 h2
  have hfaces : (collapseStep s e pos).faces = s.faces.filterMap fun t =>
      if g t.1 = g t.2.1 ∨ g t.2.1 = g t.2.2 ∨ g t.2.2 = g t.1 then none
      else some (g t.1, g t.2.1, g t.2.2) := rfl
  rw [hfaces, List.mem_filterMap] at h2
  obtain ⟨t, ht, hf⟩ := h2
  by_cases hndeg : g t.1 = g t.2.1 ∨ g t.2.1 = g t.2.2 ∨ g t.2.2 = g t.1
  · rw [if_pos hndeg] at hf
    exact absurd hf (by simp)
  · rw [if_neg hndeg] at hf
    injection hf with hf
    subst hf
    push_neg at hndeg
    have hprops := hF t ht
    refine ⟨⟨hndeg.1, hndeg.2.1, hndeg.2.2⟩, ?_⟩
    intro p2 hp2
    have hsides : sidePairs ((g t.1, g t.2.1, g t.2.2) : Tri) =
        (sidePairs t).map fun p => (g p.1, g p.2) := rfl
    rw [hsides, List.mem_map] at hp2
    obtain ⟨p, hp, hpe⟩ := hp2
    obtain ⟨ed, hed, hmatch⟩ := hprops.2 p hp
    have hp2ne : p2.1 ≠ p2.2 := by
      subst hpe
      simp only [sidePairs, List.mem_cons, List.not_mem_nil, or_false] at hp
      rcases hp with rfl | rfl | rfl
      · exact hndeg.1
      · exact hndeg.2.1
      · exact hndeg.2.2
    refine ⟨(g ed.1, g ed.2), ?_, ?_⟩
    · have hedges : (collapseStep s e pos).edges = s.edges.filterMap fun ed =>
          if g ed.1 = g ed.2 then none else some (g ed.1, g ed.2) := rfl
      rw [hedges, List.mem_filterMap]
      refine ⟨ed, hed, ?_⟩
      rw [if_neg]
      intro hq
      rcases hmatch with ⟨h1, h2⟩ | ⟨h1, h2⟩ <;> subst hpe <;>
        rw [h1, h2] at hq
      · exact hp2ne hq
      · exact hp2ne hq.symm
    · rcases hmatch with ⟨h1, h2⟩ | ⟨h1, h2⟩ <;> subst hpe
      · exact Or.inl ⟨by rw [h1], by rw [h2]⟩
      · exact Or.inr ⟨by rw [h1], by rw [h2]⟩

theorem removed_length_le (vc : ℕ) (s : CollapseState) (hR : RemovedWF vc s) :
    s.removed.length ≤ vc := by
  classical
  have h1 : s.removed.toFinset.card = s.removed.length :=
    List.toFinset_card_of_nodup hR.1
  have h2 : s.removed.toFinset ⊆ Finset.range vc := by
    intro x hx
    rw [List.mem_toFinset] at hx
    rw [Finset.mem_range]
    exact hR.2 x hx
  have h3 := Finset.card_le_card h2
  rw [Finset.card_range] at h3
  omega

/-- With enough fuel to cover one iteration per vertex, the collapse loop has
reached its fixpoint: extra fuel never changes the result. -/
theorem collapseLoop_fuel_stable (target vc : ℕ) :
    ∀ (fuel extra : ℕ) (s : CollapseState), EdgesB vc s → RemovedWF vc s →
      vc + 1 ≤ fuel + s.removed.length →
      collapseLoop target (fuel + extra) s = collapseLoop target fuel s := by
  intro fuel
  induction fuel with
  | zero =>
      intro extra s _ hR hf
      exact absurd (removed_length_le vc s hR) (by omega)
  | succ n ih =>
      intro extra s hB hR hf
      have hsucc : n + 1 + extra = (n + extra) + 1 := by ring
      rw [hsucc]
      by_cases hface : s.faces.length ≤ target
      · simp [collapseLoop, hface]
      · cases hfb : findBest s with
        | none => simp [collapseLoop, hface, hfb]
        | some r =>
            simp only [collapseLoop, if_neg hface, hfb]
            have hmem := findBest_spec s r hfb
            apply ih
            · exact EdgesB_step vc s r.1 r.2.2 hB hmem.1
            · exact RemovedWF_step vc s r.1 r.2.2 hR (hB r.1 hmem.1).2 hmem.2.2
            · rw [collapseStep_removed_length]
              omega

/-- Under the full invariant the loop can only exit through the
`faces.length <= target` test: the break is unreachable, so the final face
count is at most the target. -/
theorem collapseLoop_face_bound (target vc : ℕ) :
    ∀ (fuel : ℕ) (s : CollapseState), EdgesWF vc s → FacesWF s →
      RemovedWF vc s → vc + 1 ≤ fuel + s.removed.length →
      ((collapseLoop target fuel s).faces).length ≤ target := by
  intro fuel
  induction fuel with
  | zero =>
      intro s _ _ hR hf
      exact absurd (removed_length_le vc s hR) (by omega)
  | succ n ih =>
      intro s hW hF hR hf
      by_cases hface : s.faces.length ≤ target
      · rw [show collapseLoop target (n + 1) s = s by simp [collapseLoop, hface]]
        exact hface
      · cases hfb : findBest s with
        | none =>
            exfalso
            have hfne : s.faces ≠ [] := by
              intro h0
              rw [h0] at hface
              simp at hface
            obtain ⟨t, ht⟩ := List.exists_mem_of_ne_nil s.faces hfne
            obtain ⟨ed, hed, _⟩ := (hF t ht).2 (t.1, t.2.1) (by simp [sidePairs])
            have hsome := findBest_isSome s
              (fun e he => ⟨(hW e he).2.2.2.1, (hW e he).2.2.2.2⟩)
              (by intro h0; rw [h0] at hed; exact absurd hed (by simp))
            rw [hfb] at hsome
            simp at hsome
        | some r =>
            simp only [collapseLoop, if_neg hface, hfb]
            have hmem := findBest_spec s r hfb
            apply ih
            · exact EdgesWF_step vc s r.1 r.2.2 hW hmem.1
            · exact FacesWF_step vc s r.1 r.2.2 hF hW
            · exact RemovedWF_step vc s r.1 r.2.2 hR (hW r.1 hmem.1).2.2.1
                hmem.2.2
            · rw [collapseStep_removed_length]
              omega

theorem mem_tris : ∀ (ix : List ℕ) (t : Tri), t ∈ tris ix →
    t.1 ∈ ix ∧ t.2.1 ∈ ix ∧ t.2.2 ∈ ix
  | [], _, h => absurd h (by simp [tris])
  | [_], _, h => absurd h (by simp [tris])
  | [_, _], _, h => absurd h (by simp [tris])
  | a :: b :: c :: r, t, h => by
      simp only [tris, List.mem_cons] at h
      rcases h with rfl | h
      · refine ⟨by simp, by simp, by simp⟩
      · have ih := mem_tris r t h
        refine ⟨?_, ?_, ?_⟩ <;> simp only [List.mem_cons] <;> tauto

theorem mem_nested_sides (faces : List Tri) :
    ∀ (acc : List (ℕ × ℕ)) (e : ℕ × ℕ),
      e ∈ faces.foldl (fun es t => (sidePairs t).foldl
        (fun es2 q => pushUnique es2 (canonPair q.1 q.2)) es) acc ↔
      e ∈ acc ∨ ∃ t ∈ faces, ∃ p ∈ sidePairs t, e = canonPair p.1 p.2 := by
  induction faces with
  | nil => simp
  | cons t r ih =>
      intro acc e
      rw [List.foldl_cons, ih]
      have hinner : (sidePairs t).foldl
          (fun es2 q => pushUnique es2 (canonPair q.1 q.2)) acc =
          ((sidePairs t).map fun q => canonPair q.1 q.2).foldl pushUnique acc := by
        rw [List.foldl_map]
      rw [hinner, mem_foldl_pushUnique]
      simp only [List.mem_map, List.mem_cons]
      constructor
      · rintro (((ha | ⟨p, hp, rfl⟩) | ⟨t2, ht2, p, hp, rfl⟩))
        · exact Or.inl ha
        · exact Or.inr ⟨t, Or.inl rfl, p, hp, rfl⟩
        · exact Or.inr ⟨t2, Or.inr ht2, p, hp, rfl⟩
      · rintro (ha | ⟨t2, (rfl | ht2), p, hp, rfl⟩)
        · exact Or.inl (Or.inl ha)
        · exact Or.inl (Or.inr ⟨p, hp, rfl⟩)
        · exact Or.inr ⟨t2, ht2, p, hp, rfl⟩

theorem collapseInit_removed (m : MeshQ) : (collapseInit m).removed = [] := rfl

theorem collapseInit_faces (m : MeshQ) :
    (collapseInit m).faces = tris m.geometry.indices := rfl

theorem collapseInit_edges_mem (m : MeshQ) (e : ℕ × ℕ) :
    e ∈ (collapseInit m).edges ↔
      ∃ t ∈ tris m.geometry.indices, ∃ p ∈ sidePairs t, e = canonPair p.1 p.2 := by
  have h : (collapseInit m).edges = (tris m.geometry.indices).foldl
      (fun es t => (sidePairs t).foldl
        (fun es2 q => pushUnique es2 (canonPair q.1 q.2)) es) [] := rfl
  rw [h, mem_nested_sides]
  simp

theorem sidePairs_mem_fields {t : Tri} {p : ℕ × ℕ} (hp : p ∈ sidePairs t) :
    (p.1 = t.1 ∧ p.2 = t.2.1) ∨ (p.1 = t.2.1 ∧ p.2 = t.2.2) ∨
      (p.1 = t.2.2 ∧ p.2 = t.1) := by
  simp only [sidePairs, List.mem_cons, List.not_mem_nil, or_false] at hp
  rcases hp with rfl | rfl | rfl
  · exact Or.inl ⟨rfl, rfl⟩
  · exact Or.inr (Or.inl ⟨rfl, rfl⟩)
  · exact Or.inr (Or.inr ⟨rfl, rfl⟩)

theorem collapseInit_EdgesB (m : MeshQ)
    (hix : ∀ i ∈ m.geometry.indices, i < m.geometry.vertexCount) :
    EdgesB m.geometry.vertexCount (collapseInit m) := by
  intro e he
  rw [collapseInit_edges_mem] at he
  obtain ⟨t, ht, p, hp, rfl⟩ := he
  have hm := mem_tris _ t ht
  have h1 : p.1 ∈ m.geometry.indices ∧ p.2 ∈ m.geometry.indices := by
    rcases sidePairs_mem_fields hp with ⟨ha, hb⟩ | ⟨ha, hb⟩ | ⟨ha, hb⟩ <;>
      rw [ha, hb] <;> tauto
  have hb1 := hix p.1 h1.1
  have hb2 := hix p.2 h1.2
  unfold canonPair
  constructor <;> simp <;> omega

theorem collapseInit_RemovedWF (m : MeshQ) (vc : ℕ) :
    RemovedWF vc (collapseInit m) := by
  constructor
  · rw [collapseInit_removed]
    exact List.nodup_nil
  · intro v hv
    rw [collapseInit_removed] at hv
    exact absurd hv (by simp)

theorem collapseInit_EdgesWF (m : MeshQ)
    (hix : ∀ i ∈ m.geometry.indices, i < m.geometry.vertexCount)
    (hnd : ∀ t ∈ tris m.geometry.indices,
      t.1 ≠ t.2.1 ∧ t.2.1 ≠ t.2.2 ∧ t.2.2 ≠ t.1) :
    EdgesWF m.geometry.vertexCount (collapseInit m) := by
  intro e he
  have hB := collapseInit_EdgesB m hix e he
  rw [collapseInit_edges_mem] at he
  obtain ⟨t, ht, p, hp, rfl⟩ := he
  have hd := hnd t ht
  have hpne : p.1 ≠ p.2 := by
    rcases sidePairs_mem_fields hp with ⟨ha, hb⟩ | ⟨ha, hb⟩ | ⟨ha, hb⟩ <;>
      rw [ha, hb] <;> tauto
  refine ⟨?_, hB.1, hB.2, ?_, ?_⟩
  · unfold canonPair
    simp only [ne_eq, Prod.mk.injEq]
    intro hq
    omega
  · rw [collapseInit_removed]
    simp
  · rw [collapseInit_removed]
    simp

theorem collapseInit_FacesWF (m : MeshQ)
    (hnd : ∀ t ∈ tris m.geometry.indices,
      t.1 ≠ t.2.1 ∧ t.2.1 ≠ t.2.2 ∧ t.2.2 ≠ t.1) :
    FacesWF (collapseInit m) := by
  intro t ht
  rw [collapseInit_faces] at ht
  refine ⟨hnd t ht, ?_⟩
  intro p hp
  refine ⟨canonPair p.1 p.2, ?_, ?_⟩
  · rw [collapseInit_edges_mem]
    exact ⟨t, ht, p, hp, rfl⟩
  · unfold canonPair
    rcases le_total p.1 p.2 with h | h
    · rw [min_eq_left h, max_eq_right h]
      exact Or.inl ⟨rfl, rfl⟩
    · rw [min_eq_right h, max_eq_left h]
      exact Or.inr ⟨rfl, rfl⟩

/-- C10: the collapse loop of `decimate` terminates within `vertexCount`
iterations for every mesh whose indices are in range: fuel `vertexCount + 1`
already reaches the fixpoint, so any extra fuel (in particular the amount the
embedding hands it) leaves the result unchanged.  Each iteration either finds
no candidate (and stops) or permanently removes one more vertex. -/
theorem c10_collapse_loop_terminates (m : MeshQ) (ratio : ℚ) (extra : ℕ)
    (hix : ∀ i ∈ m.geometry.indices, i < m.geometry.vertexCount) :
    collapseLoop (collapseTarget m ratio) (m.geometry.vertexCount + 1 + extra)
        (collapseInit m) =
      collapseLoop (collapseTarget m ratio) (m.geometry.vertexCount + 1)
        (collapseInit m) := by
  apply collapseLoop_fuel_stable (collapseTarget m ratio) m.geometry.vertexCount
    (m.geometry.vertexCount + 1) extra (collapseInit m)
    (collapseInit_EdgesB m hix) (collapseInit_RemovedWF m _)
  rw [collapseInit_removed]
  simp

theorem c10_witness :
    collapseLoop (collapseTarget mesh1Tri 0) (mesh1Tri.geometry.vertexCount + 1 + 7)
        (collapseInit mesh1Tri) =
      collapseLoop (collapseTarget mesh1Tri 0) (mesh1Tri.geometry.vertexCount + 1)
        (collapseInit mesh1Tri) :=
  c10_collapse_loop_terminates mesh1Tri 0 7 (by decide)

theorem decimateCollapse_indices_length (m : MeshQ) (ratio : ℚ) :
    (decimateCollapse m ratio).geometry.indices.length =
      3 * ((collapseLoop (collapseTarget m ratio)
        (m.geometry.vertexCount + m.geometry.indices.length + 1)
        (collapseInit m)).faces).length := by
  show (toUint16 (untris (((collapseLoop (collapseTarget m ratio)
    (m.geometry.vertexCount + m.geometry.indices.length + 1)
    (collapseInit m)).faces).map _))).length = _
  rw [toUint16_length, untris_length, List.length_map]

/-- C2 (amended): with `ratio = 0` in collapse mode, decimation of a mesh with
in-range indices and non-degenerate triangles stops at **at most** 4
triangles — not exactly 4: a collapse that kills two triangles at once can
overshoot the floor (the five-triangle counterexample lands on 3). -/
theorem c2_decimate_ratio_zero_at_most_four (m : MeshQ) (sym : Bool) (ax : AxisQ)
    (hix : ∀ i ∈ m.geometry.indices, i < m.geometry.vertexCount)
    (hnd : ∀ t ∈ tris m.geometry.indices,
      t.1 ≠ t.2.1 ∧ t.2.1 ≠ t.2.2 ∧ t.2.2 ≠ t.1) :
    (decimate m ⟨0, .collapse, sym, ax⟩).geometry.indices.length / 3 ≤ 4 := by
  have h1 : decimate m ⟨0, .collapse, sym, ax⟩ = decimateCollapse m 0 := by
    unfold decimate
    rw [if_neg (by norm_num)]
  rw [h1, decimateCollapse_indices_length]
  have htarget : collapseTarget m 0 = 4 := by
    unfold collapseTarget
    norm_num
  rw [htarget]
  have hb := collapseLoop_face_bound (collapseTarget m 0) m.geometry.vertexCount
    (m.geometry.vertexCount + m.geometry.indices.length + 1) (collapseInit m)
    (collapseInit_EdgesWF m hix hnd) (collapseInit_FacesWF m hnd)
    (collapseInit_RemovedWF m _) (by rw [collapseInit_removed]; simp)
  rw [htarget] at hb
  omega

/-- C2 counterexample: a planar mesh of five triangles (more than 4) whose
first candidate edge is interior; one collapse removes two triangles at once
and `decimate(ratio 0)` returns 3 triangles, not the claimed exactly 4. -/
theorem c2_decimate_ratio_zero_counterexample :
    4 < mesh5Tri.geometry.indices.length / 3 ∧
      (decimate mesh5Tri ⟨0, .collapse, false, .x⟩).geometry.indices.length / 3
        = 3 :=
  ⟨by decide, of_decide_eq_true (by with_unfolding_all rfl)⟩

theorem c2_witness :
    (decimate mesh5Tri ⟨0, .collapse, false, .x⟩).geometry.indices.length / 3
      ≤ 4 :=
  c2_decimate_ratio_zero_at_most_four mesh5Tri false .x (by decide) (by decide)

/-! ## Minimality of the raycast scans (claim C6) -/

theorem filterMap_enum_snd {α β : Type} (f : α → Option β) (l : List α) :
    l.enum.filterMap (fun it => f it.2) = l.filterMap f := by
  suffices haux : ∀ (n : ℕ) (l2 : List α),
      (List.enumFrom n l2).filterMap (fun it => f it.2) = l2.filterMap f by
    exact haux 0 l
  intro n l2
  induction l2 generalizing n with
  | nil => rfl
  | cons a r ih =>
      simp only [List.enumFrom, List.filterMap_cons]
      rw [ih]

theorem raycastMeshStep_def (ray : RayQ) (mesh : MeshQ) (acc : Option RaycastHitQ)
    (it : ℕ × Tri) :
    raycastMeshStep ray mesh acc it =
      match rayTriangleIntersect ray
          (transformPoint (vtx mesh.geometry.vertices it.2.1) mesh.transform)
          (transformPoint (vtx mesh.geometry.vertices it.2.2.1) mesh.transform)
          (transformPoint (vtx mesh.geometry.vertices it.2.2.2) mesh.transform) with
      | none => acc
      | some r =>
          match acc with
          | none => some ⟨mesh.id, r.1, r.2, it.1⟩
          | some h =>
              if r.1 < h.distance then some ⟨mesh.id, r.1, r.2, it.1⟩ else acc :=
  rfl

theorem raycastMeshFold_spec (ray : RayQ) (mesh : MeshQ) :
    ∀ (l : List (ℕ × Tri)) (acc : Option RaycastHitQ),
      (l.foldl (raycastMeshStep ray mesh) acc = none ↔
        acc = none ∧ l.filterMap (fun it => triHitDist ray mesh it.2) = []) ∧
      (∀ h, l.foldl (raycastMeshStep ray mesh) acc = some h →
        (h.distance ∈ l.filterMap (fun it => triHitDist ray mesh it.2) ∨
          acc = some h) ∧
        (∀ d ∈ l.filterMap (fun it => triHitDist ray mesh it.2),
          h.distance ≤ d) ∧
        (∀ h0, acc = some h0 → h.distance ≤ h0.distance)) := by
  intro l
  induction l with
  | nil =>
      intro acc
      constructor
      · simp
      · intro h hres
        simp only [List.foldl_nil] at hres
        refine ⟨Or.inr hres, by simp, ?_⟩
        intro h0 h0e
        rw [hres] at h0e
        injection h0e with h0e
        rw [h0e]
  | cons it rest ih =>
      intro acc
      rw [List.foldl_cons]
      cases hr : rayTriangleIntersect ray
          (transformPoint (vtx mesh.geometry.vertices it.2.1) mesh.transform)
          (transformPoint (vtx mesh.geometry.vertices it.2.2.1) mesh.transform)
          (transformPoint (vtx mesh.geometry.vertices it.2.2.2) mesh.transform) with
      | none =>
          have hdist : triHitDist ray mesh it.2 = none := by
            unfold triHitDist
            rw [hr]
            rfl
          have hfm : (it :: rest).filterMap (fun it => triHitDist ray mesh it.2) =
              rest.filterMap (fun it => triHitDist ray mesh it.2) := by
            rw [List.filterMap_cons, hdist]
          have hstep : raycastMeshStep ray mesh acc it = acc := by
            rw [raycastMeshStep_def, hr]
          rw [hfm, hstep]
          exact ih acc
      | some r =>
          have hdist : triHitDist ray mesh it.2 = some r.1 := by
            unfold triHitDist
            rw [hr]
            rfl
          have hfm : (it :: rest).filterMap (fun it => triHitDist ray mesh it.2) =
              r.1 :: rest.filterMap (fun it => triHitDist ray mesh it.2) := by
            rw [List.filterMap_cons, hdist]
          cases acc with
          | none =>
              have hstep : raycastMeshStep ray mesh none it =
                  some ⟨mesh.id, r.1, r.2, it.1⟩ := by
                rw [raycastMeshStep_def, hr]
              rw [hfm, hstep]
              have IH := ih (some ⟨mesh.id, r.1, r.2, it.1⟩)
              constructor
              · rw [IH.1]
                simp
              · intro h hres
                have HS := IH.2 h hres
                refine ⟨?_, ?_, by simp⟩
                · rcases HS.1 with hmem | hacc
                  · exact Or.inl (List.mem_cons_of_mem _ hmem)
                  · injection hacc with hacc
                    left
                    rw [← hacc]
                    exact List.mem_cons_self _ _
                · intro d hd
                  rcases List.mem_cons.mp hd with rfl | hd
                  · exact HS.2.2 _ rfl
                  · exact HS.2.1 d hd
          | some h0 =>
              by_cases hlt : r.1 < h0.distance
              · have hstep : raycastMeshStep ray mesh (some h0) it =
                    some ⟨mesh.id, r.1, r.2, it.1⟩ := by
                  rw [raycastMeshStep_def, hr]
                  dsimp only
                  rw [if_pos hlt]
                rw [hfm, hstep]
                have IH := ih (some ⟨mesh.id, r.1, r.2, it.1⟩)
                constructor
                · rw [IH.1]
                  simp
                · intro h hres
                  have HS := IH.2 h hres
                  have hle : h.distance ≤ r.1 := HS.2.2 _ rfl
                  refine ⟨?_, ?_, ?_⟩
                  · rcases HS.1 with hmem | hacc
                    · exact Or.inl (List.mem_cons_of_mem _ hmem)
                    · injection hacc with hacc
                      left
                      rw [← hacc]
                      exact List.mem_cons_self _ _
                  · intro d hd
                    rcases List.mem_cons.mp hd with rfl | hd
                    · exact hle
                    · exact HS.2.1 d hd
                  · intro h1 hh1
                    injection hh1 with hh1
                    rw [← hh1]
                    exact le_of_lt (lt_of_le_of_lt hle hlt)
              · have hstep : raycastMeshStep ray mesh (some h0) it = some h0 := by
                  rw [raycastMeshStep_def, hr]
                  dsimp only
                  rw [if_neg hlt]
                rw [hfm, hstep]
                have IH := ih (some h0)
                constructor
                · rw [IH.1]
                  simp
                · intro h hres
                  have HS := IH.2 h hres
                  have hle0 : h.distance ≤ h0.distance := HS.2.2 h0 rfl
                  refine ⟨?_, ?_, ?_⟩
                  · rcases HS.1 with hmem | hacc
                    · exact Or.inl (List.mem_cons_of_mem _ hmem)
                    · exact Or.inr hacc
                  · intro d hd
                    rcases List.mem_cons.mp hd with rfl | hd
                    · exact le_trans hle0 (not_lt.mp hlt)
                    · exact HS.2.1 d hd
                  · intro h1 hh1
                    injection hh1 with hh1
                    rw [← hh1]
                    exact hle0

theorem raycastMesh_none_iff (ray : RayQ) (mesh : MeshQ) :
    raycastMesh ray mesh = none ↔ meshHitDistances ray mesh = [] := by
  unfold raycastMesh meshHitDistances
  by_cases hv : mesh.visible = true
  · rw [if_neg (by simp [hv]), if_neg (by simp [hv])]
    rw [(raycastMeshFold_spec ray mesh (tris mesh.geometry.indices).enum none).1]
    rw [filterMap_enum_snd (triHitDist ray mesh)]
    simp
  · rw [if_pos (by simpa using hv), if_pos (by simpa using hv)]
    simp

theorem raycastMesh_some_spec (ray : RayQ) (mesh : MeshQ) (h : RaycastHitQ)
    (hs : raycastMesh ray mesh = some h) :
    h.distance ∈ meshHitDistances ray mesh ∧
      ∀ d ∈ meshHitDistances ray mesh, h.distance ≤ d := by
  unfold raycastMesh at hs
  by_cases hv : mesh.visible = true
  · rw [if_neg (by simp [hv])] at hs
    have HS := (raycastMeshFold_spec ray mesh
      (tris mesh.geometry.indices).enum none).2 h hs
    unfold meshHitDistances
    rw [if_neg (by simp [hv]), ← filterMap_enum_snd (triHitDist ray mesh)]
    refine ⟨?_, HS.2.1⟩
    rcases HS.1 with hm | hacc
    · exact hm
    · exact absurd hacc (by simp)
  · rw [if_pos (by simpa using hv)] at hs
    exact absurd hs (by simp)

theorem raycastFold_spec (ray : RayQ) :
    ∀ (l : List MeshQ) (acc : Option RaycastHitQ),
      (l.foldl (raycastStep ray) acc = none ↔
        acc = none ∧ sceneHitDistances ray l = []) ∧
      (∀ h, l.foldl (raycastStep ray) acc = some h →
        (h.distance ∈ sceneHitDistances ray l ∨ acc = some h) ∧
        (∀ d ∈ sceneHitDistances ray l, h.distance ≤ d) ∧
        (∀ h0, acc = some h0 → h.distance ≤ h0.distance)) := by
  intro l
  induction l with
  | nil =>
      intro acc
      constructor
      · simp [sceneHitDistances]
      · intro h hres
        simp only [List.foldl_nil] at hres
        refine ⟨Or.inr hres, by simp [sceneHitDistances], ?_⟩
        intro h0 h0e
        rw [hres] at h0e
        injection h0e with h0e
        rw [h0e]
  | cons m rest ih =>
      intro acc
      have hscene : sceneHitDistances ray (m :: rest) =
          meshHitDistances ray m ++ sceneHitDistances ray rest := by
        simp [sceneHitDistances]
      rw [List.foldl_cons, hscene]
      cases hm : raycastMesh ray m with
      | none =>
          have hmd : meshHitDistances ray m = [] :=
            (raycastMesh_none_iff ray m).mp hm
          have hstep : raycastStep ray acc m = acc := by
            unfold raycastStep
            rw [hm]
          rw [hstep, hmd, List.nil_append]
          exact ih acc
      | some hit =>
          have hmin := raycastMesh_some_spec ray m hit hm
          have hmdne : meshHitDistances ray m ≠ [] :=
            List.ne_nil_of_mem hmin.1
          cases acc with
          | none =>
              have hstep : raycastStep ray none m = some hit := by
                unfold raycastStep
                rw [hm]
              rw [hstep]
              have IH := ih (some hit)
              constructor
              · constructor
                · intro h0
                  rw [IH.1] at h0
                  exact absurd h0.1 (by simp)
                · rintro ⟨-, happ⟩
                  rw [List.append_eq_nil] at happ
                  exact absurd happ.1 hmdne
              · intro h hres
                have HS := IH.2 h hres
                have hleHit : h.distance ≤ hit.distance := HS.2.2 hit rfl
                refine ⟨?_, ?_, by simp⟩
                · rcases HS.1 with hmem | hacc
                  · exact Or.inl (List.mem_append_right _ hmem)
                  · injection hacc with hacc
                    left
                    rw [← hacc]
                    exact List.mem_append_left _ hmin.1
                · intro d hd
                  rcases List.mem_append.mp hd with hd | hd
                  · exact le_trans hleHit (hmin.2 d hd)
                  · exact HS.2.1 d hd
          | some h0 =>
              by_cases hlt : hit.distance < h0.distance
              · have hstep : raycastStep ray (some h0) m = some hit := by
                  unfold raycastStep
                  rw [hm]
                  dsimp only
                  rw [if_pos hlt]
                rw [hstep]
                have IH := ih (some hit)
                constructor
                · constructor
                  · intro hq
                    rw [IH.1] at hq
                    exact absurd hq.1 (by simp)
                  · rintro ⟨-, happ⟩
                    rw [List.append_eq_nil] at happ
                    exact absurd happ.1 hmdne
                · intro h hres
                  have HS := IH.2 h hres
                  have hleHit : h.distance ≤ hit.distance := HS.2.2 hit rfl
                  refine ⟨?_, ?_, ?_⟩
                  · rcases HS.1 with hmem | hacc
                    · exact Or.inl (List.mem_append_right _ hmem)
                    · injection hacc with hacc
                      left
                      rw [← hacc]
                      exact List.mem_append_left _ hmin.1
                  · intro d hd
                    rcases List.mem_append.mp hd with hd | hd
                    · exact le_trans hleHit (hmin.2 d hd)
                    · exact HS.2.1 d hd
                  · intro h1 hh1
                    injection hh1 with hh1
                    rw [← hh1]
                    exact le_of_lt (lt_of_le_of_lt hleHit hlt)
              · have hstep : raycastStep ray (some h0) m = some h0 := by
                  unfold raycastStep
                  rw [hm]
                  dsimp only
                  rw [if_neg hlt]
                rw [hstep]
                have IH := ih (some h0)
                constructor
                · constructor
                  · intro hq
                    rw [IH.1] at hq
                    exact absurd hq.1 (by simp)
                  · rintro ⟨-, happ⟩
                    rw [List.append_eq_nil] at happ
                    exact absurd happ.1 hmdne
                · intro h hres
                  have HS := IH.2 h hres
                  have hle0 : h.distance ≤ h0.distance := HS.2.2 h0 rfl
                  refine ⟨?_, ?_, ?_⟩
                  · rcases HS.1 with hmem | hacc
                    · exact Or.inl (List.mem_append_right _ hmem)
                    · exact Or.inr hacc
                  · intro d hd
                    rcases List.mem_append.mp hd with hd | hd
                    · exact le_trans (le_trans hle0 (not_lt.mp hlt)) (hmin.2 d hd)
                    · exact HS.2.1 d hd
                  · intro h1 hh1
                    injection hh1 with hh1
                    rw [← hh1]
                    exact hle0

/-- C6: `raycast` skips invisible meshes entirely, returns `none` (never an
error — the embedding is total) exactly when no triangle of any visible mesh
is hit, and otherwise returns a hit whose distance is the minimum of all
accepted intersection distances over all triangles of all visible meshes. -/
theorem c6_raycast_smallest_hit (ray : RayQ) (meshes : List MeshQ) :
    (∀ m ∈ meshes, m.visible = false → raycastMesh ray m = none) ∧
    (raycast ray meshes = none ↔ sceneHitDistances ray meshes = []) ∧
    ∀ h, raycast ray meshes = some h →
      h.distance ∈ sceneHitDistances ray meshes ∧
      ∀ d ∈ sceneHitDistances ray meshes, h.distance ≤ d := by
  refine ⟨?_, ?_, ?_⟩
  · intro m _ hv
    unfold raycastMesh
    rw [if_pos (by simp [hv])]
  · unfold raycast
    rw [(raycastFold_spec ray meshes none).1]
    simp
  · intro h hres
    have HS := (raycastFold_spec ray meshes none).2 h hres
    refine ⟨?_, HS.2.1⟩
    rcases HS.1 with hm | hacc
    · exact hm
    · exact absurd hacc (by simp)

theorem c6_witness :
    (⟨"m1", 1, ⟨1 / 4, 1 / 4, 0⟩, 0⟩ : RaycastHitQ).distance ∈
        sceneHitDistances ⟨⟨1 / 4, 1 / 4, -1⟩, ⟨0, 0, 1⟩⟩ [mesh1Tri] ∧
      ∀ d ∈ sceneHitDistances ⟨⟨1 / 4, 1 / 4, -1⟩, ⟨0, 0, 1⟩⟩ [mesh1Tri],
        (⟨"m1", 1, ⟨1 / 4, 1 / 4, 0⟩, 0⟩ : RaycastHitQ).distance ≤ d :=
  (c6_raycast_smallest_hit ⟨⟨1 / 4, 1 / 4, -1⟩, ⟨0, 0, 1⟩⟩ [mesh1Tri]).2.2
    ⟨"m1", 1, ⟨1 / 4, 1 / 4, 0⟩, 0⟩ (by with_unfolding_all rfl)

/-! ## Sculpt stroke undo (claim C8) -/

theorem engineSetVerts_originalVertices (e : SculptEngineQ) (v : List ℚ) :
    (engineSetVerts e v).originalVertices = e.originalVertices := by
  rcases hm : e.mesh with _ | m <;> simp [engineSetVerts, hm]

theorem engineSetVerts_mesh_isSome (e : SculptEngineQ) (v : List ℚ) :
    (engineSetVerts e v).mesh.isSome = e.mesh.isSome := by
  rcases hm : e.mesh with _ | m <;> simp [engineSetVerts, hm]

theorem engineApplyBrush_originalVertices (e : SculptEngineQ)
    (h d : Vec3Q) (i : ℚ) :
    (engineApplyBrush e h d i).originalVertices = e.originalVertices := by
  rcases hm : e.mesh with _ | m <;>
    simp [engineApplyBrush, hm, engineSetVerts_originalVertices]

theorem engineApplyBrush_mesh_isSome (e : SculptEngineQ)
    (h d : Vec3Q) (i : ℚ) :
    (engineApplyBrush e h d i).mesh.isSome = e.mesh.isSome := by
  rcases hm : e.mesh with _ | m <;>
    simp [engineApplyBrush, hm, engineSetVerts_mesh_isSome]

theorem updateStroke_originalVertices (e : SculptEngineQ) (h d : Vec3Q) :
    (updateStroke e h d).originalVertices = e.originalVertices := by
  unfold updateStroke
  by_cases ha : e.brush.isActive = false
  · rw [if_pos ha]
  · rw [if_neg ha]
    rcases hm : e.mesh with _ | m
    · rfl
    · by_cases hx : e.symX <;> by_cases hy : e.symY <;> by_cases hz : e.symZ <;>
        simp [hx, hy, hz, engineApplyBrush_originalVertices]

theorem updateStroke_mesh_isSome (e : SculptEngineQ) (h d : Vec3Q) :
    (updateStroke e h d).mesh.isSome = e.mesh.isSome := by
  unfold updateStroke
  by_cases ha : e.brush.isActive = false
  · rw [if_pos ha]
  · rw [if_neg ha]
    rcases hm : e.mesh with _ | m
    · simp [hm]
    · by_cases hx : e.symX <;> by_cases hy : e.symY <;> by_cases hz : e.symZ <;>
        simp [hm, hx, hy, hz, engineApplyBrush_mesh_isSome]

theorem foldl_updateStroke_inv (stroke : List (Vec3Q × Vec3Q)) :
    ∀ e : SculptEngineQ,
      (stroke.foldl (fun e p => updateStroke e p.1 p.2) e).originalVertices =
          e.originalVertices ∧
      (stroke.foldl (fun e p => updateStroke e p.1 p.2) e).mesh.isSome =
          e.mesh.isSome := by
  induction stroke with
  | nil => intro e; exact ⟨rfl, rfl⟩
  | cons p r ih =>
      intro e
      rw [List.foldl_cons]
      have H := ih (updateStroke e p.1 p.2)
      exact ⟨H.1.trans (updateStroke_originalVertices e p.1 p.2),
        H.2.trans (updateStroke_mesh_isSome e p.1 p.2)⟩

theorem beginStroke_mesh (e : SculptEngineQ) (hit : Vec3Q) :
    (beginStroke e hit).mesh = e.mesh := by
  rcases hm : e.mesh with _ | m <;> simp [beginStroke, hm]

theorem beginStroke_originalVertices (e : SculptEngineQ) (m : MeshQ)
    (hit : Vec3Q) (hm : e.mesh = some m) :
    (beginStroke e hit).originalVertices = some m.geometry.vertices := by
  simp [beginStroke, hm]

theorem engineRecalcNormals_vertices (e : SculptEngineQ) (m : MeshQ)
    (hm : e.mesh = some m) :
    ∃ m2, (engineRecalcNormals e).mesh = some m2 ∧
      m2.geometry.vertices = m.geometry.vertices := by
  unfold engineRecalcNormals
  rw [hm]
  exact ⟨_, rfl, rfl⟩

/-- C8: for an engine bound to mesh `m`, a stroke — `beginStroke` followed by
any sequence of `updateStroke` calls — followed by `undoStroke` leaves the
bound mesh with exactly the vertex buffer `m` had when `beginStroke` ran:
`beginStroke` snapshots it into `originalVertices`, no `updateStroke` touches
that snapshot, and `undoStroke` writes it back (recomputing only normals). -/
theorem c8_undo_restores_snapshot (e0 : SculptEngineQ) (m : MeshQ)
    (hit : Vec3Q) (stroke : List (Vec3Q × Vec3Q)) (hm : e0.mesh = some m) :
    ∃ m2,
      (undoStroke (stroke.foldl (fun e p => updateStroke e p.1 p.2)
          (beginStroke e0 hit))).mesh = some m2 ∧
        m2.geometry.vertices = m.geometry.vertices := by
  have h1m : (beginStroke e0 hit).mesh = some m := by
    rw [beginStroke_mesh, hm]
  have h1o : (beginStroke e0 hit).originalVertices =
      some m.geometry.vertices := beginStroke_originalVertices e0 m hit hm
  have hfold := foldl_updateStroke_inv stroke (beginStroke e0 hit)
  have hNo : (stroke.foldl (fun e p => updateStroke e p.1 p.2)
      (beginStroke e0 hit)).originalVertices = some m.geometry.vertices :=
    hfold.1.trans h1o
  have hNs : (stroke.foldl (fun e p => updateStroke e p.1 p.2)
      (beginStroke e0 hit)).mesh.isSome = true := by
    rw [hfold.2, h1m]
    rfl
  obtain ⟨m1, hm1⟩ := Option.isSome_iff_exists.mp hNs
  unfold undoStroke
  rw [hm1, hNo]
  exact engineRecalcNormals_vertices _
    ⟨m1.id, { m1.geometry with vertices := m.geometry.vertices },
      m1.transform, m1.visible⟩ rfl

theorem c8_witness :
    ∃ m2,
      (undoStroke ([((⟨0, 0, 0⟩ : Vec3Q), (⟨1, 0, 0⟩ : Vec3Q))].foldl
          (fun e p => updateStroke e p.1 p.2)
          (beginStroke
            ⟨some mesh1Tri, none,
              ⟨⟨.grab, 1, 1 / 2, .smooth, false, 0⟩, false, none, ⟨0, 0, 0⟩⟩,
              false, false, false⟩
            ⟨0, 0, 0⟩))).mesh = some m2 ∧
        m2.geometry.vertices = mesh1Tri.geometry.vertices :=
  c8_undo_restores_snapshot
    ⟨some mesh1Tri, none,
      ⟨⟨.grab, 1, 1 / 2, .smooth, false, 0⟩, false, none, ⟨0, 0, 0⟩⟩,
      false, false, false⟩
    mesh1Tri ⟨0, 0, 0⟩ [(⟨0, 0, 0⟩, ⟨1, 0, 0⟩)] rfl

/-! ## CSG difference of a mesh with itself (claim C3) -/

theorem vec3Dot_sub_eq (n p q : Vec3Q) :
    vec3Dot n p - vec3Dot n q = vec3Dot n (vec3Sub p q) := by
  unfold vec3Dot vec3Sub
  dsimp only
  ring

theorem vec3Dot_cross_left (u v : Vec3Q) : vec3Dot (vec3Cross u v) u = 0 := by
  unfold vec3Dot vec3Cross
  dsimp only
  ring

theorem vec3Dot_cross_right (u v : Vec3Q) : vec3Dot (vec3Cross u v) v = 0 := by
  unfold vec3Dot vec3Cross
  dsimp only
  ring

theorem vec3Dot_normalize_zero (w u : Vec3Q) (h : vec3Dot w u = 0) :
    vec3Dot (vec3Normalize w) u = 0 := by
  simp only [vec3Normalize]
  by_cases hl : ratSqrt (w.x * w.x + w.y * w.y + w.z * w.z) = 0
  · rw [if_pos hl]
    simp [vec3Dot]
  · rw [if_neg hl]
    unfold vec3Dot at h ⊢
    dsimp only
    have he : w.x / ratSqrt (w.x * w.x + w.y * w.y + w.z * w.z) * u.x +
        w.y / ratSqrt (w.x * w.x + w.y * w.y + w.z * w.z) * u.y +
        w.z / ratSqrt (w.x * w.x + w.y * w.y + w.z * w.z) * u.z =
        (w.x * u.x + w.y * u.y + w.z * u.z) /
          ratSqrt (w.x * w.x + w.y * w.y + w.z * w.z) := by
      ring
    rw [he, h, zero_div]

theorem planeFromPoints_w (a b c : Vec3Q) :
    (planeFromPoints a b c).w = vec3Dot (planeFromPoints a b c).normal a := rfl

/-- The corners of a triangle lie exactly on the plane `planeFromPoints`
derives from them, whatever rational value `Math.sqrt` returned for the
normal's length: the cross product is orthogonal to both edges over ℚ. -/
theorem planeFromPoints_t_zero (a b c : Vec3Q) :
    vec3Dot (planeFromPoints a b c).normal a - (planeFromPoints a b c).w = 0 ∧
    vec3Dot (planeFromPoints a b c).normal b - (planeFromPoints a b c).w = 0 ∧
    vec3Dot (planeFromPoints a b c).normal c - (planeFromPoints a b c).w = 0 := by
  rw [planeFromPoints_w]
  refine ⟨sub_self _, ?_, ?_⟩
  · rw [vec3Dot_sub_eq]
    exact vec3Dot_normalize_zero _ _ (vec3Dot_cross_left (vec3Sub b a) (vec3Sub c a))
  · rw [vec3Dot_sub_eq]
    exact vec3Dot_normalize_zero _ _ (vec3Dot_cross_right (vec3Sub b a) (vec3Sub c a))

theorem classifyPoint_of_t_zero (pl : PlaneQ) (p : Vec3Q)
    (h : vec3Dot pl.normal p - pl.w = 0) : classifyPoint pl p = 0 := by
  simp only [classifyPoint]
  rw [h]
  norm_num [csgEpsilon]

theorem classifyPoint_flip_of_t_zero (pl : PlaneQ) (p : Vec3Q)
    (h : vec3Dot pl.normal p - pl.w = 0) :
    classifyPoint (planeFlip pl) p = 0 := by
  apply classifyPoint_of_t_zero
  unfold planeFlip vec3Flip vec3Dot
  unfold vec3Dot at h
  dsimp only
  linarith [h]

theorem vec3Dot_flip_right_nonpos (n : Vec3Q) : ¬vec3Dot n (vec3Flip n) > 0 := by
  unfold vec3Dot vec3Flip
  dsimp only
  intro hcon
  nlinarith [sq_nonneg n.x, sq_nonneg n.y, sq_nonneg n.z]

theorem vec3Dot_flip_left_nonpos (n : Vec3Q) : ¬vec3Dot (vec3Flip n) n > 0 := by
  unfold vec3Dot vec3Flip
  dsimp only
  intro hcon
  nlinarith [sq_nonneg n.x, sq_nonneg n.y, sq_nonneg n.z]

theorem splitPolygon_coplanar (pl : PlaneQ) (q : PolyQ) (a b c : Vec3Q)
    (hv : q.vertices = [a, b, c])
    (h0 : classifyPoint pl a = 0) (h1 : classifyPoint pl b = 0)
    (h2 : classifyPoint pl c = 0) :
    splitPolygon pl q =
      if vec3Dot pl.normal q.plane.normal > 0 then ⟨[q], [], [], []⟩
      else ⟨[], [q], [], []⟩ := by
  simp only [splitPolygon, hv, List.map_cons, List.map_nil, h0, h1, h2]
  rfl

theorem splitPolygon_coplanar_back (pl : PlaneQ) (q : PolyQ) (a b c : Vec3Q)
    (hv : q.vertices = [a, b, c])
    (h0 : classifyPoint pl a = 0) (h1 : classifyPoint pl b = 0)
    (h2 : classifyPoint pl c = 0)
    (hd : ¬vec3Dot pl.normal q.plane.normal > 0) :
    splitPolygon pl q = ⟨[], [q], [], []⟩ := by
  rw [splitPolygon_coplanar pl q a b c hv h0 h1 h2, if_neg hd]

theorem splitPolygon_coplanar_buckets (pl : PlaneQ) (q : PolyQ) (a b c : Vec3Q)
    (hv : q.vertices = [a, b, c])
    (h0 : classifyPoint pl a = 0) (h1 : classifyPoint pl b = 0)
    (h2 : classifyPoint pl c = 0) :
    (splitPolygon pl q).cf ++ (splitPolygon pl q).cb = [q] ∧
      (splitPolygon pl q).f = [] ∧ (splitPolygon pl q).b = [] := by
  rw [splitPolygon_coplanar pl q a b c hv h0 h1 h2]
  split <;> exact ⟨rfl, rfl, rfl⟩

theorem buildBSP_single (fuel : ℕ) (q : PolyQ)
    (hbk : (splitPolygon q.plane q).cf ++ (splitPolygon q.plane q).cb = [q] ∧
      (splitPolygon q.plane q).f = [] ∧ (splitPolygon q.plane q).b = []) :
    buildBSP (fuel + 1) [q] = .node (some q.plane) [q] .nil .nil := by
  unfold buildBSP
  simp only [List.foldl_cons, List.foldl_nil, List.nil_append]
  rw [hbk.1, hbk.2.1, hbk.2.2]
  simp

theorem boolean_difference_eq (mesh target : MeshQ) :
    boolean mesh ⟨.difference, target⟩ =
      { mesh with
        geometry := polygonsToGeometry (allPolygons (invertBSP (mergeBSP
          ((meshToPolygons mesh).length + (meshToPolygons target).length + 1)
          (clipTo
            (invertBSP (buildBSP
              ((meshToPolygons mesh).length + (meshToPolygons target).length + 1)
              (meshToPolygons mesh)))
            (buildBSP
              ((meshToPolygons mesh).length + (meshToPolygons target).length + 1)
              (meshToPolygons target)))
          (allPolygons (invertBSP (clipTo
            (invertBSP (clipTo
              (buildBSP
                ((meshToPolygons mesh).length + (meshToPolygons target).length + 1)
                (meshToPolygons target))
              (clipTo
                (invertBSP (buildBSP
                  ((meshToPolygons mesh).length + (meshToPolygons target).length + 1)
                  (meshToPolygons mesh)))
                (buildBSP
                  ((meshToPolygons mesh).length + (meshToPolygons target).length + 1)
                  (meshToPolygons target)))))
            (clipTo
              (invertBSP (buildBSP
                ((meshToPolygons mesh).length + (meshToPolygons target).length + 1)
                (meshToPolygons mesh)))
              (buildBSP
                ((meshToPolygons mesh).length + (meshToPolygons target).length + 1)
                (meshToPolygons target)))))))))
        transform := identityTransform } := rfl

/-- C3, amended: the boolean difference of a SINGLE-TRIANGLE mesh with itself
does produce the empty polygon list — every corner classifies as exactly
coplanar against the triangle's own plane, the flipped copy is coplanar-back
on every clip, and a back list clipped into a missing `back` subtree is
discarded — so the returned geometry has zero triangles.  The claim's
universal form over all meshes fails (see the two-triangle counterexample):
with two parallel triangles the farther one survives `difference(A, A)`. -/
theorem c3_boolean_difference_self_single (mesh : MeshQ) (i0 i1 i2 : ℕ)
    (h : mesh.geometry.indices = [i0, i1, i2]) :
    (boolean mesh ⟨.difference, mesh⟩).geometry.indices = [] := by
  rw [boolean_difference_eq]
  dsimp only
  obtain ⟨A, B, C, hpolys⟩ : ∃ A B C,
      meshToPolygons mesh = [⟨[A, B, C], planeFromPoints A B C⟩] := by
    refine ⟨applyTransformCSG mesh.transform (vtx mesh.geometry.vertices i0),
      applyTransformCSG mesh.transform (vtx mesh.geometry.vertices i1),
      applyTransformCSG mesh.transform (vtx mesh.geometry.vertices i2), ?_⟩
    unfold meshToPolygons
    rw [h]
    rfl
  rw [hpolys]
  obtain ⟨ht0, ht1, ht2⟩ := planeFromPoints_t_zero A B C
  have h0 : classifyPoint (planeFromPoints A B C) A = 0 :=
    classifyPoint_of_t_zero _ _ ht0
  have h1 : classifyPoint (planeFromPoints A B C) B = 0 :=
    classifyPoint_of_t_zero _ _ ht1
  have h2 : classifyPoint (planeFromPoints A B C) C = 0 :=
    classifyPoint_of_t_zero _ _ ht2
  have h0f : classifyPoint (planeFlip (planeFromPoints A B C)) A = 0 :=
    classifyPoint_flip_of_t_zero _ _ ht0
  have h1f : classifyPoint (planeFlip (planeFromPoints A B C)) B = 0 :=
    classifyPoint_flip_of_t_zero _ _ ht1
  have h2f : classifyPoint (planeFlip (planeFromPoints A B C)) C = 0 :=
    classifyPoint_flip_of_t_zero _ _ ht2
  set q : PolyQ := ⟨[A, B, C], planeFromPoints A B C⟩ with hq
  have hflen : [q].length + [q].length + 1 = 2 + 1 := rfl
  rw [hflen]
  have hT : buildBSP (2 + 1) [q] = .node (some q.plane) [q] .nil .nil :=
    buildBSP_single 2 q (splitPolygon_coplanar_buckets q.plane q A B C rfl h0 h1 h2)
  rw [hT]
  have hA1 : invertBSP (BSPT.node (some q.plane) [q] .nil .nil) =
      .node (some (planeFlip q.plane)) [polyFlip q] .nil .nil := rfl
  rw [hA1]
  have hsplit_fp : splitPolygon q.plane (polyFlip q) = ⟨[], [polyFlip q], [], []⟩ :=
    splitPolygon_coplanar_back q.plane (polyFlip q) C B A rfl h2 h1 h0
      (vec3Dot_flip_right_nonpos q.plane.normal)
  have hclip1 : clipPolygons (BSPT.node (some q.plane) [q] .nil .nil)
      [polyFlip q] = [] := by
    unfold clipPolygons
    simp only [List.foldl_cons, List.foldl_nil, hsplit_fp]
    rfl
  have hA2 : clipTo (BSPT.node (some (planeFlip q.plane)) [polyFlip q] .nil .nil)
      (BSPT.node (some q.plane) [q] .nil .nil) =
      .node (some (planeFlip q.plane)) [] .nil .nil := by
    unfold clipTo
    rw [hclip1]
    rfl
  rw [hA2]
  have hsplit_qf : splitPolygon (planeFlip q.plane) q = ⟨[], [q], [], []⟩ :=
    splitPolygon_coplanar_back (planeFlip q.plane) q A B C rfl h0f h1f h2f
      (vec3Dot_flip_left_nonpos q.plane.normal)
  have hclip2 : clipPolygons (BSPT.node (some (planeFlip q.plane)) [] .nil .nil)
      [q] = [] := by
    unfold clipPolygons
    simp only [List.foldl_cons, List.foldl_nil, hsplit_qf]
    rfl
  have hB1 : clipTo (BSPT.node (some q.plane) [q] .nil .nil)
      (BSPT.node (some (planeFlip q.plane)) [] .nil .nil) =
      .node (some q.plane) [] .nil .nil := by
    unfold clipTo
    rw [hclip2]
    rfl
  rw [hB1]
  with_unfolding_all rfl

/-- C3 counterexample: for the two-parallel-triangle mesh, the boolean
difference of the mesh with itself keeps one triangle (the farther plane's
polygon lands in an existing `back` subtree of the other tree and is then in
front of the nearer plane), so the polygon list is not empty and the claim's
universal form over all meshes is false. -/
theorem c3_boolean_difference_self_counterexample :
    (boolean meshPar2 ⟨.difference, meshPar2⟩).geometry.indices ≠ [] :=
  of_decide_eq_true (by with_unfolding_all rfl)

theorem c3_witness :
    (boolean mesh1Tri ⟨.difference, mesh1Tri⟩).geometry.indices = [] :=
  c3_boolean_difference_self_single mesh1Tri 0 1 2 rfl

/-! ## Canonical edge lists (claim C1)

Every operator but `extrude` ends by rebuilding the edge list from the new
index buffer; `loopCut` and `bridgeEdgeLoops` rebuild over possibly-undefined
(`Option ℕ`) indices that the typed-array construction then coerces.  The
lemmas below show that when no `undefined` is produced the coerced rebuild
agrees with the canonical rebuild of the coerced index buffer. -/

theorem pushUnique_map {α β : Type} [DecidableEq α] [DecidableEq β] (f : α → β)
    (hinj : ∀ x y, f x = f y → x = y) (acc : List α) (x : α) :
    pushUnique (acc.map f) (f x) = (pushUnique acc x).map f := by
  unfold pushUnique
  by_cases h : x ∈ acc
  · rw [if_pos h, if_pos (List.mem_map_of_mem f h)]
  · have hn : f x ∉ acc.map f := by
      intro hc
      obtain ⟨y, hy, hyx⟩ := List.mem_map.mp hc
      exact h (hinj y x hyx ▸ hy)
    rw [if_neg h, if_neg hn, List.map_append]
    rfl

theorem foldl_pushUnique_map {α β : Type} [DecidableEq α] [DecidableEq β]
    (f : α → β) (hinj : ∀ x y, f x = f y → x = y) :
    ∀ (l acc : List α),
      (l.map f).foldl pushUnique (acc.map f) = (l.foldl pushUnique acc).map f := by
  intro l
  induction l with
  | nil => intro acc; rfl
  | cons x r ih =>
      intro acc
      simp only [List.map_cons, List.foldl_cons]
      rw [pushUnique_map f hinj, ih]

theorem triSidesO_someTri (t : Tri) :
    triSidesO (some t.1, some t.2.1, some t.2.2) =
      (triSides t).map (fun p => (some p.1, some p.2)) := rfl

theorem rebuildEdgesO_some (natL : List Tri) :
    rebuildEdgesO (natL.map fun t => (some t.1, some t.2.1, some t.2.2)) =
      (rebuildEdges (untris natL)).map fun p => (some p.1, some p.2) := by
  unfold rebuildEdgesO rebuildEdges
  rw [tris_untris]
  have hfm : (natL.map fun t =>
        ((some t.1 : Option ℕ), some t.2.1, some t.2.2)).flatMap triSidesO =
      (natL.flatMap triSides).map (fun p => ((some p.1 : Option ℕ), some p.2)) := by
    induction natL with
    | nil => rfl
    | cons t r ih =>
        simp only [List.map_cons, List.flatMap_cons, ih, triSidesO_someTri,
          List.map_append]
  rw [hfm]
  exact foldl_pushUnique_map _
    (fun x y h => by
      cases x
      cases y
      simpa using h)
    (natL.flatMap triSides) []

theorem flatten_someTri (natL : List Tri) :
    ((natL.map fun t =>
        ((some t.1 : Option ℕ), some t.2.1, some t.2.2)).flatMap
      fun t => [t.1, t.2.1, t.2.2]).map (fun o => o.getD 0) = untris natL := by
  induction natL with
  | nil => rfl
  | cons t r ih =>
      simp only [List.map_cons, List.flatMap_cons, List.map_append, ih]
      rfl

theorem allSome_decomp (L : List TriO)
    (h : ∀ t ∈ L, t.1.isSome ∧ t.2.1.isSome ∧ t.2.2.isSome) :
    L = (L.map fun t => ((t.1.getD 0, t.2.1.getD 0, t.2.2.getD 0) : Tri)).map
      (fun t : Tri => ((some t.1 : Option ℕ), some t.2.1, some t.2.2)) := by
  induction L with
  | nil => rfl
  | cons t r ih =>
      have ht := h t (List.mem_cons_self _ _)
      have hhead : t = ((some (t.1.getD 0) : Option ℕ), some (t.2.1.getD 0),
          some (t.2.2.getD 0)) := by
        rcases t with ⟨t1, t2, t3⟩
        obtain ⟨x, hx⟩ := Option.isSome_iff_exists.mp ht.1
        obtain ⟨y, hy⟩ := Option.isSome_iff_exists.mp ht.2.1
        obtain ⟨z, hz⟩ := Option.isSome_iff_exists.mp ht.2.2
        dsimp only at hx hy hz ⊢
        rw [hx, hy, hz]
        rfl
      simp only [List.map_cons]
      rw [← ih (fun u hu => h u (List.mem_cons_of_mem _ hu)), ← hhead]

/-- For an all-defined `Option ℕ` triangle list, the coerced rebuilt edge list
is exactly the canonical rebuild of the coerced index buffer. -/
theorem coerced_edges_eq (L : List TriO)
    (h : ∀ t ∈ L, t.1.isSome ∧ t.2.1.isSome ∧ t.2.2.isSome) :
    (rebuildEdgesO L).map (fun p => (p.1.getD 0, p.2.getD 0)) =
      rebuildEdges ((L.flatMap fun t => [t.1, t.2.1, t.2.2]).map
        fun o => o.getD 0) := by
  obtain hdec := allSome_decomp L h
  rw [hdec, rebuildEdgesO_some, flatten_someTri, List.map_map]
  have hcomp : ((fun p : Option ℕ × Option ℕ => (p.1.getD 0, p.2.getD 0)) ∘
      fun p : ℕ × ℕ => ((some p.1 : Option ℕ), some p.2)) = id := by
    funext p
    rfl
  rw [hcomp, List.map_id]

theorem get?_isSome_of_lt {α : Type} (l : List α) (n : ℕ) (h : n < l.length) :
    (l.get? n).isSome := by
  rw [List.get?_eq_get h]
  rfl

theorem loopCutBuildStep_snd (k : ℕ) (va vb na nb : Vec3Q) (u1 u2 u3 u4 : ℚ)
    (bacc : SubdivState × List ℕ) (i0 : ℕ) :
    (loopCutBuildStep k va vb na nb u1 u2 u3 u4 bacc i0).2 =
      bacc.2 ++ [bacc.1.verts.length / 3] := rfl

theorem foldl_loopCutBuildStep_len (k : ℕ) (va vb na nb : Vec3Q)
    (u1 u2 u3 u4 : ℚ) :
    ∀ (l : List ℕ) (bacc : SubdivState × List ℕ),
      ((l.foldl (loopCutBuildStep k va vb na nb u1 u2 u3 u4) bacc).2).length =
        bacc.2.length + l.length := by
  intro l
  induction l with
  | nil => intro bacc; simp
  | cons x r ih =>
      intro bacc
      rw [List.foldl_cons, ih, loopCutBuildStep_snd]
      simp only [List.length_append, List.length_cons, List.length_nil]
      omega

theorem setAssoc_values {α β : Type} [DecidableEq α] (P : β → Prop)
    (m : List (α × β)) (key : α) (v : β)
    (hm : ∀ kv ∈ m, P kv.2) (hv : P v) :
    ∀ kv ∈ setAssoc m key v, P kv.2 := by
  intro kv hkv
  unfold setAssoc at hkv
  split at hkv
  · obtain ⟨p, hp, hpe⟩ := List.mem_map.mp hkv
    by_cases hc : p.1 = key
    · rw [if_pos hc] at hpe
      rw [← hpe]
      exact hv
    · rw [if_neg hc] at hpe
      rw [← hpe]
      exact hm p hp
  · rcases List.mem_append.mp hkv with hin | hin
    · exact hm kv hin
    · simp only [List.mem_singleton] at hin
      rw [hin]
      exact hv

theorem loopCutPhase1Step_snd (k : ℕ)
    (acc : SubdivState × List ((ℕ × ℕ) × List ℕ)) (q : ℕ × ℕ) :
    (loopCutPhase1Step k acc q).2 =
      setAssoc acc.2 (canonPair q.1 q.2)
        ((List.range k).foldl
          (loopCutBuildStep k (vtx acc.1.verts q.1) (vtx acc.1.verts q.2)
            (vtx acc.1.norms q.1) (vtx acc.1.norms q.2)
            (getQ acc.1.uvs (q.1 * 2)) (getQ acc.1.uvs (q.1 * 2 + 1))
            (getQ acc.1.uvs (q.2 * 2)) (getQ acc.1.uvs (q.2 * 2 + 1)))
          (acc.1, [])).2 := rfl

theorem loopCutPhase1_values (k : ℕ) :
    ∀ (se : List (ℕ × ℕ)) (acc : SubdivState × List ((ℕ × ℕ) × List ℕ)),
      (∀ kv ∈ acc.2, kv.2.length = k) →
      ∀ kv ∈ (se.foldl (loopCutPhase1Step k) acc).2, kv.2.length = k := by
  intro se
  induction se with
  | nil => intro acc h; exact h
  | cons q r ih =>
      intro acc h
      rw [List.foldl_cons]
      apply ih
      intro kv hkv
      rw [loopCutPhase1Step_snd] at hkv
      refine setAssoc_values (fun l => l.length = k) _ _ _ h ?_ kv hkv
      dsimp only
      rw [foldl_loopCutBuildStep_len]
      simp

theorem getAssoc_mem {α β : Type} [DecidableEq α] (m : List (α × β)) (key : α)
    (v : β) (h : getAssoc m key = some v) : ∃ kk, (kk, v) ∈ m := by
  unfold getAssoc at h
  cases hf : m.find? (fun p => p.1 = key) with
  | none =>
      rw [hf] at h
      simp at h
  | some p =>
      rw [hf] at h
      simp only [Option.map_some'] at h
      injection h with h
      refine ⟨p.1, ?_⟩
      have hp := List.mem_of_find?_eq_some hf
      rw [← h]
      exact hp

theorem singleCutEntries_allSome (c : Option ℕ) (hc : c.isSome) (a b : ℕ)
    (nv : List ℕ) (hnv : 1 ≤ nv.length) :
    ∀ u ∈ ([((c, some a, nv.get? 0) : TriO)] ++
        ((List.range (nv.length - 1)).map fun j =>
          ((c, nv.get? j, nv.get? (j + 1)) : TriO)) ++
        [((c, nv.get? (nv.length - 1), some b) : TriO)]),
      u.1.isSome ∧ u.2.1.isSome ∧ u.2.2.isSome := by
  intro u hu
  rcases List.mem_append.mp hu with hu | hu
  · rcases List.mem_append.mp hu with hu | hu
    · simp only [List.mem_singleton] at hu
      subst hu
      exact ⟨hc, rfl, get?_isSome_of_lt _ _ (by omega)⟩
    · obtain ⟨j, hj, hje⟩ := List.mem_map.mp hu
      have hjr := List.mem_range.mp hj
      subst hje
      exact ⟨hc, get?_isSome_of_lt _ _ (by omega),
        get?_isSome_of_lt _ _ (by omega)⟩
  · simp only [List.mem_singleton] at hu
    subst hu
    exact ⟨hc, get?_isSome_of_lt _ _ (by omega), rfl⟩

theorem twoCutEntries_allSome (s o1 o2 : ℕ) (nv1 nv2 : List ℕ) (k : ℕ)
    (hk : 1 ≤ k) (hl1 : nv1.length = k) (hl2 : nv2.length = k) :
    ∀ u ∈ ([((some s, nv1.get? 0, nv2.get? 0) : TriO)] ++
        ((List.range (k - 1)).flatMap fun j =>
          [((nv1.get? j, nv1.get? (j + 1), nv2.get? j) : TriO),
           ((nv2.get? j, nv1.get? (j + 1), nv2.get? (j + 1)) : TriO)]) ++
        [((nv1.get? (nv1.length - 1), some o1, some o2) : TriO),
         ((nv1.get? (nv1.length - 1), some o2, nv2.get? (nv2.length - 1)) : TriO)]),
      u.1.isSome ∧ u.2.1.isSome ∧ u.2.2.isSome := by
  intro u hu
  rcases List.mem_append.mp hu with hu | hu
  · rcases List.mem_append.mp hu with hu | hu
    · simp only [List.mem_singleton] at hu
      subst hu
      exact ⟨rfl, get?_isSome_of_lt _ _ (by omega),
        get?_isSome_of_lt _ _ (by omega)⟩
    · obtain ⟨j, hj, hje⟩ := List.mem_flatMap.mp hu
      have hjr := List.mem_range.mp hj
      simp only [List.mem_cons, List.not_mem_nil, or_false] at hje
      rcases hje with hje | hje <;> subst hje
      · exact ⟨get?_isSome_of_lt _ _ (by omega),
          get?_isSome_of_lt _ _ (by omega), get?_isSome_of_lt _ _ (by omega)⟩
      · exact ⟨get?_isSome_of_lt _ _ (by omega),
          get?_isSome_of_lt _ _ (by omega), get?_isSome_of_lt _ _ (by omega)⟩
  · simp only [List.mem_cons, List.not_mem_nil, or_false] at hu
    rcases hu with hu | hu <;> subst hu
    · exact ⟨get?_isSome_of_lt _ _ (by omega), rfl, rfl⟩
    · exact ⟨get?_isSome_of_lt _ _ (by omega), rfl,
        get?_isSome_of_lt _ _ (by omega)⟩

/-- With at least one cut per selected edge and pairwise-distinct triangle
corners, every retriangulated `Option ℕ` triangle of `loopCut` is fully
defined: the opposite-vertex search succeeds and every cut-vertex array index
is in range. -/
theorem loopCutTri_allSome (P : List ((ℕ × ℕ) × List ℕ)) (k : ℕ) (hk : 1 ≤ k)
    (hP : ∀ kv ∈ P, kv.2.length = k) (t : Tri)
    (hd01 : t.1 ≠ t.2.1) (hd12 : t.2.1 ≠ t.2.2) (hd02 : t.1 ≠ t.2.2) :
    ∀ u ∈ loopCutTri P k t, u.1.isSome ∧ u.2.1.isSome ∧ u.2.2.isSome := by
  have hPlen : ∀ (key : ℕ × ℕ) (nv : List ℕ), getAssoc P key = some nv →
      nv.length = k := by
    intro key nv hg
    obtain ⟨kk, hmem⟩ := getAssoc_mem P key nv hg
    exact hP (kk, nv) hmem
  have hrevlen : ∀ (x y : ℕ) (nv : List ℕ), nv.length = k →
      (if x < y then nv else nv.reverse).length = k := by
    intro x y nv h
    split
    · exact h
    · rw [List.length_reverse]
      exact h
  intro u hu
  unfold loopCutTri at hu
  rw [show List.range 3 = [0, 1, 2] from rfl] at hu
  simp only [List.foldl_cons, List.foldl_nil,
    show List.getD [t.1, t.2.1, t.2.2] 0 0 = t.1 from rfl,
    show List.getD [t.1, t.2.1, t.2.2] ((0 + 1) % 3) 0 = t.2.1 from rfl,
    show List.getD [t.1, t.2.1, t.2.2] 1 0 = t.2.1 from rfl,
    show List.getD [t.1, t.2.1, t.2.2] ((1 + 1) % 3) 0 = t.2.2 from rfl,
    show List.getD [t.1, t.2.1, t.2.2] 2 0 = t.2.2 from rfl,
    show List.getD [t.1, t.2.1, t.2.2] ((2 + 1) % 3) 0 = t.1 from rfl] at hu
  rcases hg0 : getAssoc P (canonPair t.1 t.2.1) with _ | nv0
  · rcases hg1 : getAssoc P (canonPair t.2.1 t.2.2) with _ | nv1
    · rcases hg2 : getAssoc P (canonPair t.2.2 t.1) with _ | nv2
      · simp only [hg0, hg1, hg2, List.nil_append, List.singleton_append,
          List.cons_append, List.mem_singleton] at hu
        subst hu
        exact ⟨rfl, rfl, rfl⟩
      · simp only [hg0, hg1, hg2, List.nil_append, List.singleton_append,
          List.cons_append] at hu
        have hnv := hPlen _ _ hg2
        have hc : (List.find? (fun v => decide (v ≠ t.2.2 ∧ v ≠ t.1))
            [t.1, t.2.1, t.2.2]).isSome :=
          List.find?_isSome.mpr ⟨t.2.1, by simp, by
            simp only [decide_eq_true_eq]
            exact ⟨hd12, fun hcc => hd01 hcc.symm⟩⟩
        have hlen : (if t.2.2 < t.1 then nv2 else nv2.reverse).length = k :=
          hrevlen _ _ _ hnv
        refine singleCutEntries_allSome _ hc _ _ _ ?_ u hu
        omega
    · rcases hg2 : getAssoc P (canonPair t.2.2 t.1) with _ | nv2
      · simp only [hg0, hg1, hg2, List.nil_append, List.singleton_append,
          List.cons_append] at hu
        have hnv := hPlen _ _ hg1
        have hc : (List.find? (fun v => decide (v ≠ t.2.1 ∧ v ≠ t.2.2))
            [t.1, t.2.1, t.2.2]).isSome :=
          List.find?_isSome.mpr ⟨t.1, by simp, by
            simp only [decide_eq_true_eq]
            exact ⟨hd01, hd02⟩⟩
        have hlen : (if t.2.1 < t.2.2 then nv1 else nv1.reverse).length = k :=
          hrevlen _ _ _ hnv
        refine singleCutEntries_allSome _ hc _ _ _ ?_ u hu
        omega
      · simp only [hg0, hg1, hg2, List.nil_append, List.singleton_append,
          List.cons_append] at hu
        rcases hsh : List.find? (fun v => decide ((v = t.2.1 ∨ v = t.2.2) ∧
            (v = t.2.2 ∨ v = t.1))) [t.1, t.2.1, t.2.2] with _ | s
        · simp only [hsh, List.mem_singleton] at hu
          subst hu
          exact ⟨rfl, rfl, rfl⟩
        · simp only [hsh] at hu
          have hnv1 := hPlen _ _ hg1
          have hnv2 := hPlen _ _ hg2
          have hb1 : (if t.2.1 < t.2.2 then nv1 else nv1.reverse).length = k :=
            hrevlen _ _ _ hnv1
          have hb2 : (if t.2.2 < t.1 then nv2 else nv2.reverse).length = k :=
            hrevlen _ _ _ hnv2
          have hL1 : (if t.2.1 = s then (if t.2.1 < t.2.2 then nv1 else nv1.reverse)
              else (if t.2.1 < t.2.2 then nv1 else nv1.reverse).reverse).length = k := by
            split
            · exact hb1
            · rw [List.length_reverse]
              exact hb1
          have hL2 : (if t.2.2 = s then (if t.2.2 < t.1 then nv2 else nv2.reverse)
              else (if t.2.2 < t.1 then nv2 else nv2.reverse).reverse).length = k := by
            split
            · exact hb2
            · rw [List.length_reverse]
              exact hb2
          exact twoCutEntries_allSome s _ _ _ _ k hk hL1 hL2 u hu
  · rcases hg1 : getAssoc P (canonPair t.2.1 t.2.2) with _ | nv1
    · rcases hg2 : getAssoc P (canonPair t.2.2 t.1) with _ | nv2
      · simp only [hg0, hg1, hg2, List.nil_append, List.singleton_append,
          List.cons_append] at hu
        have hnv := hPlen _ _ hg0
        have hc : (List.find? (fun v => decide (v ≠ t.1 ∧ v ≠ t.2.1))
            [t.1, t.2.1, t.2.2]).isSome :=
          List.find?_isSome.mpr ⟨t.2.2, by simp, by
            simp only [decide_eq_true_eq]
            exact ⟨fun hcc => hd02 hcc.symm, fun hcc => hd12 hcc.symm⟩⟩
        have hlen : (if t.1 < t.2.1 then nv0 else nv0.reverse).length = k :=
          hrevlen _ _ _ hnv
        refine singleCutEntries_allSome _ hc _ _ _ ?_ u hu
        omega
      · simp only [hg0, hg1, hg2, List.nil_append, List.singleton_append,
          List.cons_append] at hu
        rcases hsh : List.find? (fun v => decide ((v = t.1 ∨ v = t.2.1) ∧
            (v = t.2.2 ∨ v = t.1))) [t.1, t.2.1, t.2.2] with _ | s
        · simp only [hsh, List.mem_singleton] at hu
          subst hu
          exact ⟨rfl, rfl, rfl⟩
        · simp only [hsh] at hu
          have hnv0 := hPlen _ _ hg0
          have hnv2 := hPlen _ _ hg2
          have hb1 : (if t.1 < t.2.1 then nv0 else nv0.reverse).length = k :=
            hrevlen _ _ _ hnv0
          have hb2 : (if t.2.2 < t.1 then nv2 else nv2.reverse).length = k :=
            hrevlen _ _ _ hnv2
          have hL1 : (if t.1 = s then (if t.1 < t.2.1 then nv0 else nv0.reverse)
              else (if t.1 < t.2.1 then nv0 else nv0.reverse).reverse).length = k := by
            split
            · exact hb1
            · rw [List.length_reverse]
              exact hb1
          have hL2 : (if t.2.2 = s then (if t.2.2 < t.1 then nv2 else nv2.reverse)
              else (if t.2.2 < t.1 then nv2 else nv2.reverse).reverse).length = k := by
            split
            · exact hb2
            · rw [List.length_reverse]
              exact hb2
          exact twoCutEntries_allSome s _ _ _ _ k hk hL1 hL2 u hu
    · rcases hg2 : getAssoc P (canonPair t.2.2 t.1) with _ | nv2
      · simp only [hg0, hg1, hg2, List.nil_append, List.singleton_append,
          List.cons_append] at hu
        rcases hsh : List.find? (fun v => decide ((v = t.1 ∨ v = t.2.1) ∧
            (v = t.2.1 ∨ v = t.2.2))) [t.1, t.2.1, t.2.2] with _ | s
        · simp only [hsh, List.mem_singleton] at hu
          subst hu
          exact ⟨rfl, rfl, rfl⟩
        · simp only [hsh] at hu
          have hnv0 := hPlen _ _ hg0
          have hnv1 := hPlen _ _ hg1
          have hb1 : (if t.1 < t.2.1 then nv0 else nv0.reverse).length = k :=
            hrevlen _ _ _ hnv0
          have hb2 : (if t.2.1 < t.2.2 then nv1 else nv1.reverse).length = k :=
            hrevlen _ _ _ hnv1
          have hL1 : (if t.1 = s then (if t.1 < t.2.1 then nv0 else nv0.reverse)
              else (if t.1 < t.2.1 then nv0 else nv0.reverse).reverse).length = k := by
            split
            · exact hb1
            · rw [List.length_reverse]
              exact hb1
          have hL2 : (if t.2.1 = s then (if t.2.1 < t.2.2 then nv1 else nv1.reverse)
              else (if t.2.1 < t.2.2 then nv1 else nv1.reverse).reverse).length = k := by
            split
            · exact hb2
            · rw [List.length_reverse]
              exact hb2
          exact twoCutEntries_allSome s _ _ _ _ k hk hL1 hL2 u hu
      · simp only [hg0, hg1, hg2, List.nil_append, List.singleton_append,
          List.cons_append, List.mem_singleton] at hu
        subst hu
        exact ⟨rfl, rfl, rfl⟩

theorem tris_map (f : ℕ → ℕ) :
    ∀ raw : List ℕ,
      tris (raw.map f) = (tris raw).map fun t => (f t.1, f t.2.1, f t.2.2)
  | [] => rfl
  | [_] => rfl
  | [_, _] => rfl
  | a :: b :: c :: r => by
      simp only [List.map_cons, tris, tris_map f r]

/-- Every triangle corner of the raw index buffer shows up in the rebuilt
edge list, so a bound on the edge endpoints bounds every used index. -/
theorem tris_bound_of_edges_bound (raw : List ℕ)
    (h : ∀ p ∈ rebuildEdges raw, p.1 < 65536 ∧ p.2 < 65536) :
    ∀ t ∈ tris raw, t.1 < 65536 ∧ t.2.1 < 65536 ∧ t.2.2 < 65536 := by
  intro t ht
  have hside : ∀ a b : ℕ, IsTriSide raw a b → a ≤ b →
      a < 65536 ∧ b < 65536 := by
    intro a b hs hab
    exact h (a, b) (((rebuildEdges_canonical raw).2 a b).mpr ⟨hab, hs⟩)
  have hpair : ∀ x y : ℕ, (x, y) ∈ sidePairs t → x < 65536 ∧ y < 65536 := by
    intro x y hxy
    rcases le_total x y with hle | hle
    · exact hside x y ⟨t, ht, (x, y), hxy, Or.inl ⟨rfl, rfl⟩⟩ hle
    · have := hside y x ⟨t, ht, (x, y), hxy, Or.inr ⟨rfl, rfl⟩⟩ hle
      exact ⟨this.2, this.1⟩
  refine ⟨(hpair t.1 t.2.1 ?_).1, (hpair t.2.1 t.2.2 ?_).1,
    (hpair t.2.2 t.1 ?_).1⟩
  · simp [sidePairs]
  · simp [sidePairs]
  · simp [sidePairs]

/-- When every edge endpoint of the raw buffer fits in 16 bits, the
`Uint16Array` wrap leaves the triangle walk — hence the rebuilt edge list —
unchanged. -/
theorem rebuildEdges_toUint16 (raw : List ℕ)
    (h : ∀ p ∈ rebuildEdges raw, p.1 < 65536 ∧ p.2 < 65536) :
    rebuildEdges (toUint16 raw) = rebuildEdges raw := by
  have hb := tris_bound_of_edges_bound raw h
  have hmapid : ∀ L : List Tri,
      (∀ t ∈ L, t.1 < 65536 ∧ t.2.1 < 65536 ∧ t.2.2 < 65536) →
      L.map (fun t => (t.1 % 65536, t.2.1 % 65536, t.2.2 % 65536)) = L := by
    intro L
    induction L with
    | nil => intro _; rfl
    | cons t r ih =>
        intro hL
        obtain ⟨h1, h2, h3⟩ := hL t (List.mem_cons_self _ _)
        simp only [List.map_cons]
        rw [ih (fun u hu => hL u (List.mem_cons_of_mem _ hu)),
          Nat.mod_eq_of_lt h1, Nat.mod_eq_of_lt h2, Nat.mod_eq_of_lt h3]
  have htris : tris (toUint16 raw) = tris raw := by
    unfold toUint16
    rw [tris_map]
    exact hmapid (tris raw) hb
  unfold rebuildEdges
  rw [htris]

/-- Combined form for the `Option ℕ` pipelines of `loopCut` and
`bridgeEdgeLoops`: with every triangle fully defined and every rebuilt edge
endpoint below `2^16`, the coerced rebuilt edges equal the canonical rebuild
of the wrapped coerced index buffer. -/
theorem coerced_edges_wrap_eq (L : List TriO)
    (hAS : ∀ t ∈ L, t.1.isSome ∧ t.2.1.isSome ∧ t.2.2.isSome)
    (h : ∀ p ∈ (rebuildEdgesO L).map (fun p => (p.1.getD 0, p.2.getD 0)),
      p.1 < 65536 ∧ p.2 < 65536) :
    (rebuildEdgesO L).map (fun p => (p.1.getD 0, p.2.getD 0)) =
      rebuildEdges (toUint16 ((L.flatMap fun t => [t.1, t.2.1, t.2.2]).map
        fun o => o.getD 0)) := by
  have hmain := coerced_edges_eq L hAS
  rw [hmain] at h ⊢
  exact (rebuildEdges_toUint16 _ h).symm

theorem loopCut_edges_canonical (m : MeshQ) (se : List (ℕ × ℕ))
    (o : LoopCutOptionsQ) (hse : ¬se.length = 0) (hk : 1 ≤ o.numberOfCuts)
    (hd : ∀ t ∈ tris m.geometry.indices,
      t.1 ≠ t.2.1 ∧ t.2.1 ≠ t.2.2 ∧ t.1 ≠ t.2.2)
    (hbound : ∀ p ∈ (loopCut m se o).geometry.edges,
      p.1 < 65536 ∧ p.2 < 65536) :
    (loopCut m se o).geometry.edges =
      rebuildEdges (loopCut m se o).geometry.indices := by
  unfold loopCut at hbound ⊢
  rw [if_neg hse] at hbound ⊢
  dsimp only at hbound ⊢
  refine coerced_edges_wrap_eq _ ?_ hbound
  intro u hu
  obtain ⟨t, htm, hut⟩ := List.mem_flatMap.mp hu
  have hPv : ∀ kv ∈ (se.foldl (loopCutPhase1Step o.numberOfCuts)
      (⟨m.geometry.vertices, m.geometry.normals, m.geometry.uvs, []⟩, [])).2,
      kv.2.length = o.numberOfCuts :=
    loopCutPhase1_values _ se _ (by intro kv hkv; simp at hkv)
  exact loopCutTri_allSome _ _ hk hPv t (hd t htm).1 (hd t htm).2.1
    (hd t htm).2.2 u hut

theorem getD_mem_of_lt {α : Type} (l : List α) (n : ℕ) (d : α)
    (h : n < l.length) : l.getD n d ∈ l := by
  rw [List.getD_eq_getD_get? l d n, List.get?_eq_get h]
  exact List.get_mem l n h

theorem getD_mod_isSome (L : List (Option ℕ))
    (h : ∀ x ∈ L, x.isSome) (hne : L ≠ []) (j : ℕ) :
    (L.getD (j % L.length) none).isSome := by
  have hlt : j % L.length < L.length := Nat.mod_lt _ (List.length_pos.mpr hne)
  exact h _ (getD_mem_of_lt L _ none hlt)

theorem bridgeQuads_allSome (loops : List (List (Option ℕ)))
    (h : ∀ L ∈ loops, L ≠ [] ∧ ∀ x ∈ L, x.isSome) :
    ∀ u ∈ bridgeQuads loops, u.1.isSome ∧ u.2.1.isSome ∧ u.2.2.isSome := by
  intro u hu
  unfold bridgeQuads at hu
  obtain ⟨l, hl, hu2⟩ := List.mem_flatMap.mp hu
  obtain ⟨i, _, hu3⟩ := List.mem_flatMap.mp hu2
  have hlr := List.mem_range.mp hl
  have hcur : loops.getD l [] ∈ loops :=
    getD_mem_of_lt loops l [] (by omega)
  have hnext : loops.getD (l + 1) [] ∈ loops :=
    getD_mem_of_lt loops (l + 1) [] (by omega)
  obtain ⟨hcne, hcsome⟩ := h _ hcur
  obtain ⟨hnne, hnsome⟩ := h _ hnext
  simp only [List.mem_cons, List.not_mem_nil, or_false] at hu3
  rcases hu3 with hu3 | hu3 <;> subst hu3
  · exact ⟨getD_mod_isSome _ hcsome hcne _, getD_mod_isSome _ hcsome hcne _,
      getD_mod_isSome _ hnsome hnne _⟩
  · exact ⟨getD_mod_isSome _ hcsome hcne _, getD_mod_isSome _ hnsome hnne _,
      getD_mod_isSome _ hnsome hnne _⟩

theorem getLoop_tmod_isSome (l : List ℕ) (i off : ℤ) (hi : 0 ≤ i)
    (hoff : 0 ≤ off) (hl : l ≠ []) :
    (getLoop l (Int.tmod (i + off) (l.length : ℤ))).isSome := by
  have hpos : (0 : ℤ) < (l.length : ℤ) := by
    have := List.length_pos.mpr hl
    exact_mod_cast this
  have h0 : 0 ≤ Int.tmod (i + off) (l.length : ℤ) :=
    Int.tmod_nonneg _ (by omega)
  have hlt : Int.tmod (i + off) (l.length : ℤ) < (l.length : ℤ) :=
    Int.tmod_lt_of_pos _ hpos
  unfold getLoop
  rw [if_pos h0]
  apply get?_isSome_of_lt
  omega

theorem bridgeLoopStep_snd (sinPi : ℚ → ℚ) (geometry : GeometryQ)
    (loop1 loop2 : List ℕ) (l1P l2P : List Vec3Q) (off len2 : ℤ)
    (sm t : ℚ) (lacc : SubdivState × List (Option ℕ)) (i : ℕ) :
    (bridgeLoopStep sinPi geometry loop1 loop2 l1P l2P off len2 sm t
      lacc i).2 = lacc.2 ++ [some (lacc.1.verts.length / 3)] := rfl

theorem foldl_bridgeLoopStep_spec (sinPi : ℚ → ℚ) (geometry : GeometryQ)
    (loop1 loop2 : List ℕ) (l1P l2P : List Vec3Q) (off len2 : ℤ) (sm t : ℚ) :
    ∀ (l : List ℕ) (lacc : SubdivState × List (Option ℕ)),
      ((l.foldl (bridgeLoopStep sinPi geometry loop1 loop2 l1P l2P off len2
          sm t) lacc).2).length = lacc.2.length + l.length ∧
      ∀ x ∈ (l.foldl (bridgeLoopStep sinPi geometry loop1 loop2 l1P l2P off
          len2 sm t) lacc).2, x ∈ lacc.2 ∨ x.isSome := by
  intro l
  induction l with
  | nil =>
      intro lacc
      exact ⟨by simp, fun x hx => Or.inl hx⟩
  | cons i r ih =>
      intro lacc
      rw [List.foldl_cons]
      have H := ih (bridgeLoopStep sinPi geometry loop1 loop2 l1P l2P off
        len2 sm t lacc i)
      constructor
      · rw [H.1, bridgeLoopStep_snd]
        simp only [List.length_append, List.length_cons, List.length_nil]
        omega
      · intro x hx
        rcases H.2 x hx with hx2 | hx2
        · rw [bridgeLoopStep_snd] at hx2
          rcases List.mem_append.mp hx2 with h3 | h3
          · exact Or.inl h3
          · simp only [List.mem_singleton] at h3
            subst h3
            exact Or.inr rfl
        · exact Or.inr hx2

theorem foldl_bridgeSegmentStep_inv (sinPi : ℚ → ℚ) (geometry : GeometryQ)
    (loop1 loop2 : List ℕ) (l1P l2P : List Vec3Q) (off len2 : ℤ)
    (options : BridgeOptionsQ)
    (hcount : 0 < max loop1.length loop2.length) :
    ∀ (l : List ℕ) (acc : SubdivState × List (List (Option ℕ))),
      (∀ L ∈ acc.2, L ≠ [] ∧ ∀ x ∈ L, x.isSome) →
      ∀ L ∈ (l.foldl (bridgeSegmentStep sinPi geometry loop1 loop2 l1P l2P
          off len2 options) acc).2,
        L ≠ [] ∧ ∀ x ∈ L, x.isSome := by
  intro l
  induction l with
  | nil => intro acc h; exact h
  | cons s r ih =>
      intro acc h
      rw [List.foldl_cons]
      apply ih
      intro L hL
      have hsnd : (bridgeSegmentStep sinPi geometry loop1 loop2 l1P l2P off
          len2 options acc s).2 =
          acc.2 ++ [((List.range (max loop1.length loop2.length)).foldl
            (bridgeLoopStep sinPi geometry loop1 loop2 l1P l2P off len2
              options.smoothness
              (match options.blend with
                | .smooth => smoothStep ((s : ℚ) / (options.segments : ℚ))
                | .sphere => sphereBlend ((s : ℚ) / (options.segments : ℚ))
                | .linear => (s : ℚ) / (options.segments : ℚ)))
            (acc.1, [])).2] := rfl
      rw [hsnd] at hL
      rcases List.mem_append.mp hL with hL | hL
      · exact h L hL
      · simp only [List.mem_singleton] at hL
        subst hL
        have HS := foldl_bridgeLoopStep_spec sinPi geometry loop1 loop2 l1P
          l2P off len2 options.smoothness
          (match options.blend with
            | .smooth => smoothStep ((s : ℚ) / (options.segments : ℚ))
            | .sphere => sphereBlend ((s : ℚ) / (options.segments : ℚ))
            | .linear => (s : ℚ) / (options.segments : ℚ))
          (List.range (max loop1.length loop2.length)) (acc.1, [])
        constructor
        · intro hc
          have hlen := HS.1
          rw [hc] at hlen
          simp only [List.length_nil, List.length_range] at hlen
          omega
        · intro x hx
          rcases HS.2 x hx with h2 | h2
          · exact absurd h2 (List.not_mem_nil x)
          · exact h2

theorem bridge_edges_canonical (sinPi : ℚ → ℚ) (m : MeshQ)
    (o : BridgeOptionsQ) (hl1 : 3 ≤ o.loop1.length) (hl2 : 3 ≤ o.loop2.length)
    (htw : 0 ≤ o.twist)
    (hbound : ∀ p ∈ (bridgeEdgeLoops sinPi m o).geometry.edges,
      p.1 < 65536 ∧ p.2 < 65536) :
    (bridgeEdgeLoops sinPi m o).geometry.edges =
      rebuildEdges (bridgeEdgeLoops sinPi m o).geometry.indices := by
  unfold bridgeEdgeLoops at hbound ⊢
  rw [if_neg (by omega)] at hbound ⊢
  dsimp only at hbound ⊢
  refine coerced_edges_wrap_eq _ ?_ hbound
  intro u hu
  rcases List.mem_append.mp hu with hu | hu
  · obtain ⟨t, _, hut⟩ := List.mem_map.mp hu
    rw [← hut]
    exact ⟨rfl, rfl, rfl⟩
  · refine bridgeQuads_allSome _ ?_ u hu
    intro L hL
    have hoff : (0 : ℤ) ≤
        (if o.loop1.length = o.loop2.length ∧ o.twist = 0 then
          ((findOptimalAlignment (o.loop1.map fun i => vtx m.geometry.vertices i)
            (o.loop2.map fun i => vtx m.geometry.vertices i) : ℕ) : ℤ)
        else o.twist) := by
      split
      · exact Int.ofNat_nonneg _
      · exact htw
    rcases List.mem_append.mp hL with hL | hL
    · refine foldl_bridgeSegmentStep_inv _ _ _ _ _ _ _ _ _ (by omega) _ _
        ?_ L hL
      intro L0 hL0
      simp only [List.mem_singleton] at hL0
      subst hL0
      constructor
      · intro hc
        rw [List.map_eq_nil_iff] at hc
        rw [hc] at hl1
        simp at hl1
      · intro x hx
        obtain ⟨y, _, hy⟩ := List.mem_map.mp hx
        rw [← hy]
        rfl
    · simp only [List.mem_singleton] at hL
      subst hL
      constructor
      · intro hc
        rw [List.map_eq_nil_iff] at hc
        have hlen0 := congrArg List.length hc
        simp only [List.enum_length, List.length_nil] at hlen0
        omega
      · intro x hx
        obtain ⟨p, _, hp⟩ := List.mem_map.mp hx
        rw [← hp]
        exact getLoop_tmod_isSome o.loop2 (p.1 : ℤ) _ (Int.ofNat_nonneg _)
          hoff (by intro hc; rw [hc] at hl2; simp at hl2)

theorem subdivideOnce_edges_canonical (m : MeshQ) (s : Bool)
    (h : ∀ p ∈ (subdivideOnce m s).geometry.edges,
      p.1 < 65536 ∧ p.2 < 65536) :
    (subdivideOnce m s).geometry.edges =
      rebuildEdges (subdivideOnce m s).geometry.indices := by
  unfold subdivideOnce at h ⊢
  exact (rebuildEdges_toUint16 _ h).symm

theorem subdivide_edges_canonical (m : MeshQ) (o : SubdivideOptionsQ)
    (h1 : 1 ≤ o.iterations)
    (h : ∀ p ∈ (subdivide m o).geometry.edges, p.1 < 65536 ∧ p.2 < 65536) :
    (subdivide m o).geometry.edges =
      rebuildEdges (subdivide m o).geometry.indices := by
  obtain ⟨n, hn⟩ : ∃ n, o.iterations = n + 1 := ⟨o.iterations - 1, by omega⟩
  unfold subdivide at h ⊢
  rw [hn, List.range_succ, List.foldl_append, List.foldl_cons,
    List.foldl_nil] at h ⊢
  exact subdivideOnce_edges_canonical _ _ h

theorem bevel_edges_canonical (m : MeshQ) (se : List (ℕ × ℕ))
    (o : BevelOptionsQ) (hg : ¬se.length = 0)
    (h : ∀ p ∈ (bevel m se o).geometry.edges, p.1 < 65536 ∧ p.2 < 65536) :
    (bevel m se o).geometry.edges =
      rebuildEdges (bevel m se o).geometry.indices := by
  unfold bevel at h ⊢
  rw [if_neg hg] at h ⊢
  exact (rebuildEdges_toUint16 _ h).symm

theorem mirror_edges_canonical (m : MeshQ) (o : MirrorOptionsQ)
    (h : ∀ p ∈ (mirror m o).geometry.edges, p.1 < 65536 ∧ p.2 < 65536) :
    (mirror m o).geometry.edges =
      rebuildEdges (mirror m o).geometry.indices := by
  unfold mirror at h ⊢
  exact (rebuildEdges_toUint16 _ h).symm

theorem array_edges_canonical (m : MeshQ) (o : ArrayOptionsQ)
    (hg : 1 < o.count)
    (h : ∀ p ∈ (array m o).geometry.edges, p.1 < 65536 ∧ p.2 < 65536) :
    (array m o).geometry.edges =
      rebuildEdges (array m o).geometry.indices := by
  unfold array at h ⊢
  rw [if_neg (by omega)] at h ⊢
  exact (rebuildEdges_toUint16 _ h).symm

theorem solidify_edges_canonical (m : MeshQ) (o : SolidifyOptionsQ)
    (h : ∀ p ∈ (solidify m o).geometry.edges, p.1 < 65536 ∧ p.2 < 65536) :
    (solidify m o).geometry.edges =
      rebuildEdges (solidify m o).geometry.indices := by
  unfold solidify at h ⊢
  exact (rebuildEdges_toUint16 _ h).symm

theorem knife_edges_canonical (m : MeshQ) (cut : KnifeCutQ)
    (hg : 2 ≤ cut.points.length)
    (h : ∀ p ∈ (knifeCut m cut).geometry.edges, p.1 < 65536 ∧ p.2 < 65536) :
    (knifeCut m cut).geometry.edges =
      rebuildEdges (knifeCut m cut).geometry.indices := by
  unfold knifeCut at h ⊢
  rw [if_neg (by omega)] at h ⊢
  exact (rebuildEdges_toUint16 _ h).symm

theorem decimate_edges_canonical (m : MeshQ) (o : DecimateOptionsQ)
    (h1 : o.ratio < 1)
    (h : ∀ p ∈ (decimate m o).geometry.edges, p.1 < 65536 ∧ p.2 < 65536) :
    (decimate m o).geometry.edges =
      rebuildEdges (decimate m o).geometry.indices := by
  have heq : decimate m o = decimateCollapse m o.ratio := by
    unfold decimate
    rw [if_neg (not_le.mpr h1)]
    cases hm : o.mode <;> rfl
  rw [heq] at h ⊢
  unfold decimateCollapse at h ⊢
  exact (rebuildEdges_toUint16 _ h).symm

theorem polygonsToGeometry_edges_canonical (polys : List PolyQ)
    (h : ∀ p ∈ (polygonsToGeometry polys).edges, p.1 < 65536 ∧ p.2 < 65536) :
    (polygonsToGeometry polys).edges =
      rebuildEdges (polygonsToGeometry polys).indices := by
  unfold polygonsToGeometry at h ⊢
  exact (rebuildEdges_toUint16 _ h).symm

theorem boolean_edges_canonical (m : MeshQ) (o : BooleanOptionsQ)
    (h : ∀ p ∈ (boolean m o).geometry.edges, p.1 < 65536 ∧ p.2 < 65536) :
    (boolean m o).geometry.edges =
      rebuildEdges (boolean m o).geometry.indices :=
  polygonsToGeometry_edges_canonical _ h

end ZModel
